import Mathlib

set_option maxRecDepth 100000

/-!
Verification of the reproducible caching / persistence / sampling /
filtering core of the rad_rework repository.

The development shallowly embeds the relevant Python code:

* `PyVal` models JSON-compatible Python values (the dict representations of
  `Storable` entities).  Python dicts are modelled as association lists in
  insertion order, which is exactly the information `json.dumps` consumes.
* `jsonDumps` models `json.dumps(...)` with its default arguments
  (`ensure_ascii=True`, separators `", "` / `": "`, and crucially *no*
  `sort_keys`), as called by `Storable.get_id`.
* `sha3_256hex` is a complete executable SHA3-256 (Keccak-f[1600], FIPS 202)
  so that content IDs (`Storable.get_id`) are computed for real.
* `mtGenrand` etc. model CPython's Mersenne-Twister `random.Random` and
  `Random.sample`, used by `TestCaseCollection.get_equal_sample`.

Machine words are `Nat`s masked explicitly with `&&& mask32` / `&&& mask64`.
-/

/-! ### Python values and dict primitives -/

/-- JSON-compatible Python values, as produced by `get_dict_representation`.
Dicts are association lists in insertion order (the order `json.dumps`
serializes them in).  Python floats are modelled as the exact rational value
of their decimal literal. -/
inductive PyVal where
  | str (s : String)
  | int (i : Int)
  | float (q : Rat)
  | bool (b : Bool)
  | none
  | list (items : List PyVal)
  | dict (entries : List (String × PyVal))
deriving Repr

/-- Python `d[k]` lookup on an (insertion-ordered) dict. -/
def dictGet (d : List (String × PyVal)) (k : String) : Option PyVal :=
  (d.find? (fun kv => kv.1 == k)).map (fun kv => kv.2)

/-- Python `d[k] = v`: updates the value in place (keeping the key's
position) if the key exists, else appends the new pair. -/
def dictSet (d : List (String × PyVal)) (k : String) (v : PyVal) :
    List (String × PyVal) :=
  if d.any (fun kv => kv.1 == k) then
    d.map (fun kv => if kv.1 == k then (k, v) else kv)
  else d ++ [(k, v)]

/-- Python `old.update(new)`: `__setitem__` for each pair of `new` in
order. -/
def dictUpdate (old new : List (String × PyVal)) : List (String × PyVal) :=
  new.foldl (fun acc kv => dictSet acc kv.1 kv.2) old

/-! ### `json.dumps` with default arguments (no `sort_keys`) -/

/-- Hex digit (lowercase), for `\uXXXX` escapes and hexdigests. -/
def hexChar (n : Nat) : Char :=
  if n < 10 then Char.ofNat (48 + n) else Char.ofNat (87 + n)

/-- Four-digit lowercase hex, as in JSON `\uXXXX` escapes. -/
def hex4 (n : Nat) : String :=
  String.mk [hexChar (n / 4096 % 16), hexChar (n / 256 % 16),
             hexChar (n / 16 % 16), hexChar (n % 16)]

/-- Escape one character the way CPython's `json` C encoder does with
`ensure_ascii=True`: `\"`, `\\`, the named control escapes, `\u00XX` for
remaining control characters, `\uXXXX` (with surrogate pairs) for
non-ASCII. -/
def jsonEscapeChar (c : Char) : String :=
  if c = '"' then "\\\""
  else if c = '\\' then "\\\\"
  else if c = '\n' then "\\n"
  else if c = '\t' then "\\t"
  else if c = '\r' then "\\r"
  else if c.toNat = 8 then "\\b"
  else if c.toNat = 12 then "\\f"
  else if c.toNat < 32 then "\\u" ++ hex4 c.toNat
  else if c.toNat < 127 then String.mk [c]
  else if c.toNat < 65536 then "\\u" ++ hex4 c.toNat
  else
    let v := c.toNat - 65536
    "\\u" ++ hex4 (55296 + v / 1024) ++ "\\u" ++ hex4 (56320 + v % 1024)

def jsonEscape (s : String) : String :=
  String.join (s.data.map jsonEscapeChar)

/-- Decimal representation of a Python float whose value is an exact
finite decimal (all float literals appearing in this repository are).
Matches `repr` / `json.dumps` output: `1.0`, `0.5`, `-0.25`, ...
For rationals without a finite decimal expansion (unused here) it falls
back to a fraction string. -/
def floatRepr (q : Rat) : String :=
  if q.den = 1 then toString q.num ++ ".0"
  else
    let sign := if q.num < 0 then "-" else ""
    let m := q.num.natAbs
    match (List.range 31).find? (fun e => 10 ^ e % q.den = 0) with
    | Option.some e =>
      let scaled := m * (10 ^ e / q.den)
      let ip := scaled / 10 ^ e
      let fp := scaled % 10 ^ e
      let fpStr := toString fp
      let pad := String.mk (List.replicate (e - fpStr.length) '0')
      sign ++ toString ip ++ "." ++ pad ++ fpStr
    | Option.none => sign ++ toString m ++ "/" ++ toString q.den

/-- Joins with `", "`, the default `json.dumps` item separator. -/
def joinComma (parts : List String) : String :=
  match parts with
  | [] => ""
  | p :: rest => rest.foldl (fun acc s => acc ++ ", " ++ s) p

mutual

/-- Model of `json.dumps(v)` with default arguments, exactly as called by
`Storable.get_id` (`storable.py` line 71): insertion-ordered keys (no
`sort_keys`), separators `", "` and `": "`, `ensure_ascii=True` (so the
output is pure ASCII). -/
def jsonDumps : PyVal → String
  | .str s => "\"" ++ jsonEscape s ++ "\""
  | .int i => toString i
  | .float q => floatRepr q
  | .bool b => if b then "true" else "false"
  | .none => "null"
  | .list items => "[" ++ joinComma (jsonDumpsList items) ++ "]"
  | .dict entries => "\x7b" ++ joinComma (jsonDumpsEntries entries) ++ "\x7d"

/-- Serializations of the elements of a JSON array, in order. -/
def jsonDumpsList : List PyVal → List String
  | [] => []
  | v :: vs => jsonDumps v :: jsonDumpsList vs

/-- Serializations of a dict's `"key": value` items, in insertion order. -/
def jsonDumpsEntries : List (String × PyVal) → List String
  | [] => []
  | (k, v) :: rest =>
    ("\"" ++ jsonEscape k ++ "\": " ++ jsonDumps v) :: jsonDumpsEntries rest

end

/-! ### SHA3-256 (Keccak-f[1600], FIPS 202)

`hashlib.sha3_256` as used by `Storable.get_id`.  Lanes are `Nat`s
masked to 64 bits. -/

def mask64 : Nat := 0xffffffffffffffff

def rotl64 (x k : Nat) : Nat :=
  ((x <<< k) ||| (x >>> (64 - k))) &&& mask64

/-- Lane `i` (0 ≤ i < 25, index `x + 5*y`) of a Keccak state. -/
def getLane (a : List Nat) (i : Nat) : Nat := a.getD i 0

/-- Keccak round constants. -/
def keccakRC : List Nat :=
  [0x0000000000000001, 0x0000000000008082, 0x800000000000808a,
   0x8000000080008000, 0x000000000000808b, 0x0000000080000001,
   0x8000000080008081, 0x8000000000008009, 0x000000000000008a,
   0x0000000000000088, 0x0000000080008009, 0x000000008000000a,
   0x000000008000808b, 0x800000000000008b, 0x8000000000008089,
   0x8000000000008003, 0x8000000000008002, 0x8000000000000080,
   0x000000000000800a, 0x800000008000000a, 0x8000000080008081,
   0x8000000000008080, 0x0000000080000001, 0x8000000080008008]

/-- Rho rotation offsets, indexed by source lane `x + 5*y`. -/
def keccakRot : List Nat :=
  [0, 1, 62, 28, 27] ++ [36, 44, 6, 55, 20] ++ [3, 10, 43, 25, 39] ++
    [41, 45, 15, 21, 8] ++ [18, 2, 61, 56, 14]

def keccakTheta (a : List Nat) : List Nat :=
  let c := (List.range 5).map (fun x =>
    getLane a x ^^^ getLane a (x + 5) ^^^ getLane a (x + 10) ^^^
    getLane a (x + 15) ^^^ getLane a (x + 20))
  let d := (List.range 5).map (fun x =>
    c.getD ((x + 4) % 5) 0 ^^^ rotl64 (c.getD ((x + 1) % 5) 0) 1)
  (List.range 25).map (fun i => getLane a i ^^^ d.getD (i % 5) 0)

/-- Combined rho and pi: destination lane `X + 5*Y` receives the rotated
source lane `((X + 3*Y) % 5) + 5*X`. -/
def keccakRhoPi (a : List Nat) : List Nat :=
  (List.range 25).map (fun j =>
    let X := j % 5
    let Y := j / 5
    let src := ((X + 3 * Y) % 5) + 5 * X
    rotl64 (getLane a src) (keccakRot.getD src 0))

def keccakChi (b : List Nat) : List Nat :=
  (List.range 25).map (fun j =>
    let x := j % 5
    let y := j / 5
    getLane b j ^^^
      ((mask64 ^^^ getLane b ((x + 1) % 5 + 5 * y)) &&&
        getLane b ((x + 2) % 5 + 5 * y)))

def keccakRound (a : List Nat) (rc : Nat) : List Nat :=
  let c := keccakChi (keccakRhoPi (keccakTheta a))
  (getLane c 0 ^^^ rc) :: c.drop 1

def keccakF (a : List Nat) : List Nat := keccakRC.foldl keccakRound a

/-- Little-endian read of up to 8 bytes into one 64-bit lane. -/
def le64 (bytes : List Nat) : Nat :=
  (bytes.take 8).foldr (fun b acc => acc * 256 + b) 0

/-- XOR a 136-byte rate block into the first 17 lanes and permute. -/
def keccakAbsorbBlock (st : List Nat) (block : List Nat) : List Nat :=
  let lanes := (List.range 17).map (fun i => le64 (block.drop (8 * i)))
  keccakF ((List.range 25).map (fun i =>
    getLane st i ^^^ (if i < 17 then lanes.getD i 0 else 0)))

/-- Absorption loop over 136-byte rate blocks; the fuel is an upper bound
on the block count (one block is consumed per step). -/
def keccakAbsorbAux : Nat → List Nat → List Nat → List Nat
  | 0, st, _ => st
  | fuel + 1, st, msg =>
    if msg.length ≤ 136 then keccakAbsorbBlock st msg
    else keccakAbsorbAux fuel (keccakAbsorbBlock st (msg.take 136)) (msg.drop 136)

def keccakAbsorb (st : List Nat) (msg : List Nat) : List Nat :=
  keccakAbsorbAux (msg.length + 1) st msg

/-- SHA3 multi-rate padding for rate 136: append `0x06`, zero-fill, set the
top bit of the final byte (`0x86` when a single pad byte remains). -/
def sha3Pad (msg : List Nat) : List Nat :=
  let q := 136 - msg.length % 136
  if q = 1 then msg ++ [0x86]
  else msg ++ [0x06] ++ List.replicate (q - 2) 0 ++ [0x80]

/-- The 8 little-endian bytes of a lane. -/
def laneBytes (x : Nat) : List Nat :=
  (List.range 8).map (fun i => x >>> (8 * i) &&& 255)

def bytesToHex (bytes : List Nat) : String :=
  String.join (bytes.map (fun b => String.mk [hexChar (b / 16), hexChar (b % 16)]))

/-- Model of `hashlib.sha3_256(bytes).hexdigest()`. -/
def sha3_256hex (msg : List Nat) : String :=
  let final := keccakAbsorb (List.replicate 25 0) (sha3Pad msg)
  bytesToHex (((List.range 4).map (fun i => laneBytes (getLane final i))).flatten)

/-- Model of `s.encode("utf-8")` for ASCII strings.  `json.dumps` output is always
ASCII (`ensure_ascii=True`), where UTF-8 encoding is the identity on code
points. -/
def asciiEncode (s : String) : List Nat := s.data.map (fun c => c.toNat)

/-- Model of `Storable.get_id` (storable.py lines 62–72): the SHA3-256 hexdigest of
the UTF-8 encoding of `json.dumps(self.get_dict_representation())` —
*without* `sort_keys`. -/
def getId (rep : PyVal) : String := sha3_256hex (asciiEncode (jsonDumps rep))

/-! ### CPython `random.Random`: MT19937, `getrandbits`, `_randbelow`,
`sample`

The 624-word generator state is packed into a single `Nat` (word `i` at
bits `[32*i, 32*i + 32)`); all arithmetic is explicit mod-2^32. -/

def mask32 : Nat := 0xffffffff

/-- Word `i` of a packed MT19937 state. -/
def mtWord (arr : Nat) (i : Nat) : Nat := (arr >>> (32 * i)) &&& mask32

/-- Replace word `i` (new value must be < 2^32). -/
def mtSetWord (arr : Nat) (i v : Nat) : Nat :=
  arr - (mtWord arr i <<< (32 * i)) + (v <<< (32 * i))

/-- Model of `init_genrand(s)` of mt19937ar.c (as embedded in CPython's
`_randommodule.c`). -/
def mtInitGenrand (s : Nat) : Nat :=
  (List.range 623).foldl
    (fun arr k =>
      let i := k + 1
      let prev := mtWord arr (i - 1)
      mtSetWord arr i ((1812433253 * (prev ^^^ (prev >>> 30)) + i) &&& mask32))
    (s &&& mask32)

/-- First mixing loop of `init_by_array` (state: packed array, `i`, `j`). -/
def mtIbaLoop1 (key : List Nat) (start : Nat × Nat × Nat) : Nat × Nat × Nat :=
  (List.range (max 624 key.length)).foldl
    (fun (st : Nat × Nat × Nat) _ =>
      let (arr, i, j) := st
      let prev := mtWord arr (i - 1)
      let p := ((prev ^^^ (prev >>> 30)) * 1664525) &&& mask32
      let v := ((mtWord arr i ^^^ p) + key.getD j 0 + j) &&& mask32
      let arr := mtSetWord arr i v
      let i := i + 1
      let (arr, i) :=
        if i ≥ 624 then (mtSetWord arr 0 (mtWord arr 623), 1) else (arr, i)
      let j := if j + 1 ≥ key.length then 0 else j + 1
      (arr, i, j))
    start

/-- Second mixing loop of `init_by_array` (state: packed array, `i`). -/
def mtIbaLoop2 (start : Nat × Nat) : Nat × Nat :=
  (List.range 623).foldl
    (fun (st : Nat × Nat) _ =>
      let (arr, i) := st
      let prev := mtWord arr (i - 1)
      let p := ((prev ^^^ (prev >>> 30)) * 1566083941) &&& mask32
      let v := ((mtWord arr i ^^^ p) + (2 ^ 32) - i) &&& mask32
      let arr := mtSetWord arr i v
      let i := i + 1
      if i ≥ 624 then (mtSetWord arr 0 (mtWord arr 623), 1) else (arr, i))
    start

/-- Model of `init_by_array(key)`: how CPython seeds the generator from an
integer seed's 32-bit chunks. -/
def mtInitByArray (key : List Nat) : Nat :=
  let first := mtIbaLoop1 key (mtInitGenrand 19650218, 1, 0)
  let second := mtIbaLoop2 (first.1, first.2.1)
  mtSetWord second.1 0 0x80000000

/-- One full twist (state regeneration), done in place word by word. -/
def mtTwist (arr : Nat) : Nat :=
  (List.range 624).foldl
    (fun a i =>
      let y := (mtWord a i &&& 0x80000000) + (mtWord a ((i + 1) % 624) &&& 0x7fffffff)
      let v := mtWord a ((i + 397) % 624) ^^^ (y >>> 1) ^^^
        (if y % 2 = 1 then 0x9908b0df else 0)
      mtSetWord a i v)
    arr

/-- Generator state: packed word array plus the output index `mti`. -/
structure MTState where
  arr : Nat
  idx : Nat
deriving Repr, DecidableEq

/-- The 32-bit little-endian chunks of `abs(seed)` as CPython's
`random_seed` computes them (one `0` chunk for seed 0, handled in
`mtInit`); 128 chunks cover every seed below 2^4096, far beyond any seed
this repository passes. -/
def seedChunksAux : Nat → Nat → List Nat
  | 0, _ => []
  | fuel + 1, n =>
    if n = 0 then [] else (n &&& mask32) :: seedChunksAux fuel (n >>> 32)

def seedChunks (n : Nat) : List Nat := seedChunksAux 128 n

def mtInit (seed : Nat) : MTState :=
  ⟨mtInitByArray (if seed = 0 then [0] else seedChunks seed), 624⟩

/-- Model of `genrand_uint32`: twist if the index is exhausted, then temper and
emit one word. -/
def mtNext (st : MTState) : Nat × MTState :=
  let st := if st.idx ≥ 624 then MTState.mk (mtTwist st.arr) 0 else st
  let y := mtWord st.arr st.idx
  let y := y ^^^ (y >>> 11)
  let y := y ^^^ ((y <<< 7) &&& 0x9d2c5680)
  let y := y ^^^ ((y <<< 15) &&& 0xefc60000)
  let y := (y ^^^ (y >>> 18)) &&& mask32
  (y, MTState.mk st.arr (st.idx + 1))

/-- Model of `getrandbits(k)` for `1 ≤ k ≤ 32`: the top `k` bits of one output
word (the only case `_randbelow` needs). -/
def mtGetrandbits (k : Nat) (st : MTState) : Nat × MTState :=
  let (y, st') := mtNext st
  (y >>> (32 - k), st')

/-! ### Precomputed seed-0 generator state

Evaluating the full seeding chain in one kernel reduction overflows the
elaborator stack, so the intermediate states of `mtInitByArray [0]` are
recorded as literals and proved step by step (each step is one loop, which
reduces fine); the counterexample/witness evaluations below start from the
proved literal state. -/

/-- Value of `mtInitGenrand 19650218` (the state `init_by_array` starts
from). -/
def mtSeedA1 : Nat := 62685089405509111925910797243914719854890513935494713084094713797279779630627496305943786046941309007281293105221577504421353501605599255248785149356818580886163074212016138319710181437623915839386196989339984175865611290932895638485827512283879634622589907034847096838980553398268338905605705315464924834076955485269257682765843392777664062904318116756644819538761883164862381873685805923051342196114892111881287659915424456096361326051748180740843339721465950121631833352165428366344241754810081140762710579390137795215443629123183303201044796731629341661542390258966032612552126580439913324626563213547393121217728067632048719897064596438939163041106934301355643192260261867872030533878188557727018817797219012064641958276099544136480610826250078810896212505254064619595899307426216931651016613164877613570296351724055264357110051005104450572173606849938075379012356137114572525910752676385589168436483206759652170097284388598518122222819376116616668668677988651997615236221431416155794821321118852088948452164682783715959922435191327367306488124638818446090532334864386359317233873012285172875896330714873881780586230596002778688422250420590175698633544778262136505069053046737202152515000629854634631225453245996997340762744567896897683212149150732909707719966588817675821630380251456266588599804209831660991462715440400663143017564651072677052296295930367391822676512661642282350234567553218318066651318510488484545671729568971887621684270732981974442582657502555066960418690332945218280990034155505553171409775830458482159957769211244505225186771766058316021949327301666418107251589707938065072144733816368743637495699897181007119363672460040974223449086641663004605507793014252452324150238463715514559124307431648478948480649031081489229583165223570218974125422263886587593014744330199975749832650568652404661542746543584685860761547297457070273167102314576665676644281998277713093924236551494770138725647883566971887853912300960949802636372591951717316415323846182747445131420005722224687602711525724505110953736568981699982016588947035894059736087136235396798804019434387781559696138411966704777989194870090051835909943079457649936020314680876367897457337488804889342331824364904005266943816631681518612047693872607083945336048154993001716858914072302230374294986610531277637599664647525761147514008899238689946802093944865612982597431648203028809043429562401771290925843222821220221381984318518256971016750121270624021542153515130386081256853244444367484914891752438843250797295149886721543902585582757118492217204960123203770309672216674331373413106027454841661967870247822106376003696537006476355273043676224973894002060133928765135363584693312631060562155459381152426642778209514491263275588735458188352331628933634618912177576995916817414488324819680108333628484452298807271017999262374749573133359090629722111402666396222385680310709557844049479865847370371052888681758484468279513921172987571336140289500145715018352119752770038578015899178947425013401300127437407370742417936980607757405410607208376626705322894782663757703548808362869195819947150150865798288136994832911439410269353230208345410503242199606186650417333579047848825834242257112060317620885151293421378661990197161958015730358249113963865616811805417654957899792836277351433146683316643158745577273742588847277405020330699298979666450169324546781433015633218213248018986767013905101885085728066131985273947793365444250280947765884488609302913437528001802423347517836456663978922564542901160075954132077499502061844004777463229898312792357201472450520034421742281215395838957029567457078867297742321364249618062920323524100796395855490398720473188748064226082130624085325443879193454095100721902723688608983702297802922465778395428510531587340343771240068168890882622394112252370643121994567113348850616779414952571984309063927162547038575769391208822294299053225776973195785292510157058775147687493667385905281728614066936870793483631104130486096422866739022254251631022238998824784309871214211336594149372534724828516536519652291847191320934127662041939033266344757810255450761243406685982638804631309022215852991706323223872506356963395668107287976200691035733250165615782065576159415303394415966535152327550107294310945533761757937224536792146711105700674959937207778503501562879445241463662142281185819506210181780721218897488871995890898495582077564387715740371190275817001449471008660140255770382875594805433223352833476546594040372715841292252983175468170554585838014797017976570586587751089146553833551413146641975370517778330202052282190648141351908509904289169596729111939424597802445523234111653813513351586367960175769546506050051493655326103823629699245586418016468660736051425039803522537493270385743437525903109563398688573456345292160567787373069854610200635728800730405759403691875432721043746233636765094325962472698626875833148826372580999341547042531665331710768365982359935219565301595187067772247975847412037958098451506998773182171027695752045356894447709388159633645629545493246019135820915900506906032640701290570506299065346661219735445730896769091171352761432210047450382980030625592142825700677633624952217795344145832513082782540989616413040988227257601039794195623143595351637462190706636535912449334420058581521218743569834717812580171279915160794789675762903718339466089866492140118823551337811927493524761760551434001520245324751568861558716803095718510972066599595072196209156923318071322517301806566620458899402166430591631348363311478802800521980525250372511467674969151489645720009661369785217086930227581405674315978920044798755483144811069077253851302610194739624245401270682864202663540116818822475326676741780611737275972111438408802370422377608919256570335384654037352344114105999356653180812503717835632673409647782213628400383443178293619326757139369589058612122088577237252104060778375287897543799460272211546791798613974575310224299012205778134871255296492395729078221387894808011355820153110205338707003138385845672884757408327786763143168159295742358655797897448897721796416755370

/-- Packed array after the first `init_by_array` mixing loop for key
`[0]`. -/
def mtSeedA2 : Nat := 80332019833464000606730933673450576913197636754390915770646117196048408435703270924672506210331105059214400757775622964515444557325317693531404590346832451873603011770212132037814586732947424375964443595382929528460349521305633972320254216209119099234962967915678083099766751871073929169859073496883167623133590677488351976288262326895898982236416752196047351944216635145673446886370158469855028083456985799294368533651837282789936413698171554379342731711390452468518406094153803642684410244174598181474258118086803605161504386032327079512656456529604285836329873244638306470976963337724988854804781102105192063933756523388983553287225468580937366153880723928623087813643458418574899904062398986539471574321164099292773323028451604313809835675928746572660200345063884426873783243113419634991260049379712187187758239215087387973949389128239594564484364609872473764787988818464027208176505468879881537668780588800039561069424735276506953429173728004763848277191267779098633727566273907980999510811200410256819886958762479635526696272851273473617912605150072687145552050399957200578382788432463379357724381588458571915476619659899036377664332537713848114261288629583551318772171184476817938349057019384820168625997330724931526162927282147808417995363846164053865818271755847695576375261069692182551190913180871248370479639298468127484303234769945674235175542271976957518905208225599422222314212833724116974866930432442998503368574426585775254556137227165225042956922134572146359658534850858068523506359713893762449660334180888364664789046736581179638857526005073602291561735172566867455909321251782333857972134093659275746496041392034502304275584323333821106753580047926555237769141283750005257076151754310760755233458206341305502154298951651861255957960598381868875870914994354946833684806266727695496607941245945673100785412285508634275483558849839280606176096227569398442954246607712900062883801211866707347912885948316337585163496156940965643669233445035272069271563043993410522997113058385027223659188580442293097914254301333928107465079258060600196799420510930313173233921775859817182703022368916284761819841408790901080091049621197579350317576013607583346773873725427960841302998840962564820660341315107852942073896397668822898954530249230761807729573861001312072910110399685036691159503004441253279471911280408507713009083129233265771056610389642895317505303318653587730944261765786365194382509874989362387823164726787300620384734673182068278231603153666920272110937315941634040097925685568902976508327984738778172908223000505365680279051343251717984870795022093663950887600462263472430334826884038376514242133477086658854529434223810459517604066207023696202393037633175058510263562734283587795960245707907737373435928876072751507529403027642177015004832012718830606770865176402488368740413670822923055110947444314832223244064916484143507771934167708516667165693516766946267066381139191991440322733421879487547197466434889447083829775820726880832056912106542778477957784579905859024540875372223665610245370922345695948704309254382396126084389804325819421656697171284310828412953491370733160848182479179425105330890510304793845163796160039625699960746021303052608146872827779913771301403393933899341674653435457554336290086033933403188777438240992003144754274570362041927156502157614416015791064308779712509805462282212824247964079567345911211836331418903195080858191323820772435046229919968559846598054856223614234751464677026978663592833021932131890223863958488557751491929790870681634352166306382551053641170653148513905065586371426231708094860319969199188695532125248416114620289163382319209793411273358594075752037420556118716174284285978968869543523463603468900068149176242819535207000347943939513684009629204695145325041863767583594338549819427003722583447738787732904687373697389686768425655696023441805569007306032471347818742334781865032994883722470073322517167763405493903008156744344263867720008667559588039200445195557318999051055455025195569376448939643833990213867505789065804525840317990487864426864930687128797713003319147051032515407446786178675045711594775298965938018090478180715108618828086128653946485579252388215428615579410211075316731894910963464679873257600916358821340704126863196327196356864471613526418091282165488107412289111579557436712064342352662432528489025628204182769414534853168053274242753007501456705760595123829802811744649845728697124768785264221577936459906439991787592093113687500565049236563249516631298169487501509594594033925185667580019087815818153905788385444015040729401296900846661253360540787055058372962676493669089800226055801605165366101076300590932435198977451334590672082740001304514763168343729041719486160834177722167150644654041331321654578110050932137683728863023056767278473978828534709959718467959561585531445134077002008324909673940482448564196026461151139704985911542576157063258251379941201243442127062137635271959749887380651977511009976937741733602024736085630906404574743787314243327500864322302549438576452382844035456609791876391353075229220425940526468802155542747390000525003581485314651256888653772881680853087710390760687151783568124203945922825579760514347153213388536423918343404544798594048876399158968330711781702247264835887433776492561338428998006920894516568243526705540141060671254647929900049988639089931099877326419393723874807335068878185187514563557027802255008664788097761410873442687901948430337131301348706577361621328109562259498047149414003581430280728540054722770641676113110109787937810282652877424751539807953722221495542458515646211138683933182529243782456810746863254271755420279794489511061300785021446837209939090850062986230461493385311926746789262151244125942541173412355902105236020178920242225989967101954220647294809592980731532108860157668558130486782206162682089934422499163109727308386331539048739868072814557729195687882318047742562626831438641742242381643541896826238272557423140129883763841575780602313477167126031691596324987187755956523305971390697334729007238199806212625415943499866477427211994

/-- Packed array after the second `init_by_array` mixing loop. -/
def mtSeedA3 : Nat := 62632368871981897401725838814879903227526754483505567333669981851090800062459725205343431597256677946024352104667448097752265794732738897838206151356438342901573729484179544183770871558105174787975576633009523215919069605456848595107657519336678885015945035192185535868648638958277212743895937462897468740386181560691503949659580305448861019151170106043121106933431613564411170345564474844144526017556767388478939872175338278808832954778316123727977144284587501306980404892099470187242920408652478568291966260744029506987063475418522108658677603684728416327776096893831282566829224320689371656528485200314366980554569534917737232959098813058804795344470825938683380838473567130489279251653639111514044812513052064324043890512219179857371832824803336571647528627108881925340664583540883929077276296471516973083688081436937382533491906499840220374566583809702659756837458232455967335889671283439623566101598789335482922285234772361836500317480955200610110626971473369946393437472031732090396958459958071818843083914826765105084737324714057469402840545148650965580671902525782615414098519711394166524582439120421013278875318386227958497929957376711537249751081019660483716965320627640422636755791078908666358113939424783649042866190616661544793815711350138374681198753101001896367478353963127388890567255886310854870161145895671452835123378860351584255019956344175924047144572086344728463002021714911088753306735897034862111635566623789317369498993200770339139177564190577472647247198534849844528961486333432553137322480056033643243383446880457845062617366015591511846885167639860227764563043866126479808504180816520028478194426666120823586613375630619790865694216681763652646042165632975162716955377595988083737139069381886801698489936104036358125280472366342289645624912795566364945371511040872291806251404604011015707358693326278715053274232342531725934305456275525609408459326647483678785018052058565034191773293449776198118771578781946268222906057519923448124031490120299382110340157197055602425513226168622296207255105250335075593467716289914098261488239408006059220961851597596495397894294026431708041876821749099943068665595142193816826769553244080153732895422099200701704136678441714158311423396097265879141515079484329706436587150723941727259939418644731469001977842710244387295741374623661910217310419731856534683105728597779760058085436221950887266117188087806814386059797470576325315598682145072145788873119218975880627580203394220066700909343485912971469686748161681874973752441813771830717022884129530528258479616249641762594132240928019129368640910519813206849475871028957665749898958605428767578155118396872542290515128562146072299929505515392839924204008400289047435799460360360141566269591639916438114992042249233476696371836924206356885864291657292039816577722443926650267638576585805250981226077424139435147044073500201196448337297080865218899154929247015365538630014549592968533547178143937214644722990820447557730294736517135135681306584323470580859504229454791487436983221158923262509484095279789931736634531130818617443356294986791861093768288361614827786451048562572846947226968740603144095470640476722077265875189705693994966330615605038522782177224596846603721266551359930607751103592314764282202863354574177363224107847950884524883718296499520198803881742473948867501560963368006263305273897466261028948231559529880347690123577722593966301578589278306246751725085923060514771907981322467006636568858452935644064060363254482784303899153315079316178778189367875083706187802703089288666450884953683177047800876469039946887761610017027264790690178672231288735190661591115668287438494128974398782640783307861139540203445352607598233359716599715199741889800430186925992116237827008001143398242755919797205213976272059683205135714606927587082719464164143173618370736097578744516654979987016856532512982909950511334195871190275185110138489652260660669750680005880434124700320398594710246691054989123013729386639777079600592017661451713203322969472570376166677268002375953315969623349267292729100623125359165570612401662541650153095563915755811413148809335460056895488668973244061290042140870171148779877708079526563735865695471344157399284281326181617877474974327718264718083447329540069777953799145378562082302767987451080314101115897299964165273028147358795733777618181320520148174425357122726217771294407137217711540040016056839995740966957995213016752708579875878608834071086793091766858135587589807026934078340337689853487935980530619812314752209548231398364719703010515334973013166876658976565807380377390036748958202473313063137496708350974752037135040925738491766011864322310801508164941488235394793343974576526003874473478042581945534562814752915012813186364167365079311089917631105592679353961856534048607806253929000093020092160376474925991028752332723958677214674947941889953107471939844403474064942684414752952178864647941581080739450037253754953859763402842550528092734654881142349024735693877699964495343357470985903871202907123390554403102907140762711673109082802093536484441569351652395444910507203740876215033767100534180245799938679099211662963476077547839423607111924854309032126884646830290603499784031175320944460630881483033559132246393660078509128642431994148612541085159076639725959237592603158101113158821023630647379193662898870732760895622152550406046559816961551810799927088091883631855906082373864863330720729405265363012090925952666052250184904062995511510251255186179079241107238007418208601794186461344022808485205594982804843637287916820762751729772610977406165449151878777115296942543556302460455468273660722864916387923274378564875085379421311145436519155097721888890568997743642785772216843873622331845734307292315294957431084431536338867785180108606733419750027876974828099025160523142208471505985894388205113200489247670392884671354647744545184343405491303795865248249718732463589665038829000846312082992301155624474275054213992931005129334668436047509996601340955667103546308596705218718522633575127920988057858052845517167197524652584820858564794122633

/-- The packed MT19937 array of `random.Random(0)`. -/
def mtSeed0Arr : Nat := 62632368871981897401725838814879903227526754483505567333669981851090800062459725205343431597256677946024352104667448097752265794732738897838206151356438342901573729484179544183770871558105174787975576633009523215919069605456848595107657519336678885015945035192185535868648638958277212743895937462897468740386181560691503949659580305448861019151170106043121106933431613564411170345564474844144526017556767388478939872175338278808832954778316123727977144284587501306980404892099470187242920408652478568291966260744029506987063475418522108658677603684728416327776096893831282566829224320689371656528485200314366980554569534917737232959098813058804795344470825938683380838473567130489279251653639111514044812513052064324043890512219179857371832824803336571647528627108881925340664583540883929077276296471516973083688081436937382533491906499840220374566583809702659756837458232455967335889671283439623566101598789335482922285234772361836500317480955200610110626971473369946393437472031732090396958459958071818843083914826765105084737324714057469402840545148650965580671902525782615414098519711394166524582439120421013278875318386227958497929957376711537249751081019660483716965320627640422636755791078908666358113939424783649042866190616661544793815711350138374681198753101001896367478353963127388890567255886310854870161145895671452835123378860351584255019956344175924047144572086344728463002021714911088753306735897034862111635566623789317369498993200770339139177564190577472647247198534849844528961486333432553137322480056033643243383446880457845062617366015591511846885167639860227764563043866126479808504180816520028478194426666120823586613375630619790865694216681763652646042165632975162716955377595988083737139069381886801698489936104036358125280472366342289645624912795566364945371511040872291806251404604011015707358693326278715053274232342531725934305456275525609408459326647483678785018052058565034191773293449776198118771578781946268222906057519923448124031490120299382110340157197055602425513226168622296207255105250335075593467716289914098261488239408006059220961851597596495397894294026431708041876821749099943068665595142193816826769553244080153732895422099200701704136678441714158311423396097265879141515079484329706436587150723941727259939418644731469001977842710244387295741374623661910217310419731856534683105728597779760058085436221950887266117188087806814386059797470576325315598682145072145788873119218975880627580203394220066700909343485912971469686748161681874973752441813771830717022884129530528258479616249641762594132240928019129368640910519813206849475871028957665749898958605428767578155118396872542290515128562146072299929505515392839924204008400289047435799460360360141566269591639916438114992042249233476696371836924206356885864291657292039816577722443926650267638576585805250981226077424139435147044073500201196448337297080865218899154929247015365538630014549592968533547178143937214644722990820447557730294736517135135681306584323470580859504229454791487436983221158923262509484095279789931736634531130818617443356294986791861093768288361614827786451048562572846947226968740603144095470640476722077265875189705693994966330615605038522782177224596846603721266551359930607751103592314764282202863354574177363224107847950884524883718296499520198803881742473948867501560963368006263305273897466261028948231559529880347690123577722593966301578589278306246751725085923060514771907981322467006636568858452935644064060363254482784303899153315079316178778189367875083706187802703089288666450884953683177047800876469039946887761610017027264790690178672231288735190661591115668287438494128974398782640783307861139540203445352607598233359716599715199741889800430186925992116237827008001143398242755919797205213976272059683205135714606927587082719464164143173618370736097578744516654979987016856532512982909950511334195871190275185110138489652260660669750680005880434124700320398594710246691054989123013729386639777079600592017661451713203322969472570376166677268002375953315969623349267292729100623125359165570612401662541650153095563915755811413148809335460056895488668973244061290042140870171148779877708079526563735865695471344157399284281326181617877474974327718264718083447329540069777953799145378562082302767987451080314101115897299964165273028147358795733777618181320520148174425357122726217771294407137217711540040016056839995740966957995213016752708579875878608834071086793091766858135587589807026934078340337689853487935980530619812314752209548231398364719703010515334973013166876658976565807380377390036748958202473313063137496708350974752037135040925738491766011864322310801508164941488235394793343974576526003874473478042581945534562814752915012813186364167365079311089917631105592679353961856534048607806253929000093020092160376474925991028752332723958677214674947941889953107471939844403474064942684414752952178864647941581080739450037253754953859763402842550528092734654881142349024735693877699964495343357470985903871202907123390554403102907140762711673109082802093536484441569351652395444910507203740876215033767100534180245799938679099211662963476077547839423607111924854309032126884646830290603499784031175320944460630881483033559132246393660078509128642431994148612541085159076639725959237592603158101113158821023630647379193662898870732760895622152550406046559816961551810799927088091883631855906082373864863330720729405265363012090925952666052250184904062995511510251255186179079241107238007418208601794186461344022808485205594982804843637287916820762751729772610977406165449151878777115296942543556302460455468273660722864916387923274378564875085379421311145436519155097721888890568997743642785772216843873622331845734307292315294957431084431536338867785180108606733419750027876974828099025160523142208471505985894388205113200489247670392884671354647744545184343405491303795865248249718732463589665038829000846312082992301155624474275054213992931005129334668436047509996601340955667103546308596705218718522633575127920988057858052845517167197524652584820858564038885376

/-- Fuel for the (probabilistically terminating) rejection loops of
`Random._randbelow` and the set-based branch of `Random.sample`.  Each
extra iteration occurs with probability < 1/2, so exhausting this fuel
models an event of probability < 2^-1000; the Python loops are unbounded. -/
def rbFuel : Nat := 1000

/-- Bit length of `n` (`n.bit_length()`), by structural recursion; 64
shifts cover every population size arising here. -/
def bitLengthAux : Nat → Nat → Nat
  | 0, _ => 0
  | fuel + 1, n => if n = 0 then 0 else bitLengthAux fuel (n >>> 1) + 1

def bitLength (n : Nat) : Nat := bitLengthAux 64 n

/-- Model of `Random._randbelow_with_getrandbits(n)`: draw `k = n.bit_length()`
bits, retry while the draw is ≥ `n`. -/
def mtRandbelow (fuel : Nat) (n : Nat) (st : MTState) :
    Option (Nat × MTState) :=
  match fuel with
  | 0 => Option.none
  | f + 1 =>
    if n = 0 then Option.none
    else
      let k := bitLength n
      let (r, st') := mtGetrandbits k st
      if r < n then Option.some (r, st') else mtRandbelow f n st'

/-- Smallest `c` with `4^c ≥ m`: the value of `math.ceil(math.log(m, 4))`
in `Random.sample` (`3*k` is never an exact power of 4, so the float
logarithm's rounding cannot shift the ceiling). -/
def ceilLog4 (m : Nat) : Nat :=
  ((List.range 33).find? (fun c => m ≤ 4 ^ c)).getD 33

/-- The `setsize` threshold of `Random.sample`. -/
def sampleSetsize (k : Nat) : Nat :=
  21 + (if k > 5 then 4 ^ ceilLog4 (3 * k) else 0)

/-- The partial-Fisher–Yates branch of `Random.sample` (`n <= setsize`):
`j = randbelow(n - i); result[i] = pool[j]; pool[j] = pool[n - i - 1]`.
The pool is kept as the active prefix only: the original keeps a
fixed-length list and shrinks the active region from the right, which
reads and writes exactly the same cells. -/
def samplePoolLoop (k : Nat) (pool : List String) (st : MTState) :
    Option (List String × MTState) :=
  match k with
  | 0 => Option.some ([], st)
  | k' + 1 =>
    match mtRandbelow rbFuel pool.length st with
    | Option.none => Option.none
    | Option.some (j, st') =>
      let x := pool.getD j ""
      let last := pool.getD (pool.length - 1) ""
      match samplePoolLoop k' ((pool.set j last).dropLast) st' with
      | Option.none => Option.none
      | Option.some (rest, st'') => Option.some (x :: rest, st'')

/-- One draw of the set-based branch: retry `randbelow(n)` while the index
was already selected. -/
def mtRandbelowNotIn (fuel : Nat) (n : Nat) (sel : List Nat) (st : MTState) :
    Option (Nat × MTState) :=
  match fuel with
  | 0 => Option.none
  | f + 1 =>
    match mtRandbelow rbFuel n st with
    | Option.none => Option.none
    | Option.some (j, st') =>
      if j ∈ sel then mtRandbelowNotIn f n sel st' else Option.some (j, st')

/-- The selection-set branch of `Random.sample` (`n > setsize`). -/
def sampleSetLoop (k : Nat) (pop : List String) (sel : List Nat)
    (st : MTState) : Option (List String × MTState) :=
  match k with
  | 0 => Option.some ([], st)
  | k' + 1 =>
    match mtRandbelowNotIn rbFuel pop.length sel st with
    | Option.none => Option.none
    | Option.some (j, st') =>
      match sampleSetLoop k' pop (j :: sel) st' with
      | Option.none => Option.none
      | Option.some (rest, st'') => Option.some (pop.getD j "" :: rest, st'')

/-- Errors of `TestCaseCollection.get_equal_sample` and the library calls
it makes.  The spec's `OutOfRangeError` / `InsufficientDataError` name the
two distinct `ValueError`s the code raises. -/
inductive SampErr where
  | metricValue   -- ValueError: metric not recognized
  | outOfRange    -- ValueError: count out of range for fractional value
  | minEmpty      -- ValueError: min() of an empty sequence (no categories)
  | typeErr       -- TypeError: expecting int for non-fractional count
  | insufficient  -- ValueError: trying to select more values than available
  | sampleRange   -- ValueError raised inside random.sample (bad k)
  | fuel          -- rejection-loop fuel exhausted (see rbFuel)
deriving Repr, DecidableEq

/-- Model of `random.sample(population, k)` for a list population. -/
def pySample (pop : List String) (k : Int) (st : MTState) :
    Except SampErr (List String × MTState) :=
  if k < 0 ∨ k > (pop.length : Int) then Except.error SampErr.sampleRange
  else
    let kn := k.toNat
    let res :=
      if pop.length ≤ sampleSetsize kn then samplePoolLoop kn pop st
      else sampleSetLoop kn pop [] st
    match res with
    | Option.none => Except.error SampErr.fuel
    | Option.some r => Except.ok r

/-! ### `TestCaseCollection` and `get_equal_sample`

`TestCaseCollection` stores a dict `id → TestCase` built in list order
(`test_case_collection.py` line 27).  The `TestCase` fields the collection
reads are its content `id` and its two labels: `pcr` (a bool) and `nar`
(a nullable int); spec §3 "SampleKey / Category". -/

structure TestCase where
  id : String
  pcr : Bool
  nar : Option Int
deriving Repr, DecidableEq

/-- Generic insertion-ordered dict write (`d[k] = v`), as `dictSet` but for
any value type: used for `dict((tc.get_id(), tc) for tc in test_cases)`,
where a duplicate ID keeps its first position but takes the new value. -/
def assocSet {α : Type} (d : List (String × α)) (k : String) (v : α) :
    List (String × α) :=
  if d.any (fun kv => kv.1 == k) then
    d.map (fun kv => if kv.1 == k then (k, v) else kv)
  else d ++ [(k, v)]

/-- Model of `TestCaseCollection.__init__`: the `id → TestCase` dict in insertion
order. -/
def mkCollection (tcs : List TestCase) : List (String × TestCase) :=
  tcs.foldl (fun d tc => assocSet d tc.id tc) []

/-- Model of `tc.nar if metric == "nar" else tc.pcr`: the category label of a test
case under a metric, `none` for unlabeled.  Python uses the bool itself as
the dict key for `pcr`; since `True`/`False` hash like `1`/`0` and the two
metrics never mix in one call, booleans are encoded as the ints 1/0. -/
def tcLabel (metric : String) (tc : TestCase) : Option Int :=
  if metric = "nar" then tc.nar else Option.some (if tc.pcr then 1 else 0)

/-- Append a key to its category's list, creating the category at the end
on first appearance (`test_case_collection.py` lines 159–161). -/
def catAdd (cats : List (Int × List String)) (c : Int) (k : String) :
    List (Int × List String) :=
  if cats.any (fun p => p.1 == c) then
    cats.map (fun p => if p.1 == c then (p.1, p.2 ++ [k]) else p)
  else cats ++ [(c, [k])]

/-- The category-building loop of `get_equal_sample` (lines 151–161):
iterate the collection dict in insertion order, skip unlabeled cases,
group IDs by label. -/
def buildCategories (metric : String) (tcs : List (String × TestCase)) :
    List (Int × List String) :=
  tcs.foldl
    (fun cats kv =>
      match tcLabel metric kv.2 with
      | Option.none => cats
      | Option.some c => catAdd cats c kv.1)
    []

/-- Type of `count`, which is `Union[int, float]`.  Floats are modelled as exact
rationals (see `PyVal.float`). -/
inductive PyNum where
  | int (i : Int)
  | float (q : Rat)
deriving Repr, DecidableEq

def PyNum.val : PyNum → Rat
  | .int i => (i : Rat)
  | .float q => q

/-- Python's builtin `round` to an integer: nearest, ties to even. -/
def pyRound (x : Rat) : Int :=
  let f := x.floor
  let frac := x - (f : Rat)
  if frac < 1 / 2 then f
  else if frac > 1 / 2 then f + 1
  else if f % 2 = 0 then f else f + 1

/-- The per-category sampling loop of `get_equal_sample` (lines 174–175):
`for c in categories: chosen = chosen + random_provider.sample(categories[c],
to_choose)`, threading the single `random_provider` through the categories
in dict order. -/
def sampleCatsLoop (toChoose : Int) :
    List (Int × List String) → MTState → Except SampErr (List String × MTState)
  | [], st => Except.ok ([], st)
  | c :: rest, st => do
    let (s, st') ← pySample c.2 toChoose st
    let (srest, st'') ← sampleCatsLoop toChoose rest st'
    Except.ok (s ++ srest, st'')

/-- Model of `TestCaseCollection.get_equal_sample` (lines 126–177), faithful to the
order of checks: metric validity, fractional range, category building,
`min` over categories (ValueError on no categories), count typing, the
insufficiency check, then one seeded sampling pass over the categories. -/
def getEqualSample (tcs : List (String × TestCase)) (count : PyNum)
    (fractional : Bool) (metric : String) (random_seed : Nat) :
    Except SampErr (List String) :=
  if metric ≠ "nar" ∧ metric ≠ "pcr" then Except.error SampErr.metricValue
  else if fractional ∧ (count.val < 0 ∨ count.val > 1) then
    Except.error SampErr.outOfRange
  else
    let st := mtInit random_seed
    let categories := buildCategories metric tcs
    match categories.map (fun c => c.2.length) with
    | [] => Except.error SampErr.minEmpty
    | c0 :: crest =>
      let minAvail := crest.foldl min c0
      let toChooseE : Except SampErr Int :=
        if fractional then Except.ok (pyRound (count.val * minAvail))
        else
          match count with
          | PyNum.int i => Except.ok i
          | PyNum.float _ => Except.error SampErr.typeErr
      do
        let toChoose ← toChooseE
        if toChoose > (minAvail : Int) then throw SampErr.insufficient
        else
          let (chosen, _) ← sampleCatsLoop toChoose categories st
          Except.ok chosen

/-! ### `FeatureFilter`

A `FFSlot` is either a real `FeatureFilter` instance or — mirroring
Python's dynamic typing — any other value sitting where a filter is
expected (`FeatureFilter.from_dict` stores the serialized subfilter
entries, ID strings or dicts, directly in `self.subfilters`).  Calling a
filter method on such a value raises `AttributeError`. -/

inductive FFSlot where
  | ff (filter_name : String) (args : List PyVal)
      (subfilters : List FFSlot) (kwargs : List (String × PyVal))
  | raw (v : PyVal)
deriving Repr

/-- Python-level errors surfacing in the filter/persistence code. -/
inductive PyErr where
  | attrError     -- AttributeError: value has no such attribute
  | valueError    -- ValueError: unrecognized filter
  | keyError      -- KeyError: missing dict key
  | typeError     -- TypeError: bad arguments / bad operand types
  | indexError    -- IndexError: row shorter than the accessed column
  | unboundLocal  -- UnboundLocalError: local variable referenced before assignment
  | fuel          -- rejection-loop fuel exhausted (see rbFuel)
deriving Repr, DecidableEq

/-- Model of `get_available_filters()`: the `_filter_*` method names in `dir()`
(alphabetical) order, with the prefix stripped. -/
def availableFilters : List String :=
  ["do_nothing", "importance_threshold", "key_starts_with", "random_choice"]

/-- Model of `FeatureFilter.__init__`: rejects unknown filter names with
`ValueError`; `args` / `kwargs` / `subfilters` are deep-copied (value
semantics here). -/
def ffInit (name : String) (args : List PyVal) (subs : List FFSlot)
    (kwargs : List (String × PyVal)) : Except PyErr FFSlot :=
  if name ∈ availableFilters then Except.ok (FFSlot.ff name args subs kwargs)
  else Except.error PyErr.valueError

mutual

/-- Model of `FeatureFilter.get_dict_representation(by_id)`
(feature_filter.py lines 43-58).  On a non-filter slot the attribute
access raises `AttributeError`. -/
def ffGetDictRepresentation : Bool → FFSlot → Except PyErr PyVal
  | _, .raw _ => Except.error PyErr.attrError
  | by_id, .ff name args subs kwargs => do
    let subsRep ←
      if by_id then do
        let ids ← ffGetIds subs
        Except.ok (ids.map PyVal.str)
      else do
        let reps ← ffGetReps subs
        Except.ok reps
    Except.ok (PyVal.dict
      [("is_filter", PyVal.bool true),
       ("filter_name", PyVal.str name),
       ("subfilters", PyVal.list subsRep),
       ("args", PyVal.list args),
       ("kwargs", PyVal.dict kwargs)])

/-- The `[subfilter.get_id() for subfilter in self.subfilters]`
comprehension: `Storable.get_id` hashes each subfilter's default
(`by_id=True`) representation. -/
def ffGetIds : List FFSlot → Except PyErr (List String)
  | [] => Except.ok []
  | s :: rest => do
    let rep ← ffGetDictRepresentation true s
    let ids ← ffGetIds rest
    Except.ok (getId rep :: ids)

/-- The `[subfilter.get_dict_representation() for ...]` comprehension of
the inline branch. -/
def ffGetReps : List FFSlot → Except PyErr (List PyVal)
  | [] => Except.ok []
  | s :: rest => do
    let rep ← ffGetDictRepresentation false s
    let reps ← ffGetReps rest
    Except.ok (rep :: reps)

end

/-- Model of `subfilter.get_id()`: `Storable.get_id`, which serializes
`get_dict_representation()` with its default `by_id=True`. -/
def ffGetId (slot : FFSlot) : Except PyErr String := do
  let rep ← ffGetDictRepresentation true slot
  Except.ok (getId rep)

/-- Model of `FeatureFilter.from_dict` (lines 34–41): re-invokes the constructor on
the four stored fields.  Crucially the `subfilters` entries — ID strings
in by-ID representations, dicts in inline ones — are passed through as-is
(becoming `raw` slots), never reconstructed into `FeatureFilter`s. -/
def ffFromDict (rep : PyVal) : Except PyErr FFSlot :=
  match rep with
  | .dict d =>
    match dictGet d "filter_name" with
    | Option.none => Except.error PyErr.keyError
    | Option.some nameV =>
      match dictGet d "args" with
      | Option.none => Except.error PyErr.keyError
      | Option.some argsV =>
        match dictGet d "subfilters" with
        | Option.none => Except.error PyErr.keyError
        | Option.some subsV =>
          match dictGet d "kwargs" with
          | Option.none => Except.error PyErr.keyError
          | Option.some kwargsV =>
            match argsV, subsV, kwargsV with
            | .list args, .list subs, .dict kwargs =>
              match nameV with
              | .str name => ffInit name args (subs.map FFSlot.raw) kwargs
              | _ => Except.error PyErr.valueError
            | _, _, _ => Except.error PyErr.typeError
  | _ => Except.error PyErr.typeError

/-- Model of `Storable.save`: it writes `json.dump(get_dict_representation(by_id=True))`
into `<Kind>_<id>.json`; the modelled file content is the written value
(JSON write/read round-trips the modelled values unchanged). -/
def ffSave (f : FFSlot) : Except PyErr PyVal := ffGetDictRepresentation true f

/-- Model of `Storable.to_file`: it writes the inline (`by_id=False`) representation. -/
def ffToFile (f : FFSlot) : Except PyErr PyVal := ffGetDictRepresentation false f

/-- Composition `FeatureFilter.from_file` of either writer: `json.load` then
`from_dict`. -/
def ffLoad (v : PyVal) : Except PyErr FFSlot := ffFromDict v

/-! #### The built-in filter stages -/

/-- Python truthiness of the modelled values. -/
def pyTruthy : PyVal → Bool
  | .bool b => b
  | .int i => i != 0
  | .float q => q != 0
  | .str s => s ≠ ""
  | .list l => !l.isEmpty
  | .dict d => !d.isEmpty
  | .none => false

/-- Python `==` between a bool and an arbitrary value (`True == 1`,
`False == 0`, no cross-type equality otherwise). -/
def pyEqBool (b : Bool) : PyVal → Bool
  | .bool b' => b == b'
  | .int i => if b then i == 1 else i == 0
  | .float q => if b then q == 1 else q == 0
  | _ => false

/-- Numeric value of an int/float/bool, `none` otherwise. -/
def pyNumVal : PyVal → Option Rat
  | .int i => Option.some (i : Rat)
  | .float q => Option.some q
  | .bool b => Option.some (if b then 1 else 0)
  | _ => Option.none

/-- Keyword lookup with a default (for parameters like `invert=False`). -/
def kwGet (kwargs : List (String × PyVal)) (n : String) (dflt : PyVal) :
    PyVal :=
  (((kwargs.find? (fun kv => kv.1 == n)).map (fun kv => kv.2)).getD dflt)

/-- Bind the single named positional-or-keyword parameter following
`features` in a `_filter_*` signature: the first element of `*self.args`
if present (`TypeError` if also given by keyword), else the keyword, else
`TypeError` for a missing argument. -/
def bindParam1 (args : List PyVal) (kwargs : List (String × PyVal))
    (n : String) : Except PyErr PyVal :=
  match args with
  | a :: _ =>
    if kwargs.any (fun kv => kv.1 == n) then Except.error PyErr.typeError
    else Except.ok a
  | [] =>
    match kwargs.find? (fun kv => kv.1 == n) with
    | Option.some kv => Except.ok kv.2
    | Option.none => Except.error PyErr.typeError

/-- Bind the two named positional-or-keyword parameters of
`_filter_importance_threshold`. -/
def bindParam2 (args : List PyVal) (kwargs : List (String × PyVal))
    (n1 n2 : String) : Except PyErr (PyVal × PyVal) :=
  match args with
  | a :: b :: _ =>
    if kwargs.any (fun kv => kv.1 == n1) ∨ kwargs.any (fun kv => kv.1 == n2)
    then Except.error PyErr.typeError
    else Except.ok (a, b)
  | [a] =>
    if kwargs.any (fun kv => kv.1 == n1) then Except.error PyErr.typeError
    else
      match kwargs.find? (fun kv => kv.1 == n2) with
      | Option.some kv => Except.ok (a, kv.2)
      | Option.none => Except.error PyErr.typeError
  | [] =>
    match kwargs.find? (fun kv => kv.1 == n1),
          kwargs.find? (fun kv => kv.1 == n2) with
    | Option.some kv1, Option.some kv2 => Except.ok (kv1.2, kv2.2)
    | _, _ => Except.error PyErr.typeError

/-- Model of `_filter_key_starts_with` (lines 110–125): keep exactly the fields
whose key satisfies `key.startswith(prefix) != invert`, preserving record
and field order. -/
def filterKeyStartsWith (feats : List (List (String × PyVal)))
    (pref : String) (invertV : PyVal) : List (List (String × PyVal)) :=
  feats.map (fun d => d.filter (fun kv => !(pyEqBool (kv.1.startsWith pref) invertV)))

/-- Loop body of `_filter_importance_threshold` for one entry of the
importance mapping: drop the feature from every record when its
importance is below the threshold (inverted if requested); `dict.pop`
raises `KeyError` when a record lacks the feature. -/
def impStep (threshold invertV : PyVal) (fs : List (List (String × PyVal)))
    (kv : String × PyVal) : Except PyErr (List (List (String × PyVal))) := do
  let iv ←
    match pyNumVal kv.2, pyNumVal threshold with
    | Option.some a, Option.some b => Except.ok (decide (a < b))
    | _, _ => Except.error PyErr.typeError
  let remove := if pyTruthy invertV then !iv else iv
  if remove then
    fs.mapM (fun r =>
      if r.any (fun f => f.1 == kv.1) then
        Except.ok (r.filter (fun f => !(f.1 == kv.1)))
      else Except.error PyErr.keyError)
  else Except.ok fs

/-- Model of `_filter_importance_threshold` (lines 127–152): the
`impStep` pass folded over the shared importance mapping. -/
def filterImportanceThreshold (feats : List (List (String × PyVal)))
    (importances : List (String × PyVal)) (threshold : PyVal)
    (invertV : PyVal) : Except PyErr (List (List (String × PyVal))) :=
  importances.foldlM (impStep threshold invertV) feats

/-- Model of `_filter_random_choice` (lines 154–180): sample
`round(len(features[0].keys()) * fraction)` of the first record's keys
with a fresh `random.Random(random_seed)`, complement on `invert`, and
project every record onto the chosen keys.  CPython iterates
`set(features[0].keys())` in hash-randomized order; the model iterates in
first-occurrence order (no claim depends on the concrete selection). -/
def filterRandomChoice (feats : List (List (String × PyVal)))
    (fraction : PyVal) (kwargs : List (String × PyVal)) :
    Except PyErr (List (List (String × PyVal))) :=
  if feats.isEmpty then Except.ok feats
  else do
    let keys0 := (feats.headD []).map (fun kv => kv.1)
    let frac ←
      match pyNumVal fraction with
      | Option.some q => Except.ok q
      | Option.none => Except.error PyErr.typeError
    let toChoose := pyRound ((keys0.length : Rat) * frac)
    let seed ←
      match kwGet kwargs "random_seed" (PyVal.int 0) with
      | .int i => Except.ok i.natAbs
      | .bool b => Except.ok (if b then 1 else 0)
      | _ => Except.error PyErr.typeError
    let (sampled, _) ←
      match pySample keys0 toChoose (mtInit seed) with
      | Except.error SampErr.fuel => Except.error PyErr.fuel
      | Except.error _ => Except.error PyErr.valueError
      | Except.ok r => Except.ok r
    let selection :=
      if pyTruthy (kwGet kwargs "invert" (PyVal.bool false)) then
        keys0.filter (fun k => !(sampled.contains k))
      else sampled
    feats.mapM (fun r =>
      selection.mapM (fun k =>
        match dictGet r k with
        | Option.some v => Except.ok (k, v)
        | Option.none => Except.error PyErr.keyError))

/-- Dispatch `getattr(self, "_filter_" + self.filter_name)` applied to the
subfiltered records with `*self.args, **self.kwargs`.  An unknown name is
unreachable for constructor-validated filters (`AttributeError`
otherwise). -/
def ffStageApply (name : String) (feats : List (List (String × PyVal)))
    (args : List PyVal) (kwargs : List (String × PyVal)) :
    Except PyErr (List (List (String × PyVal))) :=
  if name = "do_nothing" then Except.ok feats
  else if name = "key_starts_with" then do
    let prefV ← bindParam1 args kwargs "prefix"
    match prefV with
    | .str p =>
      Except.ok (filterKeyStartsWith feats p (kwGet kwargs "invert" (PyVal.bool false)))
    | _ => Except.error PyErr.typeError
  else if name = "importance_threshold" then do
    let (impV, thrV) ← bindParam2 args kwargs "importances" "threshold"
    match impV with
    | .dict importances =>
      filterImportanceThreshold feats importances thrV
        (kwGet kwargs "invert" (PyVal.bool false))
    | _ => Except.error PyErr.typeError
  else if name = "random_choice" then do
    let fracV ← bindParam1 args kwargs "fraction"
    filterRandomChoice feats fracV kwargs
  else Except.error PyErr.attrError

/-- Model of `self.kwargs["random_seed"] += 1` on the stored value. -/
def pyIncOne : PyVal → Except PyErr PyVal
  | .int i => Except.ok (PyVal.int (i + 1))
  | .bool b => Except.ok (PyVal.int ((if b then 1 else 0) + 1))
  | .float q => Except.ok (PyVal.float (q + 1))
  | _ => Except.error PyErr.typeError

/-- The record-by-record merge of `execute_subfilters` (lines 78–81):
`for old, new in zip(acc, res): old.update(new)`.  The accumulator list
keeps its own length; records beyond the zip are left untouched. -/
def zipUpdateList : List (List (String × PyVal)) → List (List (String × PyVal)) →
    List (List (String × PyVal))
  | [], _ => []
  | a :: xs, [] => a :: xs
  | a :: xs, n :: ns => dictUpdate a n :: zipUpdateList xs ns

mutual

/-- Model of `FeatureFilter.filter` (lines 84-94): run the subfilters on
the input (the body of `execute_subfilters`, inlined here; see
`ffExecuteSubfilters`), apply this stage to their merged output, then —
if the kwargs carry both `random_seed` and a truthy `increase_seed` —
increment the stored seed in place.  Returns the result together with
the mutated filter object. -/
def ffFilter : FFSlot → List (List (String × PyVal)) →
    Except PyErr (List (List (String × PyVal)) × FFSlot)
  | .raw _, _ => Except.error PyErr.attrError
  | .ff name args subs kwargs, feats => do
    let (subfed, subs') ←
      if subs.isEmpty then Except.ok (feats, subs)
      else ffExecSubsLoop subs feats []
    let result ← ffStageApply name subfed args kwargs
    let kwargs' ←
      if kwargs.any (fun kv => kv.1 == "random_seed") &&
         kwargs.any (fun kv => kv.1 == "increase_seed") then
        if pyTruthy (kwGet kwargs "increase_seed" PyVal.none) then do
          let v ← pyIncOne (kwGet kwargs "random_seed" PyVal.none)
          Except.ok (dictSet kwargs "random_seed" v)
        else Except.ok kwargs
      else Except.ok kwargs
    Except.ok (result, FFSlot.ff name args subs' kwargs')

/-- The `for subfilter in self.subfilters` loop of `execute_subfilters`,
threading the accumulated merge and the mutated subfilter objects. -/
def ffExecSubsLoop : List FFSlot → List (List (String × PyVal)) →
    List (List (String × PyVal)) →
    Except PyErr (List (List (String × PyVal)) × List FFSlot)
  | [], _, acc => Except.ok (acc, [])
  | s :: rest, feats, acc => do
    let (res, s') ← ffFilter s feats
    let acc' := if acc.isEmpty then res else zipUpdateList acc res
    let (accF, rest') ← ffExecSubsLoop rest feats acc'
    Except.ok (accF, s' :: rest')

end

/-- Model of `FeatureFilter.execute_subfilters` (lines 65-82): identity
on the input when there are no subfilters; otherwise every subfilter is
run on the *original* input and the results are merged left to right
(`ffFilter` inlines exactly this body). -/
def ffExecuteSubfilters (subs : List FFSlot)
    (feats : List (List (String × PyVal))) :
    Except PyErr (List (List (String × PyVal)) × List FFSlot) :=
  if subs.isEmpty then Except.ok (feats, subs)
  else ffExecSubsLoop subs feats []

/-! ### `FeatureExtractor`: the per-(configuration, case) cache and
`denumpyify` -/

/-- Values as returned by the radiomics library before sanitization:
JSON-native values plus tuples, `numpy.ndarray`s and `numpy.float64`s. -/
inductive RawVal where
  | str (s : String)
  | int (i : Int)
  | float (q : Rat)
  | bool (b : Bool)
  | none
  | list (items : List RawVal)
  | tuple (items : List RawVal)
  | dict (entries : List (String × RawVal))
  | npArray (items : List RawVal)
  | npFloat (q : Rat)
deriving Repr

mutual

/-- Model of `FeatureExtractor.denumpyify` (feature_extractor.py lines
108-128): `ndarray.tolist()` (which converts numeric arrays to nested
Python lists/scalars), `float(np.float64)`, recursion through dicts, and
list/tuple both rebuilt as lists; anything else unchanged.  Dict keys are
strings here, on which `denumpyify` is the identity. -/
def denumpyify : RawVal → RawVal
  | .npArray items => .list (denumpyifyList items)
  | .npFloat q => .float q
  | .dict entries => .dict (denumpyifyEntries entries)
  | .list items => .list (denumpyifyList items)
  | .tuple items => .list (denumpyifyList items)
  | .str s => .str s
  | .int i => .int i
  | .float q => .float q
  | .bool b => .bool b
  | .none => .none

/-- Elementwise `denumpyify` over a sequence. -/
def denumpyifyList : List RawVal → List RawVal
  | [] => []
  | v :: vs => denumpyify v :: denumpyifyList vs

/-- Entrywise `denumpyify` over a dict (keys are strings, on which
`denumpyify(key)` is the identity). -/
def denumpyifyEntries : List (String × RawVal) → List (String × RawVal)
  | [] => []
  | (k, v) :: rest => (k, denumpyify v) :: denumpyifyEntries rest

end

mutual

/-- Predicate for "no library-specific numeric types": the value contains
no `numpy.ndarray` and no `numpy.float64` (the two library types
`denumpyify` handles). -/
def noNumpy : RawVal → Bool
  | .npArray _ => false
  | .npFloat _ => false
  | .list items => noNumpyList items
  | .tuple items => noNumpyList items
  | .dict entries => noNumpyEntries entries
  | .str _ => true
  | .int _ => true
  | .float _ => true
  | .bool _ => true
  | .none => true

def noNumpyList : List RawVal → Bool
  | [] => true
  | v :: vs => noNumpy v && noNumpyList vs

def noNumpyEntries : List (String × RawVal) → Bool
  | [] => true
  | (_, v) :: rest => noNumpy v && noNumpyEntries rest

end

/-- Generic insertion-ordered dict lookup. -/
def assocGet {α : Type} (d : List (String × α)) (k : String) : Option α :=
  (d.find? (fun kv => kv.1 == k)).map (fun kv => kv.2)

/-- Model of `self.features`: the nested cache `config_id → TestCase id → result`. -/
structure ExtractorState where
  features : List (String × List (String × RawVal))
deriving Repr

/-- Model of `FeatureExtractor.extract` (lines 55–84) from the configuration-ID
computation on.  The adaptive-config prefix (lines 63–72) mutates the
external radiomics extractor's settings before `config_id` is read; the
model therefore takes the resulting `config_id` (and the case's `tc.id`)
as inputs.  `compute` is the value `self.extractor.execute(...)` would
return on this call; the returned flag records whether that external
extractor was invoked. -/
def feExtract (config_id tc_id : String) (compute : RawVal)
    (st : ExtractorState) : RawVal × ExtractorState × Bool :=
  match assocGet st.features config_id with
  | Option.some perCase =>
    match assocGet perCase tc_id with
    | Option.some cached => (cached, st, false)
    | Option.none =>
      let converted := denumpyify compute
      (converted,
       ExtractorState.mk
         (assocSet st.features config_id (assocSet perCase tc_id converted)),
       true)
  | Option.none =>
    let converted := denumpyify compute
    (converted,
     ExtractorState.mk
       (assocSet st.features config_id (assocSet [] tc_id converted)),
     true)

/-! ### `TestCaseCollection.from_csv` -/

/-- Model of `str.lower()` for the label token comparison. -/
def lowerAscii (s : String) : String := s.map Char.toLower

/-- Python `int(s)`: optional surrounding whitespace, optional sign,
nonempty digit run; `None` on failure (`from_csv` swallows the
exception). -/
def pyParseInt (s : String) : Option Int :=
  let t := s.trim.data
  let (sign, ds) :=
    match t with
    | '-' :: rest => ((-1 : Int), rest)
    | '+' :: rest => ((1 : Int), rest)
    | rest => ((1 : Int), rest)
  if ds.isEmpty ∨ !ds.all Char.isDigit then Option.none
  else Option.some (sign * (ds.foldl (fun acc c => acc * 10 + (c.toNat - 48)) 0 : Nat))

/-- The row loop of `TestCaseCollection.from_csv`
(test_case_collection.py lines 101–122), including the Python local
variable `tc`, which survives from the previous iteration: on a failed
load with `skip_invalid=True`, the unguarded `test_cases.append(tc)`
appends the *previous* case — or raises `UnboundLocalError` when no row
has loaded yet.  `loadCase` is the outcome of the filesystem-touching
`TestCase.from_scan_path(scan_name, pcr, nar)` for the row. -/
def fromCsvLoop (loadCase : String → Bool → Option Int → Except PyErr TestCase)
    (file_ending : String) (skip_invalid : Bool) :
    List (List String) → Option TestCase → List TestCase →
    Except PyErr (List TestCase)
  | [], _, acc => Except.ok acc
  | line :: rest, prev, acc =>
    match line with
    | c0 :: c1 :: others =>
      let pcr := lowerAscii c1 == "pcr"
      let nar : Option Int :=
        match others with
        | c2 :: _ => pyParseInt c2
        | [] => Option.none
      let scan := if c0.endsWith file_ending then c0 else c0 ++ file_ending
      match loadCase scan pcr nar with
      | Except.ok tc =>
        fromCsvLoop loadCase file_ending skip_invalid rest
          (Option.some tc) (acc ++ [tc])
      | Except.error e =>
        if !skip_invalid then Except.error e
        else
          match prev with
          | Option.none => Except.error PyErr.unboundLocal
          | Option.some tcPrev =>
            fromCsvLoop loadCase file_ending skip_invalid rest
              (Option.some tcPrev) (acc ++ [tcPrev])
    | _ => Except.error PyErr.indexError

/-- Model of `TestCaseCollection.from_csv` (lines 81–124): run the row loop, then
build the collection dict from the accumulated list. -/
def fromCsv (loadCase : String → Bool → Option Int → Except PyErr TestCase)
    (rows : List (List String)) (skip_invalid : Bool) :
    Except PyErr (List (String × TestCase)) :=
  (fromCsvLoop loadCase ".nii.gz" skip_invalid rows Option.none []).map mkCollection

/-! ### Spec-side canonical serialization

Spec §4.1 prescribes `sort_keys` semantics for the canonical JSON
encoding.  `specDumps` follows the spec's words: identical to `jsonDumps`
except that each dict's items are emitted in lexicographically sorted key
order (sorting the rendered `(key, item)` pairs by key, which is the same
as sorting the entries first, since the comparison reads only keys). -/

/-- Insertion into a key-sorted rendered-item list. -/
def insertRendered (kv : String × String) :
    List (String × String) → List (String × String)
  | [] => [kv]
  | h :: t => if kv.1 ≤ h.1 then kv :: h :: t else h :: insertRendered kv t

/-- Key-sort a dict's rendered items (insertion sort). -/
def sortRendered (l : List (String × String)) : List (String × String) :=
  l.foldr insertRendered []

mutual

/-- Modelled from the spec: `json.dumps(..., sort_keys=True)` — the
canonicalization §4.1 describes ("keys are sorted lexicographically"),
which `Storable.get_id` does *not* implement. -/
def specDumps : PyVal → String
  | .str s => "\"" ++ jsonEscape s ++ "\""
  | .int i => toString i
  | .float q => floatRepr q
  | .bool b => if b then "true" else "false"
  | .none => "null"
  | .list items => "[" ++ joinComma (specDumpsList items) ++ "]"
  | .dict entries =>
    "\x7b" ++
      joinComma ((sortRendered (specDumpsEntries entries)).map
        (fun kv => kv.2)) ++
    "\x7d"

def specDumpsList : List PyVal → List String
  | [] => []
  | v :: vs => specDumps v :: specDumpsList vs

/-- Keyed renderings of a dict's items, in insertion order (sorted by
`specDumps` at the dict node). -/
def specDumpsEntries : List (String × PyVal) → List (String × String)
  | [] => []
  | (k, v) :: rest =>
    (k, "\"" ++ jsonEscape k ++ "\": " ++ specDumps v) :: specDumpsEntries rest

end

/-- Modelled from the spec: the content ID under the spec's sorted-key
canonicalization. -/
def specGetId (rep : PyVal) : String := sha3_256hex (asciiEncode (specDumps rep))

/-! ## C4: cache purity of `FeatureExtractor.extract` -/

/-- Reading `self.features[config_id][tc_id]` (the membership tests of
feature_extractor.py line 75). -/
def cacheLookup (st : ExtractorState) (config_id tc_id : String) :
    Option RawVal :=
  (assocGet st.features config_id).bind (fun pc => assocGet pc tc_id)

/-! ## C5: error handling of `get_equal_sample` -/

/-- Size of the smallest (necessarily non-empty) category:
`min([len(categories[c]) for c in categories])`. -/
def minAvailOf (cats : List (Int × List String)) : Nat :=
  match cats.map (fun c => c.2.length) with
  | [] => 0
  | c0 :: crest => crest.foldl min c0

/-! ## C6: `from_csv` with skip-invalid mode -/

/-- Concrete load oracle: the row `ok` loads, every other row fails. -/
def ldC6 : String → Bool → Option Int → Except PyErr TestCase :=
  fun s _ _ =>
    if s = "ok.nii.gz" then Except.ok (TestCase.mk "ida" true Option.none)
    else Except.error PyErr.valueError

/-! ## C3: seed determinism and category-order dependence -/

/-- Five labeled cases, `pcr` categories {t0,t1} and {f0,f1,f2}, inserted
true-category-first. -/
def collC3A : List (String × TestCase) := mkCollection
  [TestCase.mk "t0" true Option.none, TestCase.mk "t1" true Option.none,
   TestCase.mk "f0" false Option.none, TestCase.mk "f1" false Option.none,
   TestCase.mk "f2" false Option.none]

/-- The same five cases inserted false-category-first: identical category
contents, opposite category iteration order. -/
def collC3B : List (String × TestCase) := mkCollection
  [TestCase.mk "f0" false Option.none, TestCase.mk "f1" false Option.none,
   TestCase.mk "f2" false Option.none,
   TestCase.mk "t0" true Option.none, TestCase.mk "t1" true Option.none]

/-- Seed-bearing kwargs used by the C10 scenario: `random_seed = 0`,
`increase_seed = True`. -/
def c10kw : List (String × PyVal) :=
  [("random_seed", PyVal.int 0), ("increase_seed", PyVal.bool true)]

/-- The same kwargs after one `filter()` call: the seed advanced to 1. -/
def c10kwAfter : List (String × PyVal) :=
  [("random_seed", PyVal.int 1), ("increase_seed", PyVal.bool true)]

/-- A `do_nothing` subfilter carrying its own seed-increment kwargs. -/
def c10child : FFSlot := FFSlot.ff "do_nothing" [] [] c10kw

/-- The subfilter's state after its parent's `filter()` call ran it. -/
def c10childAfter : FFSlot := FFSlot.ff "do_nothing" [] [] c10kwAfter

/-- A `do_nothing` stage with the seed kwargs and one seed-bearing
subfilter. -/
def c10parent : FFSlot := FFSlot.ff "do_nothing" [] [c10child] c10kw

/-- The parent stage's state after one `filter()` call: its own seed
advanced *and* its subfilter's seed advanced. -/
def c10parentAfter : FFSlot := FFSlot.ff "do_nothing" [] [c10childAfter] c10kwAfter

/-! ## C2: the save/load round trip -/

/-- A subfilter-free `do_nothing` filter used as a subfilter. -/
def c2child : FFSlot := FFSlot.ff "do_nothing" [] [] []

/-- A filter with one subfilter, exercising both serialization modes. -/
def c2parent : FFSlot := FFSlot.ff "do_nothing" [] [c2child] []

/-! ## C1: order-(in)dependence of the content ID -/

/-- Equality of Python values as unordered key-value mappings: dict
entries may be permuted at every depth (`d₁ == d₂` in Python), all other
values compare structurally.  The intermediate list `c` carries the
value-wise relation before the reordering. -/
inductive PermEq : PyVal → PyVal → Prop where
  | str (s : String) : PermEq (.str s) (.str s)
  | int (i : Int) : PermEq (.int i) (.int i)
  | float (q : Rat) : PermEq (.float q) (.float q)
  | bool (b : Bool) : PermEq (.bool b) (.bool b)
  | none : PermEq .none .none
  | list {l₁ l₂ : List PyVal} :
      List.Forall₂ PermEq l₁ l₂ → PermEq (.list l₁) (.list l₂)
  | dict {e₁ e₂ : List (String × PyVal)} (c : List (String × PyVal)) :
      e₁.map Prod.fst = c.map Prod.fst →
      List.Forall₂ PermEq (e₁.map Prod.snd) (c.map Prod.snd) →
      c.Perm e₂ →
      PermEq (.dict e₁) (.dict e₂)

/-- Boolean duplicate-freedom of a key list. -/
def keysNodup : List String → Bool
  | [] => true
  | k :: rest => !(rest.any (fun x => x == k)) && keysNodup rest

mutual

/-- Well-formed Python values: every dict (at every depth) has
duplicate-free keys — automatic for values produced by actual Python
dicts. -/
def wfKeys : PyVal → Bool
  | .str _ => true
  | .int _ => true
  | .float _ => true
  | .bool _ => true
  | .none => true
  | .list l => wfKeysList l
  | .dict e => keysNodup (e.map Prod.fst) && wfKeysEntries e

def wfKeysList : List PyVal → Bool
  | [] => true
  | v :: vs => wfKeys v && wfKeysList vs

def wfKeysEntries : List (String × PyVal) → Bool
  | [] => true
  | (_, v) :: rest => wfKeys v && wfKeysEntries rest

end

/-- A `do_nothing` filter whose kwargs were built in order `a`, `b`. -/
def c1fA : FFSlot := FFSlot.ff "do_nothing" [] []
  [("a", PyVal.int 1), ("b", PyVal.int 2)]

/-- The same filter with its kwargs built in order `b`, `a`. -/
def c1fB : FFSlot := FFSlot.ff "do_nothing" [] []
  [("b", PyVal.int 2), ("a", PyVal.int 1)]

/-- Dict representation of `c1fA`. -/
def c1repA : PyVal := PyVal.dict
  [("is_filter", PyVal.bool true),
   ("filter_name", PyVal.str "do_nothing"),
   ("subfilters", PyVal.list []),
   ("args", PyVal.list []),
   ("kwargs", PyVal.dict [("a", PyVal.int 1), ("b", PyVal.int 2)])]

/-- Dict representation of `c1fB`: equal to `c1repA` as an unordered
mapping, different as an ordered one. -/
def c1repB : PyVal := PyVal.dict
  [("is_filter", PyVal.bool true),
   ("filter_name", PyVal.str "do_nothing"),
   ("subfilters", PyVal.list []),
   ("args", PyVal.list []),
   ("kwargs", PyVal.dict [("b", PyVal.int 2), ("a", PyVal.int 1)])]

/-- One step of the category-building fold (the body of the
`for test_case in self` loop). -/
def catStep (metric : String) (cats : List (Int × List String))
    (kv : String × TestCase) : List (Int × List String) :=
  match tcLabel metric kv.2 with
  | Option.none => cats
  | Option.some c => catAdd cats c kv.1

/-- The `to_choose` computation of `get_equal_sample` (fractional
rounding or the int count). -/
def toChooseOf (count : PyNum) (fractional : Bool) (minAvail : Nat) :
    Except SampErr Int :=
  if fractional then Except.ok (pyRound (count.val * minAvail))
  else
    match count with
    | PyNum.int i => Except.ok i
    | PyNum.float _ => Except.error SampErr.typeErr

/-- The claim's concrete scenario: three cases with `pcr` counts
`{true: 2, false: 1}`. -/
def c9coll : List (String × TestCase) := mkCollection
  [TestCase.mk "a" true Option.none, TestCase.mk "b" true Option.none,
   TestCase.mk "c" false Option.none]

/-! ## Theorems -/

theorem mtInitGenrand_const : mtInitGenrand 19650218 = mtSeedA1 := by rfl

theorem mtIbaLoop1_seed0 : mtIbaLoop1 [0] (mtSeedA1, 1, 0) = (mtSeedA2, 2, 0) := by rfl

theorem mtIbaLoop2_seed0 : mtIbaLoop2 (mtSeedA2, 2) = (mtSeedA3, 2) := by rfl

theorem mtSetWord_seed0 : mtSetWord mtSeedA3 0 0x80000000 = mtSeed0Arr := by rfl

/-- The seeded state of `random.Random(0)`. -/
theorem mtInit_zero : mtInit 0 = MTState.mk mtSeed0Arr 624 := by
  show MTState.mk (mtInitByArray [0]) 624 = MTState.mk mtSeed0Arr 624
  have h : mtInitByArray [0] = mtSeed0Arr := by
    show mtSetWord (mtIbaLoop2
        ((mtIbaLoop1 [0] (mtInitGenrand 19650218, 1, 0)).1,
         (mtIbaLoop1 [0] (mtInitGenrand 19650218, 1, 0)).2.1)).1
      0 0x80000000 = mtSeed0Arr
    rw [mtInitGenrand_const, mtIbaLoop1_seed0]
    rw [show (((mtSeedA2 : Nat), (2 : Nat), (0 : Nat)).1,
          ((mtSeedA2 : Nat), (2 : Nat), (0 : Nat)).2.1) =
          ((mtSeedA2 : Nat), (2 : Nat)) from rfl]
    rw [mtIbaLoop2_seed0]
    exact mtSetWord_seed0
  rw [h]

/-! ## Support lemmas -/

theorem find?_updMap_self {α : Type} (d : List (String × α)) (k : String)
    (v : α) (h : d.any (fun kv => kv.1 == k) = true) :
    (d.map (fun kv => if kv.1 == k then (k, v) else kv)).find?
      (fun kv => kv.1 == k) = Option.some (k, v) := by
  induction d with
  | nil => simp at h
  | cons hd tl ih =>
    by_cases hk : (hd.1 == k) = true
    · rw [List.map_cons, if_pos hk]
      simp [List.find?_cons]
    · simp only [List.any_cons, hk, Bool.false_or] at h
      rw [List.map_cons, if_neg hk]
      simp only [List.find?_cons, hk]
      exact ih h

theorem find?_updMap_other {α : Type} (d : List (String × α)) (k k' : String)
    (v : α) (hne : k' ≠ k) :
    ((d.map (fun kv => if kv.1 == k then (k, v) else kv)).find?
        (fun kv => kv.1 == k')).map (fun kv => kv.2) =
      (d.find? (fun kv => kv.1 == k')).map (fun kv => kv.2) := by
  induction d with
  | nil => simp
  | cons hd tl ih =>
    by_cases hk : (hd.1 == k) = true
    · have h1 : hd.1 = k := by simpa using hk
      have h2 : ((k : String) == k') = false := by
        simp only [beq_eq_false_iff_ne, ne_eq]
        exact fun h => hne h.symm
      have h3 : (hd.1 == k') = false := by rw [h1]; exact h2
      rw [List.map_cons, if_pos hk]
      simp only [List.find?_cons, h2, h3]
      exact ih
    · rw [List.map_cons, if_neg hk]
      by_cases hk' : (hd.1 == k') = true
      · rw [List.find?_cons, List.find?_cons]
        simp only [hk']
      · rw [List.find?_cons, List.find?_cons]
        simp only [(by simpa using hk' : (hd.1 == k') = false)]
        exact ih

theorem find?_append_last {α : Type} (d : List (String × α)) (k : String)
    (v : α) (h : d.any (fun kv => kv.1 == k) = false) :
    (d ++ [(k, v)]).find? (fun kv => kv.1 == k) = Option.some (k, v) := by
  induction d with
  | nil => simp [List.find?]
  | cons hd tl ih =>
    simp only [List.any_cons, Bool.or_eq_false_iff] at h
    simp only [List.cons_append, List.find?_cons, h.1]
    exact ih h.2

theorem find?_append_other {α : Type} (d : List (String × α)) (k k' : String)
    (v : α) (hne : k' ≠ k) :
    (d ++ [(k, v)]).find? (fun kv => kv.1 == k') =
      d.find? (fun kv => kv.1 == k') := by
  have h2 : ((k : String) == k') = false := by
    simp only [beq_eq_false_iff_ne, ne_eq]
    exact fun h => hne h.symm
  induction d with
  | nil => simp [List.find?, h2]
  | cons hd tl ih =>
    by_cases hk' : (hd.1 == k') = true
    · simp only [List.cons_append, List.find?_cons, hk']
    · simp only [List.cons_append, List.find?_cons,
        (by simpa using hk' : (hd.1 == k') = false)]
      exact ih

theorem assocGet_assocSet_self {α : Type} (d : List (String × α)) (k : String)
    (v : α) : assocGet (assocSet d k v) k = Option.some v := by
  unfold assocSet assocGet
  by_cases hany : d.any (fun kv => kv.1 == k) = true
  · rw [if_pos hany, find?_updMap_self d k v hany]
    rfl
  · rw [if_neg hany, find?_append_last d k v (Bool.eq_false_iff.mpr hany)]
    rfl

theorem assocGet_assocSet_other {α : Type} (d : List (String × α))
    (k k' : String) (v : α) (hne : k' ≠ k) :
    assocGet (assocSet d k v) k' = assocGet d k' := by
  unfold assocSet assocGet
  by_cases hany : d.any (fun kv => kv.1 == k) = true
  · rw [if_pos hany]
    exact find?_updMap_other d k k' v hne
  · rw [if_neg hany, find?_append_other d k k' v hne]

mutual

/-- Sanitization of `denumpyify`: its output never contains a numpy
array or numpy float. -/
theorem noNumpy_denumpyify : ∀ v : RawVal, noNumpy (denumpyify v) = true
  | .npArray items => by
    simp only [denumpyify, noNumpy]
    exact noNumpyList_denumpyifyList items
  | .npFloat q => rfl
  | .dict entries => by
    simp only [denumpyify, noNumpy]
    exact noNumpyEntries_denumpyifyEntries entries
  | .list items => by
    simp only [denumpyify, noNumpy]
    exact noNumpyList_denumpyifyList items
  | .tuple items => by
    simp only [denumpyify, noNumpy]
    exact noNumpyList_denumpyifyList items
  | .str s => rfl
  | .int i => rfl
  | .float q => rfl
  | .bool b => rfl
  | .none => rfl

theorem noNumpyList_denumpyifyList :
    ∀ items : List RawVal, noNumpyList (denumpyifyList items) = true
  | [] => rfl
  | v :: vs => by
    simp only [denumpyifyList, noNumpyList, Bool.and_eq_true]
    exact ⟨noNumpy_denumpyify v, noNumpyList_denumpyifyList vs⟩

theorem noNumpyEntries_denumpyifyEntries :
    ∀ entries : List (String × RawVal),
      noNumpyEntries (denumpyifyEntries entries) = true
  | [] => rfl
  | (k, v) :: rest => by
    simp only [denumpyifyEntries, noNumpyEntries, Bool.and_eq_true]
    exact ⟨noNumpy_denumpyify v, noNumpyEntries_denumpyifyEntries rest⟩

end

theorem cacheLookup_after (config_id tc_id : String) (f : RawVal)
    (st : ExtractorState) :
    cacheLookup (feExtract config_id tc_id f st).2.1 config_id tc_id =
      Option.some (feExtract config_id tc_id f st).1 := by
  unfold feExtract
  cases hc : assocGet st.features config_id with
  | none =>
    unfold cacheLookup
    simp only [assocGet_assocSet_self st.features config_id, Option.bind_some]
    exact assocGet_assocSet_self [] tc_id (denumpyify f)
  | some perCase =>
    cases ht : assocGet perCase tc_id with
    | none =>
      simp only [ht]
      unfold cacheLookup
      simp only [assocGet_assocSet_self st.features config_id, Option.bind_some]
      exact assocGet_assocSet_self perCase tc_id (denumpyify f)
    | some cached =>
      simp only [ht]
      unfold cacheLookup
      simp only [hc, Option.bind_some]
      exact ht

theorem feExtract_hit (config_id tc_id : String) (f : RawVal)
    (st : ExtractorState) (v : RawVal)
    (h : cacheLookup st config_id tc_id = Option.some v) :
    feExtract config_id tc_id f st = (v, st, false) := by
  unfold cacheLookup at h
  cases hc : assocGet st.features config_id with
  | none => simp [hc] at h
  | some perCase =>
    cases ht : assocGet perCase tc_id with
    | none => simp [hc, ht] at h
    | some cached =>
      simp only [hc, ht, Option.some_bind, Option.some.injEq] at h
      subst h
      simp [feExtract, hc, ht]

/-- C4.  For every configuration ID and input ID: a cached value is
returned verbatim, with no invocation of the underlying extractor and no
state change; a second extraction for the same pair after any first one
never invokes the extractor and returns the same value; and on a miss the
result is the JSON-sanitized (`denumpyify`d, numpy-free) form of the
computed value, which is stored before being returned. -/
theorem c4_cache_purity (config_id tc_id : String) (f g : RawVal)
    (st : ExtractorState) :
    (∀ v, cacheLookup st config_id tc_id = Option.some v →
      feExtract config_id tc_id f st = (v, st, false)) ∧
    ((feExtract config_id tc_id g
        (feExtract config_id tc_id f st).2.1).2.2 = false ∧
      (feExtract config_id tc_id g (feExtract config_id tc_id f st).2.1).1 =
        (feExtract config_id tc_id f st).1) ∧
    (cacheLookup st config_id tc_id = Option.none →
      (feExtract config_id tc_id f st).1 = denumpyify f ∧
      cacheLookup (feExtract config_id tc_id f st).2.1 config_id tc_id =
        Option.some (denumpyify f) ∧
      noNumpy (feExtract config_id tc_id f st).1 = true) := by
  refine ⟨fun v h => feExtract_hit config_id tc_id f st v h, ⟨?_, ?_⟩, ?_⟩
  · rw [feExtract_hit config_id tc_id g _ _ (cacheLookup_after config_id tc_id f st)]
  · rw [feExtract_hit config_id tc_id g _ _ (cacheLookup_after config_id tc_id f st)]
  · intro hmiss
    have h1 : (feExtract config_id tc_id f st).1 = denumpyify f := by
      unfold cacheLookup at hmiss
      cases hc : assocGet st.features config_id with
      | none => simp [feExtract, hc]
      | some perCase =>
        cases ht : assocGet perCase tc_id with
        | none => simp [feExtract, hc, ht]
        | some cached => simp [hc, ht] at hmiss
    refine ⟨h1, ?_, ?_⟩
    · rw [cacheLookup_after, h1]
    · rw [h1]; exact noNumpy_denumpyify f

/-- Witness for C4 at a concrete cache state and value: a miss on the
empty cache stores and returns the sanitized value. -/
theorem c4_cache_purity_witness :
    (feExtract "cfg" "case" (RawVal.npFloat (1/2)) (ExtractorState.mk [])).1 =
      denumpyify (RawVal.npFloat (1/2)) ∧
    cacheLookup (feExtract "cfg" "case" (RawVal.npFloat (1/2))
        (ExtractorState.mk [])).2.1 "cfg" "case" =
      Option.some (denumpyify (RawVal.npFloat (1/2))) ∧
    noNumpy (feExtract "cfg" "case" (RawVal.npFloat (1/2))
        (ExtractorState.mk [])).1 = true :=
  (c4_cache_purity "cfg" "case" (RawVal.npFloat (1/2)) (RawVal.npFloat (1/2))
    (ExtractorState.mk [])).2.2 rfl

/-- C5.  With a recognized metric: (a) fractional mode rejects a count
outside [0, 1] (the spec's `OutOfRangeError`); (b) non-fractional mode
rejects a non-integer count with `TypeError` (in particular every
non-whole count); (c) a non-fractional count exceeding the smallest
category size fails with the spec's `InsufficientDataError` — each an
`Except.error`, so no partial selection is returned. -/
theorem c5_errors (tcs : List (String × TestCase)) (metric : String)
    (seed : Nat) (hm : metric = "nar" ∨ metric = "pcr") :
    (∀ count : PyNum, count.val < 0 ∨ count.val > 1 →
      getEqualSample tcs count true metric seed =
        Except.error SampErr.outOfRange) ∧
    (∀ q : Rat, q.den ≠ 1 → buildCategories metric tcs ≠ [] →
      getEqualSample tcs (PyNum.float q) false metric seed =
        Except.error SampErr.typeErr) ∧
    (∀ n : Int, buildCategories metric tcs ≠ [] →
      n > (minAvailOf (buildCategories metric tcs) : Int) →
      getEqualSample tcs (PyNum.int n) false metric seed =
        Except.error SampErr.insufficient) := by
  have hcond1 : ¬(metric ≠ "nar" ∧ metric ≠ "pcr") := by
    rcases hm with h | h <;> simp [h]
  refine ⟨?_, ?_, ?_⟩
  · intro count hq
    unfold getEqualSample
    rw [if_neg hcond1, if_pos ⟨rfl, hq⟩]
  · intro q hden hcats
    unfold getEqualSample
    rw [if_neg hcond1, if_neg (by simp)]
    cases hc : buildCategories metric tcs with
    | nil => exact absurd hc hcats
    | cons c cs => rfl
  · intro n hcats hgt
    unfold getEqualSample
    rw [if_neg hcond1, if_neg (by simp)]
    cases hc : buildCategories metric tcs with
    | nil => exact absurd hc hcats
    | cons c cs =>
      have hm' : minAvailOf (buildCategories metric tcs) =
          (cs.map (fun x => x.2.length)).foldl min c.2.length := by
        rw [hc]; rfl
      rw [hm'] at hgt
      simp only [List.map_cons, Bool.false_eq_true, if_false]
      show (Except.ok n).bind _ = _
      rw [show ∀ f : Int → Except SampErr (List String),
            (Except.ok n).bind f = f n from fun f => rfl]
      rw [if_pos hgt]
      rfl

/-- Witness for C5: the three failures on the concrete three-item
collection (categories sizes {2, 1}). -/
theorem c5_errors_witness :
    getEqualSample (mkCollection
        [TestCase.mk "a" true Option.none, TestCase.mk "b" true Option.none,
         TestCase.mk "c" false Option.none])
      (PyNum.float (3/2)) true "pcr" 0 = Except.error SampErr.outOfRange ∧
    getEqualSample (mkCollection
        [TestCase.mk "a" true Option.none, TestCase.mk "b" true Option.none,
         TestCase.mk "c" false Option.none])
      (PyNum.float (1/2)) false "pcr" 0 = Except.error SampErr.typeErr ∧
    getEqualSample (mkCollection
        [TestCase.mk "a" true Option.none, TestCase.mk "b" true Option.none,
         TestCase.mk "c" false Option.none])
      (PyNum.int 2) false "pcr" 0 = Except.error SampErr.insufficient := by
  refine ⟨(c5_errors _ "pcr" 0 (Or.inr rfl)).1 _ (by norm_num [PyNum.val]),
    (c5_errors _ "pcr" 0 (Or.inr rfl)).2.1 (1/2) (by norm_num) (by decide),
    (c5_errors _ "pcr" 0 (Or.inr rfl)).2.2 2 (by decide) (by decide)⟩

/-- C6.  The skip-invalid mode is broken: (1) when the *first* row fails
to load, `from_csv` with `skip_invalid=True` aborts with
`UnboundLocalError` (the unguarded `test_cases.append(tc)` reads the
never-assigned local `tc`) instead of skipping the row; (2) when a later
row fails, the append duplicates the previous row's case in the loaded
list. -/
theorem c6_skip_invalid_bug :
    fromCsv ldC6 [["bad", "x"]] true = Except.error PyErr.unboundLocal ∧
    fromCsvLoop ldC6 ".nii.gz" true [["ok", "pcr"], ["bad", "x"]]
        Option.none [] =
      Except.ok [TestCase.mk "ida" true Option.none,
                 TestCase.mk "ida" true Option.none] := by
  constructor <;> rfl

/-- C3 counterexample.  The two collections have permuted category lists
with identical contents, yet the same seed selects different ID sets
(`{t1,t0,f0,f1}` vs `{f1,f2,t0,t1}`): the single seeded stream is consumed
in category iteration order, so the selection is *not* independent of it. -/
theorem c3_counterexample :
    List.Perm (buildCategories "pcr" collC3A) (buildCategories "pcr" collC3B) ∧
    getEqualSample collC3A (PyNum.int 2) false "pcr" 0 =
      Except.ok ["t1", "t0", "f0", "f1"] ∧
    getEqualSample collC3B (PyNum.int 2) false "pcr" 0 =
      Except.ok ["f1", "f2", "t0", "t1"] ∧
    ¬ (∀ x, x ∈ (["t1", "t0", "f0", "f1"] : List String) ↔
        x ∈ (["f1", "f2", "t0", "t1"] : List String)) := by
  refine ⟨?_, ?_, ?_, ?_⟩
  · have h1 : buildCategories "pcr" collC3A =
        [(1, ["t0", "t1"]), (0, ["f0", "f1", "f2"])] := by rfl
    have h2 : buildCategories "pcr" collC3B =
        [(0, ["f0", "f1", "f2"]), (1, ["t0", "t1"])] := by rfl
    rw [h1, h2]
    exact List.Perm.swap _ _ _
  · unfold getEqualSample
    rw [mtInit_zero]
    rfl
  · unfold getEqualSample
    rw [mtInit_zero]
    rfl
  · intro h
    have hf := (h "f0").mp (by simp)
    simp at hf

/-- C3 amended.  The selection is a function of the seed, the count
parameters and the *ordered* category structure alone: two collections
with equal `buildCategories` results (same categories, same iteration
order, same member order) always yield the same selection — in
particular, two calls on the same collection with the same seed agree,
and nothing else about the collection (unlabeled cases, case payloads)
matters. -/
theorem c3_amended (tcs₁ tcs₂ : List (String × TestCase)) (count : PyNum)
    (fractional : Bool) (metric : String) (seed : Nat)
    (h : buildCategories metric tcs₁ = buildCategories metric tcs₂) :
    getEqualSample tcs₁ count fractional metric seed =
      getEqualSample tcs₂ count fractional metric seed := by
  unfold getEqualSample
  rw [h]

/-- Witness for the amended C3: collections differing in an unlabeled
(`nar = None`) case and in insertion positions, with equal `nar` category
structure, get identical selections for every seed instantiated at 7. -/
theorem c3_amended_witness :
    buildCategories "nar" (mkCollection
      [TestCase.mk "a" true (Option.some 1),
       TestCase.mk "u" false Option.none]) =
      buildCategories "nar" (mkCollection
        [TestCase.mk "u2" true Option.none,
         TestCase.mk "a" true (Option.some 1)]) ∧
    getEqualSample (mkCollection
      [TestCase.mk "a" true (Option.some 1),
       TestCase.mk "u" false Option.none]) (PyNum.int 1) false "nar" 7 =
      getEqualSample (mkCollection
        [TestCase.mk "u2" true Option.none,
         TestCase.mk "a" true (Option.some 1)]) (PyNum.int 1) false "nar" 7 :=
  ⟨rfl, c3_amended _ _ (PyNum.int 1) false "nar" 7 rfl⟩

/-! ## C10: the seed-increment side effect of `filter()` -/

/-- Right-unit style reduction of an `Except` bind on a success value. -/
theorem exceptBindOk {ε α β : Type} (a : α) (f : α → Except ε β) :
    (Except.ok a >>= f) = f a := rfl

/-- Propagation of an `Except` bind on an error value. -/
theorem exceptBindErr {ε α β : Type} (e : ε) (f : α → Except ε β) :
    (Except.error e >>= f : Except ε β) = Except.error e := rfl

/-- Reading back the key just written by `d[k] = v`. -/
theorem dictGet_dictSet_self (d : List (String × PyVal)) (k : String)
    (v : PyVal) : dictGet (dictSet d k v) k = Option.some v := by
  unfold dictSet dictGet
  by_cases hany : d.any (fun kv => kv.1 == k) = true
  · rw [if_pos hany, find?_updMap_self d k v hany]
    rfl
  · rw [if_neg hany, find?_append_last d k v (Bool.eq_false_iff.mpr hany)]
    rfl

/-- Keys other than the one written by `d[k] = v` are unaffected. -/
theorem dictGet_dictSet_other (d : List (String × PyVal)) (k k' : String)
    (v : PyVal) (hne : k' ≠ k) :
    dictGet (dictSet d k v) k' = dictGet d k' := by
  unfold dictSet dictGet
  by_cases hany : d.any (fun kv => kv.1 == k) = true
  · rw [if_pos hany]
    exact find?_updMap_other d k k' v hne
  · rw [if_neg hany, find?_append_other d k k' v hne]

/-- The subfilter loop of `execute_subfilters` returns exactly one
post-state per subfilter. -/
theorem ffExecSubsLoop_len :
    ∀ (subs : List FFSlot) (feats acc out : List (List (String × PyVal)))
      (subs' : List FFSlot),
      ffExecSubsLoop subs feats acc = Except.ok (out, subs') →
      subs'.length = subs.length := by
  intro subs
  induction subs with
  | nil =>
    intro feats acc out subs' h
    unfold ffExecSubsLoop at h
    injection h with h1
    have h2 : subs' = [] := (congrArg Prod.snd h1).symm
    rw [h2]
  | cons s rest ih =>
    intro feats acc out subs' h
    unfold ffExecSubsLoop at h
    cases hf : ffFilter s feats with
    | error e =>
      rw [hf, exceptBindErr] at h
      exact Except.noConfusion h
    | ok p =>
      obtain ⟨res, s1⟩ := p
      rw [hf, exceptBindOk] at h
      simp only [] at h
      cases hr : ffExecSubsLoop rest feats
          (if acc.isEmpty = true then res else zipUpdateList acc res) with
      | error e =>
        rw [hr, exceptBindErr] at h
        exact Except.noConfusion h
      | ok q =>
        obtain ⟨accF, rest'⟩ := q
        rw [hr, exceptBindOk] at h
        injection h with h1
        have h2 : subs' = s1 :: rest' := (congrArg Prod.snd h1).symm
        rw [h2]
        simp [ih feats _ accF rest' hr]

/-- Concrete content IDs of the C10 stage before and after the call. -/
theorem c10IdChange :
    ffGetId c10parent = Except.ok
      "51c0312c99627528d7a5c9d138f086b152b92ae8d235ae7f1eb4c3c741c3cf35" ∧
    ffGetId c10parentAfter = Except.ok
      "da66fb6b433e054822322eb783688b170af9ec054df17484c3deaeaf11d7705f" :=
  ⟨rfl, rfl⟩

/-- C10 counterexample.  Running `filter()` on a stage whose kwargs carry
`random_seed` and a truthy `increase_seed` does *not* leave all other
stage state unchanged: the subfilters are run by `execute_subfilters`,
so a seed-bearing subfilter's own kwargs are incremented too — the
returned stage carries a mutated subfilter (`c10childAfter ≠ c10child`). -/
theorem c10_counterexample :
    ffFilter c10parent [] =
      Except.ok ([], FFSlot.ff "do_nothing" [] [c10childAfter] c10kwAfter) ∧
    c10childAfter ≠ c10child := by
  constructor
  · rfl
  · intro h
    simp [c10childAfter, c10child, c10kwAfter, c10kw] at h

/-- C10 amended.  A successful `filter()` call on a stage returns the
stage with its `filter_name` and `args` unchanged and one post-state per
subfilter; its kwargs are unchanged on every key other than
`random_seed`, are fully unchanged when `random_seed` is absent or
`increase_seed` is untruthy/absent, and have `random_seed` incremented
by one when both keys are present and `increase_seed` is truthy.  The
subfilters, however, may mutate as well (see `c10_counterexample`).
Because kwargs enter the dict representation, the concrete C10 stage's
content ID differs before and after the call. -/
theorem c10_amended (name : String) (args : List PyVal) (subs : List FFSlot)
    (kwargs : List (String × PyVal)) (feats res : List (List (String × PyVal)))
    (f2 : FFSlot)
    (hok : ffFilter (FFSlot.ff name args subs kwargs) feats = Except.ok (res, f2)) :
    (∃ subs₂ kwargs₂,
      f2 = FFSlot.ff name args subs₂ kwargs₂ ∧
      subs₂.length = subs.length ∧
      (∀ k, k ≠ "random_seed" → dictGet kwargs₂ k = dictGet kwargs k) ∧
      ((kwargs.any (fun kv => kv.1 == "random_seed") = false ∨
        pyTruthy (kwGet kwargs "increase_seed" PyVal.none) = false) →
        kwargs₂ = kwargs) ∧
      (∀ i : Int,
        kwargs.any (fun kv => kv.1 == "random_seed") = true →
        kwargs.any (fun kv => kv.1 == "increase_seed") = true →
        pyTruthy (kwGet kwargs "increase_seed" PyVal.none) = true →
        kwGet kwargs "random_seed" PyVal.none = PyVal.int i →
        dictGet kwargs₂ "random_seed" = Option.some (PyVal.int (i + 1)))) ∧
    ffGetId c10parent ≠ ffGetId c10parentAfter := by
  constructor
  case right =>
    intro h
    rw [c10IdChange.1, c10IdChange.2] at h
    injection h with h1
    exact absurd h1 (by decide)
  case left =>
    suffices htail : ∀ (subfed : List (List (String × PyVal))) (subs₂ : List FFSlot),
        subs₂.length = subs.length →
        ((ffStageApply name subfed args kwargs) >>= (fun result =>
          if ((kwargs.any fun kv => kv.1 == "random_seed") &&
              (kwargs.any fun kv => kv.1 == "increase_seed")) = true then
            if pyTruthy (kwGet kwargs "increase_seed" PyVal.none) = true then
              (pyIncOne (kwGet kwargs "random_seed" PyVal.none)) >>= (fun v =>
                Except.ok (dictSet kwargs "random_seed" v) >>= (fun kwargs2 =>
                  Except.ok (result, FFSlot.ff name args subs₂ kwargs2)))
            else Except.ok kwargs >>= (fun kwargs2 =>
              Except.ok (result, FFSlot.ff name args subs₂ kwargs2))
          else Except.ok kwargs >>= (fun kwargs2 =>
            Except.ok (result, FFSlot.ff name args subs₂ kwargs2))) :
          Except PyErr (List (List (String × PyVal)) × FFSlot)) =
          Except.ok (res, f2) →
        (∃ subs₂ kwargs₂,
          f2 = FFSlot.ff name args subs₂ kwargs₂ ∧
          subs₂.length = subs.length ∧
          (∀ k, k ≠ "random_seed" → dictGet kwargs₂ k = dictGet kwargs k) ∧
          ((kwargs.any (fun kv => kv.1 == "random_seed") = false ∨
            pyTruthy (kwGet kwargs "increase_seed" PyVal.none) = false) →
            kwargs₂ = kwargs) ∧
          (∀ i : Int,
            kwargs.any (fun kv => kv.1 == "random_seed") = true →
            kwargs.any (fun kv => kv.1 == "increase_seed") = true →
            pyTruthy (kwGet kwargs "increase_seed" PyVal.none) = true →
            kwGet kwargs "random_seed" PyVal.none = PyVal.int i →
            dictGet kwargs₂ "random_seed" = Option.some (PyVal.int (i + 1)))) by
      cases subs with
      | nil => exact htail feats [] rfl hok
      | cons s rest =>
        cases hs : ffExecSubsLoop (s :: rest) feats [] with
        | error e =>
          unfold ffFilter at hok
          rw [hs] at hok
          exact Except.noConfusion hok
        | ok p =>
          obtain ⟨subfed, subs₂⟩ := p
          unfold ffFilter at hok
          rw [hs] at hok
          exact htail subfed subs₂
            (ffExecSubsLoop_len (s :: rest) feats [] subfed subs₂ hs) hok
    intro subfed subs₂ hlen hok2
    cases hst : ffStageApply name subfed args kwargs with
    | error e =>
      rw [hst, exceptBindErr] at hok2
      exact Except.noConfusion hok2
    | ok result =>
      rw [hst, exceptBindOk] at hok2
      by_cases hA : ((kwargs.any fun kv => kv.1 == "random_seed") &&
          (kwargs.any fun kv => kv.1 == "increase_seed")) = true
      · rw [if_pos hA] at hok2
        by_cases hB : pyTruthy (kwGet kwargs "increase_seed" PyVal.none) = true
        · rw [if_pos hB] at hok2
          cases hv : pyIncOne (kwGet kwargs "random_seed" PyVal.none) with
          | error e =>
            rw [hv, exceptBindErr] at hok2
            exact Except.noConfusion hok2
          | ok v =>
            rw [hv, exceptBindOk] at hok2
            have hok3 : Except.ok (result,
                FFSlot.ff name args subs₂ (dictSet kwargs "random_seed" v)) =
                (Except.ok (res, f2) :
                  Except PyErr (List (List (String × PyVal)) × FFSlot)) := hok2
            injection hok3 with h1
            have h2 : f2 = FFSlot.ff name args subs₂
                (dictSet kwargs "random_seed" v) := (congrArg Prod.snd h1).symm
            refine ⟨subs₂, dictSet kwargs "random_seed" v, h2, hlen, ?_, ?_, ?_⟩
            · intro k hk
              exact dictGet_dictSet_other kwargs "random_seed" k v hk
            · intro hcontra
              rcases hcontra with h | h
              · rw [Bool.and_eq_true] at hA
                rw [hA.1] at h
                exact Bool.noConfusion h
              · rw [hB] at h
                exact Bool.noConfusion h
            · intro i _ _ _ hseed
              rw [hseed] at hv
              have hv2 : v = PyVal.int (i + 1) := by
                injection hv with h3
                exact h3.symm
              rw [hv2]
              exact dictGet_dictSet_self kwargs "random_seed" (PyVal.int (i + 1))
        · rw [if_neg hB] at hok2
          have hok3 : Except.ok (result, FFSlot.ff name args subs₂ kwargs) =
              (Except.ok (res, f2) :
                Except PyErr (List (List (String × PyVal)) × FFSlot)) := hok2
          injection hok3 with h1
          have h2 : f2 = FFSlot.ff name args subs₂ kwargs :=
            (congrArg Prod.snd h1).symm
          refine ⟨subs₂, kwargs, h2, hlen, fun k _ => rfl, fun _ => rfl, ?_⟩
          intro i _ _ ht' _
          exact absurd ht' hB
      · rw [if_neg hA] at hok2
        have hok3 : Except.ok (result, FFSlot.ff name args subs₂ kwargs) =
            (Except.ok (res, f2) :
              Except PyErr (List (List (String × PyVal)) × FFSlot)) := hok2
        injection hok3 with h1
        have h2 : f2 = FFSlot.ff name args subs₂ kwargs :=
          (congrArg Prod.snd h1).symm
        refine ⟨subs₂, kwargs, h2, hlen, fun k _ => rfl, fun _ => rfl, ?_⟩
        intro i hc1 hc2 _ _
        exact absurd (by simp [hc1, hc2] : ((kwargs.any fun kv => kv.1 == "random_seed") &&
          (kwargs.any fun kv => kv.1 == "increase_seed")) = true) hA

/-- Witness for the amended C10 at the concrete scenario: the parent
stage's `filter()` call succeeds, so the frame property and the concrete
ID change hold there. -/
theorem c10_amended_witness :
    (∃ subs₂ kwargs₂,
      FFSlot.ff "do_nothing" [] [c10childAfter] c10kwAfter =
        FFSlot.ff "do_nothing" [] subs₂ kwargs₂ ∧
      subs₂.length = [c10child].length ∧
      (∀ k, k ≠ "random_seed" → dictGet kwargs₂ k = dictGet c10kw k) ∧
      ((c10kw.any (fun kv => kv.1 == "random_seed") = false ∨
        pyTruthy (kwGet c10kw "increase_seed" PyVal.none) = false) →
        kwargs₂ = c10kw) ∧
      (∀ i : Int,
        c10kw.any (fun kv => kv.1 == "random_seed") = true →
        c10kw.any (fun kv => kv.1 == "increase_seed") = true →
        pyTruthy (kwGet c10kw "increase_seed" PyVal.none) = true →
        kwGet c10kw "random_seed" PyVal.none = PyVal.int i →
        dictGet kwargs₂ "random_seed" = Option.some (PyVal.int (i + 1)))) ∧
    ffGetId c10parent ≠ ffGetId c10parentAfter :=
  c10_amended "do_nothing" [] [c10child] c10kw [] []
    (FFSlot.ff "do_nothing" [] [c10childAfter] c10kwAfter) rfl

/-! ## C7: the prefix-filter complement law -/

/-- Lookup by key finds a member outright when keys are distinct. -/
theorem find?_key_of_mem_nodup {α : Type} (d : List (String × α))
    (hnd : (d.map Prod.fst).Nodup) (kv : String × α) (hmem : kv ∈ d) :
    d.find? (fun x => x.1 == kv.1) = Option.some kv := by
  induction d with
  | nil => cases hmem
  | cons hd rest ih =>
    rcases List.mem_cons.mp hmem with h | h
    · rw [h]
      simp [List.find?_cons]
    · have hne : hd.1 ≠ kv.1 := by
        intro he
        have h1 : kv.1 ∈ rest.map Prod.fst := List.mem_map_of_mem Prod.fst h
        rw [List.map_cons, List.nodup_cons] at hnd
        exact hnd.1 (he ▸ h1)
      have hb : (hd.1 == kv.1) = false := by simp [hne]
      simp only [List.find?_cons, hb]
      exact ih (by rw [List.map_cons, List.nodup_cons] at hnd; exact hnd.2) h

/-- Keys absent from `new` read through `old.update(new)` unchanged. -/
theorem dictGet_dictUpdate_notMem (old new : List (String × PyVal)) (k : String)
    (hk : new.all (fun kv => !(kv.1 == k)) = true) :
    dictGet (dictUpdate old new) k = dictGet old k := by
  induction new generalizing old with
  | nil => rfl
  | cons kv rest ih =>
    simp only [List.all_cons, Bool.and_eq_true, Bool.not_eq_true'] at hk
    have h1 : dictUpdate old (kv :: rest) =
        dictUpdate (dictSet old kv.1 kv.2) rest := rfl
    rw [h1, ih (dictSet old kv.1 kv.2) (by simp [List.all_eq_true] at hk ⊢; exact hk.2)]
    exact dictGet_dictSet_other old kv.1 k kv.2
      (by intro he; rw [he] at hk; simp at hk)

/-- Keys present in a duplicate-free `new` read their `new` value after
`old.update(new)`. -/
theorem dictGet_dictUpdate_mem (old new : List (String × PyVal)) (k : String)
    (hnd : (new.map Prod.fst).Nodup)
    (hk : new.any (fun kv => kv.1 == k) = true) :
    dictGet (dictUpdate old new) k = dictGet new k := by
  induction new generalizing old with
  | nil => simp at hk
  | cons kv rest ih =>
    rw [List.map_cons, List.nodup_cons] at hnd
    have h1 : dictUpdate old (kv :: rest) =
        dictUpdate (dictSet old kv.1 kv.2) rest := rfl
    by_cases hh : (kv.1 == k) = true
    · have hkk : kv.1 = k := by simpa using hh
      have hall : rest.all (fun x => !(x.1 == k)) = true := by
        rw [List.all_eq_true]
        intro x hx
        have hxk : x.1 ∈ rest.map Prod.fst := List.mem_map_of_mem Prod.fst hx
        by_contra hc
        simp only [Bool.not_eq_true', Bool.not_eq_false] at hc
        have hxe : x.1 = k := by simpa using hc
        exact hnd.1 (by rw [hkk, ← hxe]; exact hxk)
      rw [h1, dictGet_dictUpdate_notMem _ rest k hall]
      rw [← hkk, dictGet_dictSet_self]
      unfold dictGet
      simp [List.find?_cons]
    · have hh' : (kv.1 == k) = false := Bool.eq_false_iff.mpr hh
      simp only [List.any_cons, hh', Bool.false_or] at hk
      rw [h1, ih (dictSet old kv.1 kv.2) hnd.2 hk]
      unfold dictGet
      simp only [List.find?_cons, hh']

/-- Two members of a duplicate-free-keys dict with equal keys coincide. -/
theorem mem_key_unique {α : Type} (d : List (String × α))
    (hnd : (d.map Prod.fst).Nodup) (x y : String × α)
    (hx : x ∈ d) (hy : y ∈ d) (hk : x.1 = y.1) : x = y := by
  have h1 := find?_key_of_mem_nodup d hnd x hx
  have h2 := find?_key_of_mem_nodup d hnd y hy
  rw [hk] at h1
  rw [h1] at h2
  exact Option.some.inj h2

/-- An element produced by `find?` satisfies the predicate. -/
theorem find?_pred {α : Type} (p : α → Bool) (l : List α) (a : α)
    (h : l.find? p = Option.some a) : p a = true := by
  induction l with
  | nil => cases h
  | cons x xs ih =>
    by_cases hx : p x = true
    · rw [List.find?_cons_of_pos _ hx] at h
      rw [← Option.some.inj h]
      exact hx
    · rw [List.find?_cons_of_neg _ (by simpa using hx)] at h
      exact ih h

/-- Merging the two complementary filterings of a record by `update`
restores every lookup of the original record. -/
theorem dictGet_update_filter_compl (d : List (String × PyVal))
    (p : String × PyVal → Bool) (hnd : (d.map Prod.fst).Nodup) (k : String) :
    dictGet (dictUpdate (d.filter p) (d.filter (fun kv => !(p kv)))) k =
      dictGet d k := by
  have hsubP : ((d.filter p).map Prod.fst).Sublist (d.map Prod.fst) :=
    (List.filter_sublist d).map Prod.fst
  have hsubQ : ((d.filter (fun kv => !(p kv))).map Prod.fst).Sublist
      (d.map Prod.fst) := (List.filter_sublist d).map Prod.fst
  cases hf : d.find? (fun x => x.1 == k) with
  | none =>
    have hall : ∀ x ∈ d, (x.1 == k) = false := by
      intro x hx
      exact Bool.eq_false_iff.mpr (List.find?_eq_none.mp hf x hx)
    have h1 : (d.filter (fun kv => !(p kv))).all (fun kv => !(kv.1 == k)) = true := by
      rw [List.all_eq_true]
      intro x hx
      rw [hall x (List.mem_filter.mp hx).1]
      rfl
    rw [dictGet_dictUpdate_notMem _ _ k h1]
    have h2 : (d.filter p).find? (fun x => x.1 == k) = Option.none :=
      List.find?_eq_none.mpr (fun x hx => by
        rw [hall x (List.mem_filter.mp hx).1]; exact Bool.false_ne_true)
    unfold dictGet
    rw [h2, hf]
  | some kv₀ =>
    have hmem : kv₀ ∈ d := List.mem_of_find?_eq_some hf
    have hkey : (kv₀.1 == k) = true :=
      find?_pred (fun x => x.1 == k) d kv₀ hf
    have hk1 : kv₀.1 = k := by simpa using hkey
    by_cases hp : p kv₀ = true
    · have hall : (d.filter (fun kv => !(p kv))).all (fun kv => !(kv.1 == k)) = true := by
        rw [List.all_eq_true]
        intro x hx
        rcases List.mem_filter.mp hx with ⟨hxd, hxp⟩
        by_contra hc
        simp only [Bool.not_eq_true', Bool.not_eq_false] at hc
        have hxe : x = kv₀ :=
          mem_key_unique d hnd x kv₀ hxd hmem (by
            have hxk : x.1 = k := by simpa using hc
            rw [hxk, hk1])
        rw [hxe] at hxp
        rw [hp] at hxp
        exact Bool.noConfusion hxp
      rw [dictGet_dictUpdate_notMem _ _ k hall]
      have hndf : ((d.filter p).map Prod.fst).Nodup := hnd.sublist hsubP
      have hfind := find?_key_of_mem_nodup (d.filter p) hndf kv₀
        (List.mem_filter.mpr ⟨hmem, hp⟩)
      rw [hk1] at hfind
      unfold dictGet
      rw [hfind, hf]
    · have hp' : (fun kv => !(p kv)) kv₀ = true := by
        simp only [Bool.not_eq_true']
        exact Bool.eq_false_iff.mpr hp
      have hndf : ((d.filter (fun kv => !(p kv))).map Prod.fst).Nodup :=
        hnd.sublist hsubQ
      have hfind := find?_key_of_mem_nodup (d.filter (fun kv => !(p kv))) hndf kv₀
        (List.mem_filter.mpr ⟨hmem, hp'⟩)
      have hany : (d.filter (fun kv => !(p kv))).any (fun kv => kv.1 == k) = true := by
        rw [List.any_eq_true]
        exact ⟨kv₀, List.mem_filter.mpr ⟨hmem, hp'⟩, hkey⟩
      rw [dictGet_dictUpdate_mem _ _ k hndf hany]
      rw [hk1] at hfind
      unfold dictGet
      rw [hfind, hf]

/-- C7.  The prefix-inclusion stage obeys the complement law: for every
record sequence with duplicate-free keys, merging (record-by-record
`dict.update`) the `invert=False` output with the `invert=True` output
restores each original record as a key-value mapping, and each field of
each record lands in the `invert=False` output iff its key starts with
the prefix, and in the `invert=True` output iff it does not — exactly
one side. -/
theorem c7_complement (feats : List (List (String × PyVal))) (pref : String)
    (hnd : ∀ d ∈ feats, (d.map Prod.fst).Nodup) :
    List.Forall₂ (fun merged orig => ∀ k, dictGet merged k = dictGet orig k)
      (zipUpdateList (filterKeyStartsWith feats pref (PyVal.bool false))
        (filterKeyStartsWith feats pref (PyVal.bool true)))
      feats ∧
    List.Forall₂ (fun kept orig => ∀ kv ∈ orig,
        (kv ∈ kept ↔ kv.1.startsWith pref = true))
      (filterKeyStartsWith feats pref (PyVal.bool false)) feats ∧
    List.Forall₂ (fun dropped orig => ∀ kv ∈ orig,
        (kv ∈ dropped ↔ kv.1.startsWith pref = false))
      (filterKeyStartsWith feats pref (PyVal.bool true)) feats := by
  have hpq : (fun kv : String × PyVal =>
      !(pyEqBool (kv.1.startsWith pref) (PyVal.bool true))) =
      (fun kv : String × PyVal =>
        !((fun kv : String × PyVal =>
          !(pyEqBool (kv.1.startsWith pref) (PyVal.bool false))) kv)) := by
    funext kv
    cases h : kv.1.startsWith pref <;> simp [pyEqBool, h]
  refine ⟨?_, ?_, ?_⟩
  · induction feats with
    | nil => exact List.Forall₂.nil
    | cons d rest ih =>
      simp only [filterKeyStartsWith, List.map_cons]
      refine List.Forall₂.cons ?_ ?_
      · intro k
        show dictGet (dictUpdate
          (d.filter (fun kv => !(pyEqBool (kv.1.startsWith pref) (PyVal.bool false))))
          (d.filter (fun kv => !(pyEqBool (kv.1.startsWith pref) (PyVal.bool true))))) k =
          dictGet d k
        rw [hpq]
        exact dictGet_update_filter_compl d _ (hnd d (List.mem_cons_self d rest)) k
      · have ih2 := ih (fun x hx => hnd x (List.mem_cons_of_mem d hx))
        simpa only [filterKeyStartsWith] using ih2
  · induction feats with
    | nil => exact List.Forall₂.nil
    | cons d rest ih =>
      simp only [filterKeyStartsWith, List.map_cons]
      refine List.Forall₂.cons ?_ ?_
      · intro kv hkv
        rw [List.mem_filter]
        cases h : kv.1.startsWith pref <;> simp [pyEqBool, h, hkv]
      · have ih2 := ih (fun x hx => hnd x (List.mem_cons_of_mem d hx))
        simpa only [filterKeyStartsWith] using ih2
  · induction feats with
    | nil => exact List.Forall₂.nil
    | cons d rest ih =>
      simp only [filterKeyStartsWith, List.map_cons]
      refine List.Forall₂.cons ?_ ?_
      · intro kv hkv
        rw [List.mem_filter]
        cases h : kv.1.startsWith pref <;> simp [pyEqBool, h, hkv]
      · have ih2 := ih (fun x hx => hnd x (List.mem_cons_of_mem d hx))
        simpa only [filterKeyStartsWith] using ih2

/-- Witness for C7 at a concrete two-record sequence and the prefix
`original_`. -/
theorem c7_complement_witness :
    List.Forall₂ (fun merged orig => ∀ k, dictGet merged k = dictGet orig k)
      (zipUpdateList
        (filterKeyStartsWith
          [[("original_shape", PyVal.int 1), ("diag_x", PyVal.int 2)],
           [("original_glcm", PyVal.int 3)]] "original_" (PyVal.bool false))
        (filterKeyStartsWith
          [[("original_shape", PyVal.int 1), ("diag_x", PyVal.int 2)],
           [("original_glcm", PyVal.int 3)]] "original_" (PyVal.bool true)))
      [[("original_shape", PyVal.int 1), ("diag_x", PyVal.int 2)],
       [("original_glcm", PyVal.int 3)]] ∧
    List.Forall₂ (fun kept orig => ∀ kv ∈ orig,
        (kv ∈ kept ↔ kv.1.startsWith "original_" = true))
      (filterKeyStartsWith
        [[("original_shape", PyVal.int 1), ("diag_x", PyVal.int 2)],
         [("original_glcm", PyVal.int 3)]] "original_" (PyVal.bool false))
      [[("original_shape", PyVal.int 1), ("diag_x", PyVal.int 2)],
       [("original_glcm", PyVal.int 3)]] ∧
    List.Forall₂ (fun dropped orig => ∀ kv ∈ orig,
        (kv ∈ dropped ↔ kv.1.startsWith "original_" = false))
      (filterKeyStartsWith
        [[("original_shape", PyVal.int 1), ("diag_x", PyVal.int 2)],
         [("original_glcm", PyVal.int 3)]] "original_" (PyVal.bool true))
      [[("original_shape", PyVal.int 1), ("diag_x", PyVal.int 2)],
       [("original_glcm", PyVal.int 3)]] :=
  c7_complement
    [[("original_shape", PyVal.int 1), ("diag_x", PyVal.int 2)],
     [("original_glcm", PyVal.int 3)]] "original_" (by decide)

/-! ## C8: `execute_subfilters` semantics -/

/-- The zip-merge keeps the accumulator record count. -/
theorem zipUpdateList_length :
    ∀ (a n : List (List (String × PyVal))),
      (zipUpdateList a n).length = a.length
  | [], _ => rfl
  | _ :: _, [] => rfl
  | a :: xs, m :: ns => by
    show (dictUpdate a m :: zipUpdateList xs ns).length = (a :: xs).length
    simp [zipUpdateList_length xs ns]

/-- Accumulator form of the `mapM` length invariant. -/
theorem exceptMapMLoop_length {ε α β : Type} (f : α → Except ε β) :
    ∀ (l : List α) (acc out : List β),
      List.mapM.loop f l acc = Except.ok out →
      out.length = l.length + acc.length := by
  intro l
  induction l with
  | nil =>
    intro acc out h
    unfold List.mapM.loop at h
    injection h with h1
    rw [← h1]
    simp
  | cons x xs ih =>
    intro acc out h
    unfold List.mapM.loop at h
    cases hf : f x with
    | error e =>
      rw [hf, exceptBindErr] at h
      exact Except.noConfusion h
    | ok y =>
      rw [hf, exceptBindOk] at h
      have h2 := ih (y :: acc) out h
      simp at h2 ⊢
      omega

/-- A successful `mapM` over `Except` returns one output per input. -/
theorem exceptMapM_length {ε α β : Type} (f : α → Except ε β) (l : List α)
    (out : List β) (h : l.mapM f = Except.ok out) : out.length = l.length := by
  have h2 := exceptMapMLoop_length f l [] out h
  simpa using h2

/-- One importance-threshold pass keeps the record count. -/
theorem impStep_length (threshold invertV : PyVal) (kv : String × PyVal)
    (fs fs' : List (List (String × PyVal)))
    (h : impStep threshold invertV fs kv = Except.ok fs') :
    fs'.length = fs.length := by
  unfold impStep at h
  cases hn1 : pyNumVal kv.2 with
  | none =>
    cases hn2 : pyNumVal threshold <;> rw [hn1, hn2] at h <;>
      exact Except.noConfusion h
  | some a =>
    cases hn2 : pyNumVal threshold with
    | none =>
      rw [hn1, hn2] at h
      exact Except.noConfusion h
    | some b =>
      rw [hn1, hn2] at h
      replace h : (if (if pyTruthy invertV = true then !(decide (a < b))
            else decide (a < b)) = true then
          fs.mapM (fun r =>
            if r.any (fun f => f.1 == kv.1) = true then
              Except.ok (r.filter (fun f => !(f.1 == kv.1)))
            else Except.error PyErr.keyError)
        else Except.ok fs) = Except.ok fs' := h
      cases hrem : (if pyTruthy invertV = true then !(decide (a < b))
          else decide (a < b)) with
      | true =>
        rw [hrem, if_pos rfl] at h
        exact exceptMapM_length _ fs fs' h
      | false =>
        rw [hrem, if_neg Bool.false_ne_true] at h
        injection h with h1
        rw [← h1]

/-- The importance-threshold stage keeps the record count. -/
theorem impThresh_length (importances : List (String × PyVal))
    (threshold invertV : PyVal) :
    ∀ (feats out : List (List (String × PyVal))),
      filterImportanceThreshold feats importances threshold invertV =
        Except.ok out →
      out.length = feats.length := by
  unfold filterImportanceThreshold
  induction importances with
  | nil =>
    intro feats out h
    injection h with h1
    rw [← h1]
  | cons kv rest ih =>
    intro feats out h
    rw [List.foldlM_cons] at h
    cases hst : impStep threshold invertV feats kv with
    | error e =>
      rw [hst, exceptBindErr] at h
      exact Except.noConfusion h
    | ok fs' =>
      rw [hst, exceptBindOk] at h
      rw [ih fs' out h]
      exact impStep_length threshold invertV kv feats fs' hst

/-- Success-path analysis of the sampling match in `_filter_random_choice`:
whatever the continuation, a success inherits the continuation's length
bound. -/
theorem matchSample_length
    (X : Except SampErr (List String × MTState))
    (JP : List String × MTState → Except PyErr (List (List (String × PyVal))))
    (feats out : List (List (String × PyVal)))
    (hJP : ∀ sr out', JP sr = Except.ok out' → out'.length = feats.length)
    (h : (match X with
      | Except.error SampErr.fuel => Except.error PyErr.fuel >>= JP
      | Except.error _ => Except.error PyErr.valueError >>= JP
      | Except.ok r => Except.ok r >>= JP) = Except.ok out) :
    out.length = feats.length := by
  cases X with
  | error se => cases se <;> exact Except.noConfusion h
  | ok r => exact hJP r out h

/-- The random-choice stage keeps the record count. -/
theorem randomChoice_length (feats : List (List (String × PyVal)))
    (fracV : PyVal) (kwargs : List (String × PyVal))
    (out : List (List (String × PyVal)))
    (h : filterRandomChoice feats fracV kwargs = Except.ok out) :
    out.length = feats.length := by
  unfold filterRandomChoice at h
  by_cases he : feats.isEmpty = true
  · rw [if_pos he] at h
    injection h with h1
    rw [← h1]
  · rw [if_neg he] at h
    cases hfr : pyNumVal fracV with
    | none =>
      rw [hfr] at h
      exact Except.noConfusion h
    | some q =>
      rw [hfr] at h
      cases hsv : kwGet kwargs "random_seed" (PyVal.int 0) with
      | str s => rw [hsv] at h; exact Except.noConfusion h
      | float qq => rw [hsv] at h; exact Except.noConfusion h
      | none => rw [hsv] at h; exact Except.noConfusion h
      | list l => rw [hsv] at h; exact Except.noConfusion h
      | dict d => rw [hsv] at h; exact Except.noConfusion h
      | int si =>
        rw [hsv] at h
        exact matchSample_length _ _ feats out
          (fun sr out' hh => exceptMapM_length _ feats out' hh) h
      | bool b =>
        rw [hsv] at h
        exact matchSample_length _ _ feats out
          (fun sr out' hh => exceptMapM_length _ feats out' hh) h

/-- Every built-in `_filter_*` stage returns one record per input
record. -/
theorem stageApply_length (name : String)
    (feats : List (List (String × PyVal))) (args : List PyVal)
    (kwargs : List (String × PyVal)) (out : List (List (String × PyVal)))
    (h : ffStageApply name feats args kwargs = Except.ok out) :
    out.length = feats.length := by
  unfold ffStageApply at h
  by_cases h1 : name = "do_nothing"
  · rw [if_pos h1] at h
    injection h with he
    rw [← he]
  · rw [if_neg h1] at h
    by_cases h2 : name = "key_starts_with"
    · rw [if_pos h2] at h
      cases hb : bindParam1 args kwargs "prefix" with
      | error e => rw [hb, exceptBindErr] at h; exact Except.noConfusion h
      | ok pv =>
        rw [hb, exceptBindOk] at h
        cases pv with
        | str p =>
          replace h : Except.ok (filterKeyStartsWith feats p
              (kwGet kwargs "invert" (PyVal.bool false))) =
              (Except.ok out :
                Except PyErr (List (List (String × PyVal)))) := h
          injection h with he
          rw [← he]
          unfold filterKeyStartsWith
          simp
        | int i => exact Except.noConfusion h
        | float q => exact Except.noConfusion h
        | bool b => exact Except.noConfusion h
        | none => exact Except.noConfusion h
        | list l => exact Except.noConfusion h
        | dict d => exact Except.noConfusion h
    · rw [if_neg h2] at h
      by_cases h3 : name = "importance_threshold"
      · rw [if_pos h3] at h
        cases hb : bindParam2 args kwargs "importances" "threshold" with
        | error e => rw [hb, exceptBindErr] at h; exact Except.noConfusion h
        | ok pv =>
          obtain ⟨impV, thrV⟩ := pv
          rw [hb, exceptBindOk] at h
          cases impV with
          | dict importances =>
            exact impThresh_length importances thrV
              (kwGet kwargs "invert" (PyVal.bool false)) feats out h
          | str s => exact Except.noConfusion h
          | int i => exact Except.noConfusion h
          | float q => exact Except.noConfusion h
          | bool b => exact Except.noConfusion h
          | none => exact Except.noConfusion h
          | list l => exact Except.noConfusion h
      · rw [if_neg h3] at h
        by_cases h4 : name = "random_choice"
        · rw [if_pos h4] at h
          cases hb : bindParam1 args kwargs "fraction" with
          | error e => rw [hb, exceptBindErr] at h; exact Except.noConfusion h
          | ok fv =>
            rw [hb, exceptBindOk] at h
            exact randomChoice_length feats fv kwargs out h
        · rw [if_neg h4] at h
          exact Except.noConfusion h

/-- Success decomposition of `FeatureFilter.filter`: a successful call
factors into a successful subfilter pass and a successful stage
application whose output is the returned record sequence. -/
theorem ffFilter_ok_decomp (name : String) (args : List PyVal)
    (subs : List FFSlot) (kwargs : List (String × PyVal))
    (feats res : List (List (String × PyVal))) (f₂ : FFSlot)
    (hok : ffFilter (FFSlot.ff name args subs kwargs) feats =
      Except.ok (res, f₂)) :
    ∃ subfed subs₂,
      (if subs.isEmpty = true then Except.ok (feats, subs)
        else ffExecSubsLoop subs feats []) = Except.ok (subfed, subs₂) ∧
      ffStageApply name subfed args kwargs = Except.ok res := by
  suffices htail : ∀ (subfed : List (List (String × PyVal))) (subs₂ : List FFSlot),
      ((do
        let result ← ffStageApply name subfed args kwargs
        let kwargs' ←
          if kwargs.any (fun kv => kv.1 == "random_seed") &&
             kwargs.any (fun kv => kv.1 == "increase_seed") then
            if pyTruthy (kwGet kwargs "increase_seed" PyVal.none) then do
              let v ← pyIncOne (kwGet kwargs "random_seed" PyVal.none)
              Except.ok (dictSet kwargs "random_seed" v)
            else Except.ok kwargs
          else Except.ok kwargs
        Except.ok (result, FFSlot.ff name args subs₂ kwargs')) :
        Except PyErr (List (List (String × PyVal)) × FFSlot)) =
        Except.ok (res, f₂) →
      ffStageApply name subfed args kwargs = Except.ok res by
    cases subs with
    | nil => exact ⟨feats, [], rfl, htail feats [] hok⟩
    | cons s rest =>
      cases hs : ffExecSubsLoop (s :: rest) feats [] with
      | error e =>
        unfold ffFilter at hok
        rw [hs] at hok
        exact Except.noConfusion hok
      | ok p =>
        obtain ⟨subfed, subs₂⟩ := p
        unfold ffFilter at hok
        rw [hs] at hok
        exact ⟨subfed, subs₂, rfl, htail subfed subs₂ hok⟩
  intro subfed subs₂ htl
  cases hst : ffStageApply name subfed args kwargs with
  | error e =>
    rw [hst, exceptBindErr] at htl
    exact Except.noConfusion htl
  | ok result =>
    rw [hst, exceptBindOk] at htl
    by_cases hA : ((kwargs.any fun kv => kv.1 == "random_seed") &&
        (kwargs.any fun kv => kv.1 == "increase_seed")) = true
    · rw [if_pos hA] at htl
      by_cases hB : pyTruthy (kwGet kwargs "increase_seed" PyVal.none) = true
      · rw [if_pos hB] at htl
        cases hv : pyIncOne (kwGet kwargs "random_seed" PyVal.none) with
        | error e =>
          rw [hv, exceptBindErr] at htl
          exact Except.noConfusion htl
        | ok v =>
          rw [hv, exceptBindOk] at htl
          replace htl : Except.ok (result, FFSlot.ff name args subs₂
              (dictSet kwargs "random_seed" v)) =
              (Except.ok (res, f₂) :
                Except PyErr (List (List (String × PyVal)) × FFSlot)) := htl
          injection htl with h1
          have h2 : result = res := congrArg Prod.fst h1
          rw [h2]
      · rw [if_neg hB] at htl
        replace htl : Except.ok (result, FFSlot.ff name args subs₂ kwargs) =
            (Except.ok (res, f₂) :
              Except PyErr (List (List (String × PyVal)) × FFSlot)) := htl
        injection htl with h1
        have h2 : result = res := congrArg Prod.fst h1
        rw [h2]
    · rw [if_neg hA] at htl
      replace htl : Except.ok (result, FFSlot.ff name args subs₂ kwargs) =
          (Except.ok (res, f₂) :
            Except PyErr (List (List (String × PyVal)) × FFSlot)) := htl
      injection htl with h1
      have h2 : result = res := congrArg Prod.fst h1
      rw [h2]

mutual

/-- The full `filter()` call keeps the record count. -/
theorem ffFilter_length : ∀ (f : FFSlot)
    (feats r : List (List (String × PyVal))) (f₂ : FFSlot),
    ffFilter f feats = Except.ok (r, f₂) → r.length = feats.length
  | .raw v, _, _, _, h => Except.noConfusion h
  | .ff name args subs kwargs, feats, r, f₂, h => by
    obtain ⟨subfed, subs₂, hsub, hst⟩ :=
      ffFilter_ok_decomp name args subs kwargs feats r f₂ h
    have hsf : subfed.length = feats.length := by
      cases subs with
      | nil =>
        injection hsub with h1
        have h2 : feats = subfed := congrArg Prod.fst h1
        rw [← h2]
      | cons s rest =>
        rcases ffExecSubsLoop_acclen (s :: rest) feats [] subfed subs₂
            (Or.inl rfl) hsub with ⟨_, hcon⟩ | hl
        · exact absurd hcon (List.cons_ne_nil s rest)
        · exact hl
    rw [stageApply_length name subfed args kwargs r hst]
    exact hsf

/-- The subfilter loop keeps the record count of the running merge. -/
theorem ffExecSubsLoop_acclen : ∀ (subs : List FFSlot)
    (feats acc out : List (List (String × PyVal))) (subs' : List FFSlot),
    (acc = [] ∨ acc.length = feats.length) →
    ffExecSubsLoop subs feats acc = Except.ok (out, subs') →
    (out = acc ∧ subs = []) ∨ out.length = feats.length
  | [], feats, acc, out, subs', _, h => by
    unfold ffExecSubsLoop at h
    injection h with h1
    exact Or.inl ⟨(congrArg Prod.fst h1).symm, rfl⟩
  | s :: rest, feats, acc, out, subs', hacc, h => by
    unfold ffExecSubsLoop at h
    cases hf : ffFilter s feats with
    | error e =>
      rw [hf, exceptBindErr] at h
      exact Except.noConfusion h
    | ok p =>
      obtain ⟨res, s₂⟩ := p
      rw [hf, exceptBindOk] at h
      simp only [] at h
      have hres : res.length = feats.length := ffFilter_length s feats res s₂ hf
      have hacc' : (if acc.isEmpty = true then res
          else zipUpdateList acc res).length = feats.length := by
        cases acc with
        | nil => simpa using hres
        | cons a as =>
          rcases hacc with hc | hc
          · exact absurd hc (List.cons_ne_nil a as)
          · show (zipUpdateList (a :: as) res).length = feats.length
            rw [zipUpdateList_length]
            exact hc
      cases hr : ffExecSubsLoop rest feats
          (if acc.isEmpty = true then res else zipUpdateList acc res) with
      | error e =>
        rw [hr, exceptBindErr] at h
        exact Except.noConfusion h
      | ok q =>
        obtain ⟨accF, rest'⟩ := q
        rw [hr, exceptBindOk] at h
        injection h with h1
        have hout : out = accF := (congrArg Prod.fst h1).symm
        rcases ffExecSubsLoop_acclen rest feats _ accF rest'
            (Or.inr hacc') hr with ⟨he1, _⟩ | hl
        · refine Or.inr ?_
          rw [hout, he1]
          exact hacc'
        · refine Or.inr ?_
          rw [hout]
          exact hl

end

/-- Decomposition of the subfilter loop: each subfilter runs on the same
original input and the loop returns the left fold of the record-by-record
merge over their outputs. -/
theorem ffExecSubsLoop_foldl :
    ∀ (subs : List FFSlot)
      (feats acc out : List (List (String × PyVal))) (subs' : List FFSlot),
      acc.length = feats.length →
      ffExecSubsLoop subs feats acc = Except.ok (out, subs') →
      ∃ results,
        List.Forall₂ (fun sf r => ∃ sf₂,
          ffFilter sf feats = Except.ok (r, sf₂)) subs results ∧
        out = results.foldl zipUpdateList acc := by
  intro subs
  induction subs with
  | nil =>
    intro feats acc out subs' _ h
    unfold ffExecSubsLoop at h
    injection h with h1
    exact ⟨[], List.Forall₂.nil, (congrArg Prod.fst h1).symm⟩
  | cons s rest ih =>
    intro feats acc out subs' hlen h
    unfold ffExecSubsLoop at h
    cases hf : ffFilter s feats with
    | error e =>
      rw [hf, exceptBindErr] at h
      exact Except.noConfusion h
    | ok p =>
      obtain ⟨res, s₂⟩ := p
      rw [hf, exceptBindOk] at h
      simp only [] at h
      have hres : res.length = feats.length := ffFilter_length s feats res s₂ hf
      cases acc with
      | nil =>
        have hres0 : res = [] := by
          rw [← List.length_eq_zero, hres, ← hlen]
          rfl
        subst hres0
        replace h : (ffExecSubsLoop rest feats [] >>= (fun q =>
          Except.ok (q.1, s₂ :: q.2))) = Except.ok (out, subs') := h
        cases hr : ffExecSubsLoop rest feats [] with
        | error e =>
          rw [hr, exceptBindErr] at h
          exact Except.noConfusion h
        | ok q =>
          obtain ⟨accF, rest'⟩ := q
          rw [hr, exceptBindOk] at h
          obtain ⟨results, hfa, hout⟩ := ih feats [] accF rest' hlen hr
          injection h with h1
          have h2 : out = accF := (congrArg Prod.fst h1).symm
          refine ⟨[] :: results, List.Forall₂.cons ⟨s₂, hf⟩ hfa, ?_⟩
          rw [h2, hout]
          rfl
      | cons a as =>
        rw [show ((a :: as).isEmpty) = false from rfl,
          if_neg Bool.false_ne_true] at h
        cases hr : ffExecSubsLoop rest feats (zipUpdateList (a :: as) res) with
        | error e =>
          rw [hr, exceptBindErr] at h
          exact Except.noConfusion h
        | ok q =>
          obtain ⟨accF, rest'⟩ := q
          rw [hr, exceptBindOk] at h
          have hzl : (zipUpdateList (a :: as) res).length = feats.length := by
            rw [zipUpdateList_length]
            exact hlen
          obtain ⟨results, hfa, hout⟩ :=
            ih feats (zipUpdateList (a :: as) res) accF rest' hzl hr
          injection h with h1
          have h2 : out = accF := (congrArg Prod.fst h1).symm
          refine ⟨res :: results, List.Forall₂.cons ⟨s₂, hf⟩ hfa, ?_⟩
          rw [h2, hout]
          rfl

/-- C8.  `execute_subfilters` is the identity on the records when the
stage has no subfilters; otherwise every subfilter is applied to the
*original*, unfiltered input, and the output is the record-by-record
merge (`zip` + `dict.update`, later fields overriding earlier ones)
folded over the subfilter outputs with the first subfilter's output as
the base. -/
theorem c8_execute_subfilters (subs : List FFSlot)
    (feats out : List (List (String × PyVal))) (subs' : List FFSlot)
    (hok : ffExecuteSubfilters subs feats = Except.ok (out, subs')) :
    (subs = [] → out = feats ∧ subs' = []) ∧
    (∀ s rest, subs = s :: rest →
      ∃ r₀ results,
        (∃ s₂, ffFilter s feats = Except.ok (r₀, s₂)) ∧
        List.Forall₂ (fun sf r => ∃ sf₂,
          ffFilter sf feats = Except.ok (r, sf₂)) rest results ∧
        out = results.foldl zipUpdateList r₀) := by
  constructor
  · intro hs
    subst hs
    replace hok : (Except.ok (feats, ([] : List FFSlot)) :
        Except PyErr (List (List (String × PyVal)) × List FFSlot)) =
        Except.ok (out, subs') := hok
    injection hok with h1
    exact ⟨(congrArg Prod.fst h1).symm, (congrArg Prod.snd h1).symm⟩
  · intro s rest hs
    subst hs
    replace hok : ffExecSubsLoop (s :: rest) feats [] =
        Except.ok (out, subs') := hok
    unfold ffExecSubsLoop at hok
    cases hf : ffFilter s feats with
    | error e =>
      rw [hf, exceptBindErr] at hok
      exact Except.noConfusion hok
    | ok p =>
      obtain ⟨r₀, s₂⟩ := p
      rw [hf, exceptBindOk] at hok
      simp only [] at hok
      cases hr : ffExecSubsLoop rest feats
          (if List.isEmpty [] = true then r₀ else zipUpdateList [] r₀) with
      | error e =>
        rw [hr, exceptBindErr] at hok
        exact Except.noConfusion hok
      | ok q =>
        obtain ⟨accF, rest'⟩ := q
        rw [hr, exceptBindOk] at hok
        have hlen : r₀.length = feats.length :=
          ffFilter_length s feats r₀ s₂ hf
        replace hr : ffExecSubsLoop rest feats r₀ = Except.ok (accF, rest') := hr
        obtain ⟨results, hfa, hout⟩ :=
          ffExecSubsLoop_foldl rest feats r₀ accF rest' hlen hr
        injection hok with h1
        have h2 : out = accF := (congrArg Prod.fst h1).symm
        refine ⟨r₀, results, ⟨s₂, rfl⟩, hfa, ?_⟩
        rw [h2, hout]

/-- Witness for C8: two `do_nothing` subfilters over one two-field
record. -/
theorem c8_execute_subfilters_witness :
    (([FFSlot.ff "do_nothing" [] [] [("tag", PyVal.int 1)],
       FFSlot.ff "do_nothing" [] [] []] : List FFSlot) = [] →
      ([[("ab", PyVal.int 1), ("cd", PyVal.int 2)]] :
          List (List (String × PyVal))) =
        [[("ab", PyVal.int 1), ("cd", PyVal.int 2)]] ∧
      ([FFSlot.ff "do_nothing" [] [] [("tag", PyVal.int 1)],
        FFSlot.ff "do_nothing" [] [] []] : List FFSlot) = []) ∧
    (∀ s rest,
      ([FFSlot.ff "do_nothing" [] [] [("tag", PyVal.int 1)],
        FFSlot.ff "do_nothing" [] [] []] : List FFSlot) = s :: rest →
      ∃ r₀ results,
        (∃ s₂, ffFilter s [[("ab", PyVal.int 1), ("cd", PyVal.int 2)]] =
          Except.ok (r₀, s₂)) ∧
        List.Forall₂ (fun sf r => ∃ sf₂,
          ffFilter sf [[("ab", PyVal.int 1), ("cd", PyVal.int 2)]] =
            Except.ok (r, sf₂)) rest results ∧
        [[("ab", PyVal.int 1), ("cd", PyVal.int 2)]] =
          results.foldl zipUpdateList r₀) :=
  c8_execute_subfilters
    [FFSlot.ff "do_nothing" [] [] [("tag", PyVal.int 1)],
     FFSlot.ff "do_nothing" [] [] []]
    [[("ab", PyVal.int 1), ("cd", PyVal.int 2)]]
    [[("ab", PyVal.int 1), ("cd", PyVal.int 2)]]
    [FFSlot.ff "do_nothing" [] [] [("tag", PyVal.int 1)],
     FFSlot.ff "do_nothing" [] [] []]
    (by rfl)

/-- C2 counterexample.  A filter with a subfilter has well-defined dict
representations in both modes, but the object loaded back from either
mode is broken: `from_dict` re-wraps the stored `subfilters` entries
(ID strings in by-ID mode, dicts in inline mode) without reconstructing
`FeatureFilter`s, so asking the loaded object for its dict representation
raises `AttributeError` — the round trip fails in both modes. -/
theorem c2_counterexample :
    (∃ rep, ffGetDictRepresentation true c2parent = Except.ok rep) ∧
    (∃ rep, ffGetDictRepresentation false c2parent = Except.ok rep) ∧
    ((ffSave c2parent).bind ffLoad).bind (ffGetDictRepresentation true) =
      Except.error PyErr.attrError ∧
    ((ffToFile c2parent).bind ffLoad).bind (ffGetDictRepresentation false) =
      Except.error PyErr.attrError :=
  ⟨⟨_, rfl⟩, ⟨_, rfl⟩, rfl, rfl⟩

/-- C2 amended.  Subfilter-free filters round-trip on the nose in both
modes: saving and loading returns an equal object (hence equal dict
representations).  Filters with subfilters do not round-trip (see
`c2_counterexample`). -/
theorem c2_amended (name : String) (args : List PyVal)
    (kwargs : List (String × PyVal)) (hname : name ∈ availableFilters) :
    (ffSave (FFSlot.ff name args [] kwargs)).bind ffLoad =
      Except.ok (FFSlot.ff name args [] kwargs) ∧
    (ffToFile (FFSlot.ff name args [] kwargs)).bind ffLoad =
      Except.ok (FFSlot.ff name args [] kwargs) := by
  constructor
  · have h1 : (ffSave (FFSlot.ff name args [] kwargs)).bind ffLoad =
        ffInit name args [] kwargs := rfl
    rw [h1]
    unfold ffInit
    rw [if_pos hname]
  · have h1 : (ffToFile (FFSlot.ff name args [] kwargs)).bind ffLoad =
        ffInit name args [] kwargs := rfl
    rw [h1]
    unfold ffInit
    rw [if_pos hname]

/-- Witness for the amended C2 at a concrete subfilter-free filter with
arguments and kwargs. -/
theorem c2_amended_witness :
    (ffSave (FFSlot.ff "key_starts_with" [PyVal.str "x"] []
        [("invert", PyVal.bool true)])).bind ffLoad =
      Except.ok (FFSlot.ff "key_starts_with" [PyVal.str "x"] []
        [("invert", PyVal.bool true)]) ∧
    (ffToFile (FFSlot.ff "key_starts_with" [PyVal.str "x"] []
        [("invert", PyVal.bool true)])).bind ffLoad =
      Except.ok (FFSlot.ff "key_starts_with" [PyVal.str "x"] []
        [("invert", PyVal.bool true)]) :=
  c2_amended "key_starts_with" [PyVal.str "x"] [("invert", PyVal.bool true)]
    (by decide)

mutual

/-- Reflexivity of `PermEq`. -/
theorem permEq_refl : ∀ v : PyVal, PermEq v v
  | .str s => .str s
  | .int i => .int i
  | .float q => .float q
  | .bool b => .bool b
  | .none => .none
  | .list l => .list (permEqList_refl l)
  | .dict e => .dict e rfl (permEqEntries_refl e) (List.Perm.refl e)

/-- Reflexivity of the element-wise `PermEq` on lists. -/
theorem permEqList_refl : ∀ l : List PyVal, List.Forall₂ PermEq l l
  | [] => .nil
  | v :: vs => .cons (permEq_refl v) (permEqList_refl vs)

/-- Reflexivity of the value-wise `PermEq` on dict entries. -/
theorem permEqEntries_refl : ∀ e : List (String × PyVal),
    List.Forall₂ PermEq (e.map Prod.snd) (e.map Prod.snd)
  | [] => .nil
  | (_, v) :: rest => .cons (permEq_refl v) (permEqEntries_refl rest)

end

/-- Soundness of the Boolean duplicate-freedom check. -/
theorem keysNodup_nodup : ∀ ks : List String, keysNodup ks = true → ks.Nodup := by
  intro ks
  induction ks with
  | nil => intro _; exact List.nodup_nil
  | cons k rest ih =>
    intro h
    unfold keysNodup at h
    rw [Bool.and_eq_true] at h
    refine List.nodup_cons.mpr ⟨?_, ih h.2⟩
    intro hmem
    have : rest.any (fun x => x == k) = true :=
      List.any_eq_true.mpr ⟨k, hmem, by simp⟩
    rw [this] at h
    exact Bool.noConfusion h.1

/-- Sorted insertion permutes. -/
theorem insertRendered_perm (kv : String × String) :
    ∀ l : List (String × String), (insertRendered kv l).Perm (kv :: l) := by
  intro l
  induction l with
  | nil => exact List.Perm.refl _
  | cons h t ih =>
    unfold insertRendered
    by_cases hc : kv.1 ≤ h.1
    · rw [if_pos hc]
    · rw [if_neg hc]
      exact (List.Perm.cons h ih).trans (List.Perm.swap kv h t)

/-- The key sort is a permutation. -/
theorem sortRendered_perm :
    ∀ l : List (String × String), (sortRendered l).Perm l := by
  intro l
  induction l with
  | nil => exact List.Perm.refl _
  | cons h t ih =>
    have h1 : sortRendered (h :: t) = insertRendered h (sortRendered t) := rfl
    rw [h1]
    exact (insertRendered_perm h (sortRendered t)).trans (List.Perm.cons h ih)

/-- Sorted insertion preserves key-sortedness. -/
theorem insertRendered_sorted (kv : String × String) :
    ∀ l : List (String × String),
      List.Pairwise (fun a b : String × String => a.1 ≤ b.1) l →
      List.Pairwise (fun a b : String × String => a.1 ≤ b.1)
        (insertRendered kv l) := by
  intro l
  induction l with
  | nil => intro _; exact List.pairwise_singleton _ _
  | cons h t ih =>
    intro hp
    rcases List.pairwise_cons.mp hp with ⟨hh, ht⟩
    unfold insertRendered
    by_cases hc : kv.1 ≤ h.1
    · rw [if_pos hc]
      refine List.pairwise_cons.mpr ⟨?_, hp⟩
      intro x hx
      rcases List.mem_cons.mp hx with hx | hx
      · rw [hx]
        exact hc
      · exact le_trans hc (hh x hx)
    · rw [if_neg hc]
      refine List.pairwise_cons.mpr ⟨?_, ih ht⟩
      intro x hx
      have hx2 : x ∈ kv :: t := (insertRendered_perm kv t).mem_iff.mp hx
      rcases List.mem_cons.mp hx2 with hx2 | hx2
      · rw [hx2]
        exact le_of_not_le hc
      · exact hh x hx2

/-- The key sort sorts. -/
theorem sortRendered_sorted :
    ∀ l : List (String × String),
      List.Pairwise (fun a b : String × String => a.1 ≤ b.1)
        (sortRendered l) := by
  intro l
  induction l with
  | nil => exact List.Pairwise.nil
  | cons h t ih => exact insertRendered_sorted h (sortRendered t) ih

/-- Two key-sorted permutations of a duplicate-free-keys rendering are
equal: the canonical order is unique. -/
theorem sorted_perm_nodupKeys_eq :
    ∀ (l₁ l₂ : List (String × String)),
      l₁.Perm l₂ →
      List.Pairwise (fun a b : String × String => a.1 ≤ b.1) l₁ →
      List.Pairwise (fun a b : String × String => a.1 ≤ b.1) l₂ →
      (l₁.map Prod.fst).Nodup → l₁ = l₂ := by
  intro l₁
  induction l₁ with
  | nil =>
    intro l₂ hperm _ _ _
    exact List.Perm.nil_eq hperm
  | cons a t₁ ih =>
    intro l₂ hperm hp₁ hp₂ hnd
    cases l₂ with
    | nil => exact absurd hperm.eq_nil (List.cons_ne_nil a t₁)
    | cons b t₂ =>
      rcases List.pairwise_cons.mp hp₁ with ⟨hha, hta⟩
      rcases List.pairwise_cons.mp hp₂ with ⟨hhb, htb⟩
      have hab : a = b := by
        rcases List.mem_cons.mp (hperm.mem_iff.mp (List.mem_cons_self a t₁))
            with h1 | h1
        · exact h1
        · rcases List.mem_cons.mp (hperm.symm.mem_iff.mp
              (List.mem_cons_self b t₂)) with h2 | h2
          · exact h2.symm
          · exfalso
            have hk : a.1 = b.1 := le_antisymm (hha b h2) (hhb a h1)
            rcases List.nodup_cons.mp hnd with ⟨hnda, _⟩
            exact hnda (by
              rw [hk]
              exact List.mem_map_of_mem Prod.fst h2)
      subst hab
      have hteq : t₁ = t₂ :=
        ih t₂ hperm.cons_inv hta htb (List.nodup_cons.mp hnd).2
      rw [hteq]

/-- The keyed rendering is a `map` over the entries. -/
theorem specDumpsEntries_eq_map :
    ∀ e : List (String × PyVal), specDumpsEntries e =
      e.map (fun kv => (kv.1, "\"" ++ jsonEscape kv.1 ++ "\": " ++ specDumps kv.2)) := by
  intro e
  induction e with
  | nil => rfl
  | cons kv rest ih =>
    obtain ⟨k, v⟩ := kv
    show (k, "\"" ++ jsonEscape k ++ "\": " ++ specDumps v) :: specDumpsEntries rest = _
    rw [ih]
    rfl

/-- Canonicalization theorem for the spec's serializer: on well-formed
values, `specDumps` (the `sort_keys` encoding §4.1 prescribes) is
invariant under reordering of dict entries at every depth. -/
theorem specDumps_permEq :
    ∀ v w : PyVal, PermEq v w → wfKeys v = true → specDumps v = specDumps w := by
  suffices H : ∀ n : Nat, ∀ v w, sizeOf v ≤ n → PermEq v w → wfKeys v = true →
      specDumps v = specDumps w by
    intro v w hp hw
    exact H (sizeOf v) v w (Nat.le_refl _) hp hw
  intro n
  induction n with
  | zero =>
    intro v w hs _ _
    exfalso
    cases v <;> simp at hs
  | succ n ih =>
    intro v w hs hp hw
    cases hp with
    | str s => rfl
    | int i => rfl
    | float q => rfl
    | bool b => rfl
    | none => rfl
    | list hfa =>
      rename_i l₁ l₂
      have haux : ∀ (a b : List PyVal), List.Forall₂ PermEq a b →
          sizeOf a ≤ n → wfKeysList a = true →
          specDumpsList a = specDumpsList b := by
        intro a b hfa2
        induction hfa2 with
        | nil => intro _ _; rfl
        | cons hh ht iht =>
          rename_i x y xs ys
          intro hsz hwl
          have hwl2 : wfKeys x = true ∧ wfKeysList xs = true := by
            unfold wfKeysList at hwl
            rw [Bool.and_eq_true] at hwl
            exact hwl
          have h1 : specDumps x = specDumps y :=
            ih x y (by simp at hsz ⊢; omega) hh hwl2.1
          have h2 : specDumpsList xs = specDumpsList ys :=
            iht (by simp at hsz; omega) hwl2.2
          show specDumps x :: specDumpsList xs = specDumps y :: specDumpsList ys
          rw [h1, h2]
      have hl : specDumpsList l₁ = specDumpsList l₂ :=
        haux l₁ l₂ hfa (by simp at hs; omega) hw
      show "[" ++ joinComma (specDumpsList l₁) ++ "]" =
        "[" ++ joinComma (specDumpsList l₂) ++ "]"
      rw [hl]
    | dict c hkeys hvals hperm =>
      rename_i e₁ e₂
      have hw2 : keysNodup (e₁.map Prod.fst) = true ∧ wfKeysEntries e₁ = true := by
        unfold wfKeys at hw
        rw [Bool.and_eq_true] at hw
        exact hw
      have haux2 : ∀ (e c2 : List (String × PyVal)),
          e.map Prod.fst = c2.map Prod.fst →
          List.Forall₂ PermEq (e.map Prod.snd) (c2.map Prod.snd) →
          sizeOf e ≤ n → wfKeysEntries e = true →
          specDumpsEntries e = specDumpsEntries c2 := by
        intro e
        induction e with
        | nil =>
          intro c2 hk _ _ _
          cases c2 with
          | nil => rfl
          | cons kv' r' => exact absurd hk (by simp)
        | cons kv rest ihe =>
          intro c2 hk hv hsz hwf
          cases c2 with
          | nil => exact absurd hk (by simp)
          | cons kv' rest' =>
            obtain ⟨k, v⟩ := kv
            obtain ⟨k', v'⟩ := kv'
            simp only [List.map_cons, List.cons.injEq] at hk
            cases hv with
            | cons hvh hvt =>
              have hwf2 : wfKeys v = true ∧ wfKeysEntries rest = true := by
                unfold wfKeysEntries at hwf
                rw [Bool.and_eq_true] at hwf
                exact hwf
              have h1 : specDumps v = specDumps v' :=
                ih v v' (by simp at hsz ⊢; omega) hvh hwf2.1
              have h2 : specDumpsEntries rest = specDumpsEntries rest' :=
                ihe rest' hk.2 hvt (by simp at hsz; omega) hwf2.2
              show (k, "\"" ++ jsonEscape k ++ "\": " ++ specDumps v) ::
                  specDumpsEntries rest = (k', "\"" ++ jsonEscape k' ++
                  "\": " ++ specDumps v') :: specDumpsEntries rest'
              rw [hk.1, h1, h2]
      have hA : specDumpsEntries e₁ = specDumpsEntries c :=
        haux2 e₁ c hkeys hvals (by simp at hs; omega) hw2.2
      have hB : (specDumpsEntries c).Perm (specDumpsEntries e₂) := by
        rw [specDumpsEntries_eq_map, specDumpsEntries_eq_map]
        exact hperm.map _
      have hndE : ((specDumpsEntries e₁).map Prod.fst).Nodup := by
        rw [specDumpsEntries_eq_map, List.map_map]
        have hcongr : e₁.map (Prod.fst ∘ (fun kv : String × PyVal =>
            (kv.1, "\"" ++ jsonEscape kv.1 ++ "\": " ++ specDumps kv.2))) =
            e₁.map Prod.fst :=
          List.map_congr_left (fun kv _ => rfl)
        rw [hcongr]
        exact keysNodup_nodup _ hw2.1
      have hC : sortRendered (specDumpsEntries e₁) =
          sortRendered (specDumpsEntries e₂) := by
        rw [hA]
        refine sorted_perm_nodupKeys_eq _ _ ?_ (sortRendered_sorted _)
          (sortRendered_sorted _) ?_
        · exact (sortRendered_perm _).trans
            (hB.trans (sortRendered_perm _).symm)
        · have hndc : ((specDumpsEntries c).map Prod.fst).Nodup := by
            rw [← hA]
            exact hndE
          have hp2 : ((sortRendered (specDumpsEntries c)).map Prod.fst).Perm
              ((specDumpsEntries c).map Prod.fst) :=
            (sortRendered_perm _).map _
          exact hp2.nodup_iff.mpr hndc
      show "\x7b" ++ joinComma ((sortRendered (specDumpsEntries e₁)).map
          (fun kv => kv.2)) ++ "\x7d" = "\x7b" ++ joinComma
          ((sortRendered (specDumpsEntries e₂)).map (fun kv => kv.2)) ++ "\x7d"
      rw [hC]

/-- C1 counterexample.  Two constructor-valid filters whose dict
representations are equal as unordered mappings (`PermEq`) get
*different* IDs from the code's `get_id` — `json.dumps` is called without
`sort_keys`, so kwargs insertion order leaks into the hash — while the
spec's canonical sorted-key serializer gives them identical IDs. -/
theorem c1_counterexample :
    ffGetDictRepresentation true c1fA = Except.ok c1repA ∧
    ffGetDictRepresentation true c1fB = Except.ok c1repB ∧
    PermEq c1repA c1repB ∧
    getId c1repA ≠ getId c1repB ∧
    specGetId c1repA = specGetId c1repB := by
  have hperm : PermEq c1repA c1repB := by
    refine PermEq.dict
      [("is_filter", PyVal.bool true),
       ("filter_name", PyVal.str "do_nothing"),
       ("subfilters", PyVal.list []),
       ("args", PyVal.list []),
       ("kwargs", PyVal.dict [("b", PyVal.int 2), ("a", PyVal.int 1)])]
      rfl ?_ (List.Perm.refl _)
    refine List.Forall₂.cons (permEq_refl _) (List.Forall₂.cons (permEq_refl _)
      (List.Forall₂.cons (permEq_refl _) (List.Forall₂.cons (permEq_refl _)
        (List.Forall₂.cons ?_ List.Forall₂.nil))))
    exact PermEq.dict [("a", PyVal.int 1), ("b", PyVal.int 2)] rfl
      (permEqEntries_refl _) (List.Perm.swap _ _ _)
  refine ⟨rfl, rfl, hperm, ?_, ?_⟩
  · have h1 : getId c1repA =
        "648bb06a838e98446f30f41b748931a7205d20bfe3898356f24761cff85e8d08" := by
      rfl
    have h2 : getId c1repB =
        "71f201d687f9664f213ff8b70c7b6d6ba7e63863ee73e439633083dd7f9f55f3" := by
      rfl
    rw [h1, h2]
    intro h
    exact absurd h (by decide)
  · unfold specGetId
    rw [specDumps_permEq c1repA c1repB hperm (by decide)]

/-- C1 amended.  Under the spec's own canonicalization (`sort_keys`
semantics, `specGetId`), the ID of a well-formed dict representation is
independent of construction order — any two representations equal as
unordered mappings hash identically.  The code's `getId` does not have
this property (see `c1_counterexample`). -/
theorem c1_amended (v w : PyVal) (hp : PermEq v w) (hw : wfKeys v = true) :
    specGetId v = specGetId w := by
  unfold specGetId
  rw [specDumps_permEq v w hp hw]

/-- Witness for the amended C1 at a two-key dict and its swap. -/
theorem c1_amended_witness :
    PermEq (PyVal.dict [("a", PyVal.int 1), ("b", PyVal.bool true)])
      (PyVal.dict [("b", PyVal.bool true), ("a", PyVal.int 1)]) ∧
    wfKeys (PyVal.dict [("a", PyVal.int 1), ("b", PyVal.bool true)]) = true ∧
    specGetId (PyVal.dict [("a", PyVal.int 1), ("b", PyVal.bool true)]) =
      specGetId (PyVal.dict [("b", PyVal.bool true), ("a", PyVal.int 1)]) := by
  refine ⟨?_, by decide, ?_⟩
  · exact PermEq.dict [("a", PyVal.int 1), ("b", PyVal.bool true)] rfl
      (permEqEntries_refl _) (List.Perm.swap _ _ _)
  · exact c1_amended _ _
      (PermEq.dict [("a", PyVal.int 1), ("b", PyVal.bool true)] rfl
        (permEqEntries_refl _) (List.Perm.swap _ _ _)) (by decide)

/-! ## C9: sampler balance -/

/-- A successful `_randbelow` draw is below its bound. -/
theorem mtRandbelow_lt :
    ∀ (fuel n : Nat) (st : MTState) (j : Nat) (st' : MTState),
      mtRandbelow fuel n st = Option.some (j, st') → j < n := by
  intro fuel
  induction fuel with
  | zero =>
    intro n st j st' h
    exact Option.noConfusion h
  | succ f ih =>
    intro n st j st' h
    unfold mtRandbelow at h
    by_cases hn : n = 0
    · rw [if_pos hn] at h
      exact Option.noConfusion h
    · rw [if_neg hn] at h
      replace h : (match mtGetrandbits (bitLength n) st with
        | (r, st') => if r < n then Option.some (r, st')
          else mtRandbelow f n st') = Option.some (j, st') := h
      rcases hg : mtGetrandbits (bitLength n) st with ⟨r, st2⟩
      rw [hg] at h
      simp only [] at h
      by_cases hr : r < n
      · rw [if_pos hr] at h
        injection h with h1
        have h2 : r = j := congrArg Prod.fst h1
        rw [← h2]
        exact hr
      · rw [if_neg hr] at h
        exact ih n st2 j st' h

/-- A nonempty list is a permutation of its last element consed onto its
front part. -/
theorem last_cons_dropLast_perm :
    ∀ (m : List String), m ≠ [] →
      m.Perm (m.getD (m.length - 1) "" :: m.dropLast) := by
  intro m hm
  have hlt : m.length - 1 < m.length := by
    cases m with
    | nil => exact absurd rfl hm
    | cons a t => simp
  have hx : m.getD (m.length - 1) "" = m.getLast hm := by
    rw [List.getD_eq_get m "" hlt, List.getLast_eq_get m hm]
  have heq : m = m.dropLast ++ [m.getLast hm] :=
    (List.dropLast_append_getLast hm).symm
  have h2 : (m.dropLast ++ [m.getLast hm]).Perm
      (m.getLast hm :: m.dropLast) := List.perm_append_singleton _ _
  rw [← heq] at h2
  rw [hx]
  exact h2

/-- One partial-Fisher-Yates step: the pool is a permutation of the
picked element consed onto the shrunken pool. -/
theorem pool_extract_perm :
    ∀ (l : List String) (j : Nat), j < l.length →
      l.Perm (l.getD j "" :: ((l.set j (l.getD (l.length - 1) "")).dropLast))
  | [], j, h => absurd h (Nat.not_lt_zero j)
  | [a], 0, _ => List.Perm.refl [a]
  | a :: b :: t', 0, _ => by
    refine List.Perm.cons a ?_
    exact last_cons_dropLast_perm (b :: t') (List.cons_ne_nil b t')
  | a :: b :: t', j + 1, h => by
    have hj : j < (b :: t').length := by simpa using h
    have ih := pool_extract_perm (b :: t') j hj
    have hne : (b :: t').set j ((b :: t').getD t'.length "") ≠ [] := by
      apply List.ne_nil_of_length_pos
      rw [List.length_set]
      simp
    have hdl : ∀ (x : String) (m : List String), m ≠ [] →
        (x :: m).dropLast = x :: m.dropLast := by
      intro x m hm
      cases m with
      | nil => exact absurd rfl hm
      | cons y ys => rfl
    show (a :: b :: t').Perm ((b :: t').getD j "" ::
      ((a :: ((b :: t').set j ((b :: t').getD t'.length ""))).dropLast))
    rw [hdl a _ hne]
    exact (List.Perm.cons a ih).trans (List.Perm.swap _ a _)

/-- Correctness of the pool branch of `Random.sample`: `k` results, all
from the population, distinct when the population is. -/
theorem samplePoolLoop_spec :
    ∀ (k : Nat) (pool : List String) (st : MTState) (res : List String)
      (st' : MTState),
      samplePoolLoop k pool st = Option.some (res, st') →
      res.length = k ∧ (∀ x ∈ res, x ∈ pool) ∧ (pool.Nodup → res.Nodup) := by
  intro k
  induction k with
  | zero =>
    intro pool st res st' h
    unfold samplePoolLoop at h
    injection h with h1
    have h2 : res = [] := (congrArg Prod.fst h1).symm
    subst h2
    exact ⟨rfl, by simp, fun _ => List.nodup_nil⟩
  | succ k' ih =>
    intro pool st res st' h
    unfold samplePoolLoop at h
    cases hrb : mtRandbelow rbFuel pool.length st with
    | none =>
      rw [hrb] at h
      exact Option.noConfusion h
    | some p =>
      obtain ⟨j, st1⟩ := p
      rw [hrb] at h
      simp only [] at h
      have hj : j < pool.length := mtRandbelow_lt rbFuel pool.length st j st1 hrb
      cases hrec : samplePoolLoop k'
          ((pool.set j (pool.getD (pool.length - 1) "")).dropLast) st1 with
      | none =>
        rw [hrec] at h
        exact Option.noConfusion h
      | some q =>
        obtain ⟨rest, st2⟩ := q
        rw [hrec] at h
        injection h with h1
        have hres : res = pool.getD j "" :: rest := (congrArg Prod.fst h1).symm
        subst hres
        obtain ⟨hlen, hmem, hnd⟩ := ih _ st1 rest st2 hrec
        have hperm := pool_extract_perm pool j hj
        refine ⟨by simp [hlen], ?_, ?_⟩
        · intro x hx
          rcases List.mem_cons.mp hx with hx | hx
          · rw [hx]
            exact hperm.mem_iff.mpr (List.mem_cons_self _ _)
          · exact hperm.mem_iff.mpr (List.mem_cons_of_mem _ (hmem x hx))
        · intro hpd
          have h2 : (pool.getD j "" ::
              ((pool.set j (pool.getD (pool.length - 1) "")).dropLast)).Nodup :=
            hperm.nodup_iff.mp hpd
          rcases List.nodup_cons.mp h2 with ⟨hx, hpd'⟩
          refine List.nodup_cons.mpr ⟨?_, hnd hpd'⟩
          intro hmem2
          exact hx (hmem (pool.getD j "") hmem2)

/-- A successful rejection draw is in range and previously unselected. -/
theorem mtRandbelowNotIn_spec :
    ∀ (fuel n : Nat) (sel : List Nat) (st : MTState) (j : Nat) (st' : MTState),
      mtRandbelowNotIn fuel n sel st = Option.some (j, st') →
      j < n ∧ j ∉ sel := by
  intro fuel
  induction fuel with
  | zero =>
    intro n sel st j st' h
    exact Option.noConfusion h
  | succ f ih =>
    intro n sel st j st' h
    unfold mtRandbelowNotIn at h
    cases hrb : mtRandbelow rbFuel n st with
    | none =>
      rw [hrb] at h
      exact Option.noConfusion h
    | some p =>
      obtain ⟨r, st1⟩ := p
      rw [hrb] at h
      simp only [] at h
      by_cases hmem : r ∈ sel
      · rw [if_pos hmem] at h
        exact ih n sel st1 j st' h
      · rw [if_neg hmem] at h
        injection h with h1
        have h2 : r = j := congrArg Prod.fst h1
        subst h2
        exact ⟨mtRandbelow_lt rbFuel n st r st1 hrb, hmem⟩

/-- The set branch of `Random.sample` returns the values at `k` distinct
in-range indices. -/
theorem sampleSetLoop_js :
    ∀ (k : Nat) (pop : List String) (sel : List Nat) (st : MTState)
      (res : List String) (st' : MTState),
      sampleSetLoop k pop sel st = Option.some (res, st') →
      ∃ js : List Nat, res = js.map (fun j => pop.getD j "") ∧
        js.length = k ∧ js.Nodup ∧ ∀ j ∈ js, j < pop.length ∧ j ∉ sel := by
  intro k
  induction k with
  | zero =>
    intro pop sel st res st' h
    unfold sampleSetLoop at h
    injection h with h1
    have h2 : res = [] := (congrArg Prod.fst h1).symm
    subst h2
    exact ⟨[], rfl, rfl, List.nodup_nil, by simp⟩
  | succ k' ih =>
    intro pop sel st res st' h
    unfold sampleSetLoop at h
    cases hrb : mtRandbelowNotIn rbFuel pop.length sel st with
    | none =>
      rw [hrb] at h
      exact Option.noConfusion h
    | some p =>
      obtain ⟨j, st1⟩ := p
      rw [hrb] at h
      simp only [] at h
      obtain ⟨hjlt, hjsel⟩ :=
        mtRandbelowNotIn_spec rbFuel pop.length sel st j st1 hrb
      cases hrec : sampleSetLoop k' pop (j :: sel) st1 with
      | none =>
        rw [hrec] at h
        exact Option.noConfusion h
      | some q =>
        obtain ⟨rest, st2⟩ := q
        rw [hrec] at h
        injection h with h1
        have hres : res = pop.getD j "" :: rest := (congrArg Prod.fst h1).symm
        subst hres
        obtain ⟨js, hmapr, hlenr, hndr, hbr⟩ := ih pop (j :: sel) st1 rest st2 hrec
        refine ⟨j :: js, ?_, ?_, ?_, ?_⟩
        · rw [List.map_cons, hmapr]
        · simp [hlenr]
        · refine List.nodup_cons.mpr ⟨?_, hndr⟩
          intro hj2
          exact (hbr j hj2).2 (List.mem_cons_self j sel)
        · intro i hi
          rcases List.mem_cons.mp hi with hi | hi
          · subst hi
            exact ⟨hjlt, hjsel⟩
          · exact ⟨(hbr i hi).1, fun hc => (hbr i hi).2 (List.mem_cons_of_mem _ hc)⟩

/-- Reading a duplicate-free population at distinct indices gives
distinct values. -/
theorem map_getD_nodup (pop : List String) (hpop : pop.Nodup) (js : List Nat)
    (hjs : js.Nodup) (hb : ∀ j ∈ js, j < pop.length) :
    (js.map (fun j => pop.getD j "")).Nodup := by
  refine List.Nodup.map_on ?_ hjs
  intro x hx y hy hxy
  have hx' := hb x hx
  have hy' := hb y hy
  rw [List.getD_eq_get pop "" hx', List.getD_eq_get pop "" hy'] at hxy
  have := (List.Nodup.get_inj_iff hpop).mp hxy
  exact Fin.mk.injEq _ _ _ _ ▸ (by injection this)

/-- An in-range `getD` read is a member. -/
theorem getD_mem (pop : List String) (j : Nat) (h : j < pop.length) :
    pop.getD j "" ∈ pop := by
  rw [List.getD_eq_get pop "" h]
  exact List.get_mem pop j h

/-- Correctness of `random.sample`: `k` results drawn without
replacement from the population. -/
theorem pySample_spec (pop : List String) (k : Int) (st : MTState)
    (res : List String) (st' : MTState)
    (h : pySample pop k st = Except.ok (res, st')) :
    res.length = k.toNat ∧ 0 ≤ k ∧ (∀ x ∈ res, x ∈ pop) ∧
      (pop.Nodup → res.Nodup) := by
  unfold pySample at h
  by_cases hk : k < 0 ∨ k > (pop.length : Int)
  · rw [if_pos hk] at h
    exact Except.noConfusion h
  · rw [if_neg hk] at h
    have hk0 : 0 ≤ k := le_of_not_lt (fun hc => hk (Or.inl hc))
    replace h : (match (if pop.length ≤ sampleSetsize k.toNat then
        samplePoolLoop k.toNat pop st else sampleSetLoop k.toNat pop [] st) with
      | Option.none => Except.error SampErr.fuel
      | Option.some r => Except.ok r) = Except.ok (res, st') := h
    by_cases hbr : pop.length ≤ sampleSetsize k.toNat
    · rw [if_pos hbr] at h
      cases hsp : samplePoolLoop k.toNat pop st with
      | none =>
        rw [hsp] at h
        exact Except.noConfusion h
      | some q =>
        obtain ⟨res0, st0⟩ := q
        rw [hsp] at h
        injection h with h1
        have h2 : res0 = res := congrArg Prod.fst h1
        subst h2
        obtain ⟨hl, hm, hn⟩ := samplePoolLoop_spec k.toNat pop st res0 st0 hsp
        exact ⟨hl, hk0, hm, hn⟩
    · rw [if_neg hbr] at h
      cases hsp : sampleSetLoop k.toNat pop [] st with
      | none =>
        rw [hsp] at h
        exact Except.noConfusion h
      | some q =>
        obtain ⟨res0, st0⟩ := q
        rw [hsp] at h
        injection h with h1
        have h2 : res0 = res := congrArg Prod.fst h1
        subst h2
        obtain ⟨js, hmap, hlen, hnd, hb⟩ :=
          sampleSetLoop_js k.toNat pop [] st res0 st0 hsp
        subst hmap
        refine ⟨by simp [hlen], hk0, ?_, ?_⟩
        · intro x hx
          rcases List.mem_map.mp hx with ⟨j, hj, hjx⟩
          rw [← hjx]
          exact getD_mem pop j (hb j hj).1
        · intro hpd
          exact map_getD_nodup pop hpd js hnd (fun j hj => (hb j hj).1)

/-- The per-category sampling loop concatenates, category by category in
order, one sample of `to_choose` members of that category. -/
theorem sampleCatsLoop_parts :
    ∀ (cats : List (Int × List String)) (toChoose : Int) (st : MTState)
      (chosen : List String) (st' : MTState),
      sampleCatsLoop toChoose cats st = Except.ok (chosen, st') →
      ∃ parts : List (List String),
        chosen = parts.flatten ∧
        (cats ≠ [] → 0 ≤ toChoose) ∧
        List.Forall₂ (fun cat part =>
          part.length = toChoose.toNat ∧ (∀ x ∈ part, x ∈ cat.2) ∧
          (cat.2.Nodup → part.Nodup)) cats parts := by
  intro cats
  induction cats with
  | nil =>
    intro toChoose st chosen st' h
    unfold sampleCatsLoop at h
    injection h with h1
    have h2 : chosen = [] := (congrArg Prod.fst h1).symm
    subst h2
    exact ⟨[], rfl, fun hc => absurd rfl hc, List.Forall₂.nil⟩
  | cons c cs ih =>
    intro toChoose st chosen st' h
    unfold sampleCatsLoop at h
    cases hps : pySample c.2 toChoose st with
    | error e =>
      rw [hps, exceptBindErr] at h
      exact Except.noConfusion h
    | ok p =>
      obtain ⟨s, st1⟩ := p
      rw [hps, exceptBindOk] at h
      simp only [] at h
      cases hrec : sampleCatsLoop toChoose cs st1 with
      | error e =>
        rw [hrec, exceptBindErr] at h
        exact Except.noConfusion h
      | ok q =>
        obtain ⟨srest, st2⟩ := q
        rw [hrec, exceptBindOk] at h
        injection h with h1
        have h2 : chosen = s ++ srest := (congrArg Prod.fst h1).symm
        subst h2
        obtain ⟨parts, hfl, _, hfa⟩ := ih toChoose st1 srest st2 hrec
        obtain ⟨hl, hk0, hm, hn⟩ := pySample_spec c.2 toChoose st s st1 hps
        refine ⟨s :: parts, by rw [List.flatten_cons, hfl], fun _ => hk0,
          List.Forall₂.cons ⟨hl, hm, hn⟩ hfa⟩

/-- The category builder is the fold of `catStep`. -/
theorem buildCategories_eq_foldl (metric : String)
    (tcs : List (String × TestCase)) :
    buildCategories metric tcs = tcs.foldl (catStep metric) [] := rfl

/-- In a list with duplicate-free first components, an entry is
determined by its first component. -/
theorem mem_fst_unique {κ α : Type} (d : List (κ × α))
    (hnd : (d.map Prod.fst).Nodup) (x y : κ × α)
    (hx : x ∈ d) (hy : y ∈ d) (hk : x.1 = y.1) : x = y := by
  induction d with
  | nil => cases hx
  | cons hd t ih =>
    rw [List.map_cons, List.nodup_cons] at hnd
    rcases List.mem_cons.mp hx with hx1 | hx1 <;>
      rcases List.mem_cons.mp hy with hy1 | hy1
    · rw [hx1, hy1]
    · exfalso
      subst hx1
      exact hnd.1 (by rw [hk]; exact List.mem_map_of_mem Prod.fst hy1)
    · exfalso
      subst hy1
      exact hnd.1 (by rw [← hk]; exact List.mem_map_of_mem Prod.fst hx1)
    · exact ih hnd.2 hx1 hy1

/-- Invariants of the category-building fold: category labels are
distinct, member lists are duplicate-free, and every member comes from a
processed case carrying that label. -/
theorem catStep_foldl_inv (metric : String) :
    ∀ (tcs : List (String × TestCase)) (cats : List (Int × List String))
      (pres : List (String × TestCase)),
      ((pres ++ tcs).map Prod.fst).Nodup →
      (cats.map Prod.fst).Nodup →
      (∀ cat ∈ cats, cat.2.Nodup) →
      (∀ cat ∈ cats, ∀ k ∈ cat.2, ∃ tc, (k, tc) ∈ pres ∧
        tcLabel metric tc = Option.some cat.1) →
      ((tcs.foldl (catStep metric) cats).map Prod.fst).Nodup ∧
      (∀ cat ∈ tcs.foldl (catStep metric) cats, cat.2.Nodup) ∧
      (∀ cat ∈ tcs.foldl (catStep metric) cats, ∀ k ∈ cat.2,
        ∃ tc, (k, tc) ∈ pres ++ tcs ∧ tcLabel metric tc = Option.some cat.1) := by
  intro tcs
  induction tcs with
  | nil =>
    intro cats pres _ h1 h2 h3
    refine ⟨h1, h2, ?_⟩
    intro cat hcat k hk
    obtain ⟨tc, hm, hl⟩ := h3 cat hcat k hk
    exact ⟨tc, by rw [List.append_nil]; exact hm, hl⟩
  | cons kv rest ih =>
    intro cats pres hnd h1 h2 h3
    have hshift : pres ++ kv :: rest = (pres ++ [kv]) ++ rest := by
      rw [List.append_assoc]
      rfl
    rw [hshift] at hnd
    have hkvnotpres : kv.1 ∉ pres.map Prod.fst := by
      rw [List.append_assoc] at hnd
      rw [List.map_append] at hnd
      rcases (List.nodup_append.mp hnd) with ⟨_, _, hdisj⟩
      intro hc
      exact hdisj hc (by simp)
    have hfold : (kv :: rest).foldl (catStep metric) cats =
        rest.foldl (catStep metric) (catStep metric cats kv) := rfl
    rw [hfold]
    -- establish the three invariants for (catStep metric cats kv, pres ++ [kv])
    have hstep :
        ((catStep metric cats kv).map Prod.fst).Nodup ∧
        (∀ cat ∈ catStep metric cats kv, cat.2.Nodup) ∧
        (∀ cat ∈ catStep metric cats kv, ∀ k ∈ cat.2,
          ∃ tc, (k, tc) ∈ pres ++ [kv] ∧ tcLabel metric tc = Option.some cat.1) := by
      cases hlab : tcLabel metric kv.2 with
      | none =>
        have hred : catStep metric cats kv = cats := by
          unfold catStep
          rw [hlab]
        rw [hred]
        refine ⟨h1, h2, ?_⟩
        intro cat hcat k hk
        obtain ⟨tc, hm, hl⟩ := h3 cat hcat k hk
        exact ⟨tc, List.mem_append_left _ hm, hl⟩
      | some c =>
        have hred : catStep metric cats kv = catAdd cats c kv.1 := by
          unfold catStep
          rw [hlab]
        rw [hred]
        unfold catAdd
        by_cases hany : cats.any (fun p => p.1 == c) = true
        · rw [if_pos hany]
          have hmapfst : (cats.map (fun p =>
              if p.1 == c then (p.1, p.2 ++ [kv.1]) else p)).map Prod.fst =
              cats.map Prod.fst := by
            rw [List.map_map]
            refine List.map_congr_left ?_
            intro p _
            by_cases hp : (p.1 == c) = true
            · simp only [Function.comp_apply, if_pos hp]
            · simp only [Function.comp_apply, if_neg hp]
          refine ⟨by rw [hmapfst]; exact h1, ?_, ?_⟩
          · intro cat hcat
            rcases List.mem_map.mp hcat with ⟨p, hp, hpe⟩
            by_cases hpc : (p.1 == c) = true
            · rw [if_pos hpc] at hpe
              rw [← hpe]
              show (p.2 ++ [kv.1]).Nodup
              refine (List.perm_append_singleton _ _).nodup_iff.mpr ?_
              refine List.nodup_cons.mpr ⟨?_, h2 p hp⟩
              intro hc
              obtain ⟨tc, hm, _⟩ := h3 p hp kv.1 hc
              exact hkvnotpres (List.mem_map.mpr ⟨(kv.1, tc), hm, rfl⟩)
            · rw [if_neg hpc] at hpe
              rw [← hpe]
              exact h2 p hp
          · intro cat hcat k hk
            rcases List.mem_map.mp hcat with ⟨p, hp, hpe⟩
            by_cases hpc : (p.1 == c) = true
            · rw [if_pos hpc] at hpe
              rw [← hpe] at hk ⊢
              rcases List.mem_append.mp hk with hk1 | hk1
              · obtain ⟨tc, hm, hl⟩ := h3 p hp k hk1
                exact ⟨tc, List.mem_append_left _ hm, hl⟩
              · have hkk : k = kv.1 := by simpa using hk1
                subst hkk
                refine ⟨kv.2, List.mem_append_right _ (by simp), ?_⟩
                rw [hlab]
                have : p.1 = c := by simpa using hpc
                rw [this]
            · rw [if_neg hpc] at hpe
              rw [← hpe] at hk ⊢
              obtain ⟨tc, hm, hl⟩ := h3 p hp k hk
              exact ⟨tc, List.mem_append_left _ hm, hl⟩
        · rw [if_neg hany]
          have hcnot : c ∉ cats.map Prod.fst := by
            intro hc
            rcases List.mem_map.mp hc with ⟨p, hp, hpe⟩
            exact hany (List.any_eq_true.mpr ⟨p, hp, by simp [hpe]⟩)
          refine ⟨?_, ?_, ?_⟩
          · rw [List.map_append]
            refine (List.perm_append_singleton _ _).nodup_iff.mpr ?_
            exact List.nodup_cons.mpr ⟨hcnot, h1⟩
          · intro cat hcat
            rcases List.mem_append.mp hcat with hc1 | hc1
            · exact h2 cat hc1
            · have : cat = (c, [kv.1]) := by simpa using hc1
              rw [this]
              exact List.nodup_singleton _
          · intro cat hcat k hk
            rcases List.mem_append.mp hcat with hc1 | hc1
            · obtain ⟨tc, hm, hl⟩ := h3 cat hc1 k hk
              exact ⟨tc, List.mem_append_left _ hm, hl⟩
            · have hce : cat = (c, [kv.1]) := by simpa using hc1
              subst hce
              have hkk : k = kv.1 := by simpa using hk
              subst hkk
              exact ⟨kv.2, List.mem_append_right _ (by simp), by rw [hlab]⟩
    obtain ⟨hs1, hs2, hs3⟩ := hstep
    obtain ⟨hr1, hr2, hr3⟩ := ih (catStep metric cats kv) (pres ++ [kv]) hnd hs1 hs2 hs3
    refine ⟨hr1, hr2, ?_⟩
    intro cat hcat k hk
    obtain ⟨tc, hm, hl⟩ := hr3 cat hcat k hk
    refine ⟨tc, ?_, hl⟩
    rw [hshift]
    exact hm

/-- The `buildCategories` invariants at the top level. -/
theorem buildCategories_inv (metric : String) (tcs : List (String × TestCase))
    (hnd : (tcs.map Prod.fst).Nodup) :
    ((buildCategories metric tcs).map Prod.fst).Nodup ∧
    (∀ cat ∈ buildCategories metric tcs, cat.2.Nodup) ∧
    (∀ cat ∈ buildCategories metric tcs, ∀ k ∈ cat.2,
      ∃ tc, (k, tc) ∈ tcs ∧ tcLabel metric tc = Option.some cat.1) := by
  rw [buildCategories_eq_foldl]
  have h := catStep_foldl_inv metric tcs [] [] (by simpa using hnd)
    List.nodup_nil (by simp) (by simp)
  obtain ⟨h1, h2, h3⟩ := h
  refine ⟨h1, h2, ?_⟩
  intro cat hcat k hk
  obtain ⟨tc, hm, hl⟩ := h3 cat hcat k hk
  exact ⟨tc, by simpa using hm, hl⟩

/-- Distinct categories of a duplicate-free collection have disjoint
member lists. -/
theorem buildCategories_disjoint (metric : String)
    (tcs : List (String × TestCase)) (hnd : (tcs.map Prod.fst).Nodup)
    (cat1 cat2 : Int × List String)
    (h1 : cat1 ∈ buildCategories metric tcs)
    (h2 : cat2 ∈ buildCategories metric tcs)
    (hne : cat1 ≠ cat2) (k : String) (hk1 : k ∈ cat1.2) : k ∉ cat2.2 := by
  intro hk2
  obtain ⟨_, _, hsound⟩ := buildCategories_inv metric tcs hnd
  obtain ⟨hcnd, _, _⟩ := buildCategories_inv metric tcs hnd
  obtain ⟨tc1, hm1, hl1⟩ := hsound cat1 h1 k hk1
  obtain ⟨tc2, hm2, hl2⟩ := hsound cat2 h2 k hk2
  have htc : (k, tc1) = (k, tc2) := mem_fst_unique tcs hnd _ _ hm1 hm2 rfl
  have htc2 : tc1 = tc2 := congrArg Prod.snd htc
  subst htc2
  rw [hl1] at hl2
  have hlabel : cat1.1 = cat2.1 := by
    injection hl2
  exact hne (mem_fst_unique (buildCategories metric tcs) hcnd cat1 cat2 h1 h2 hlabel)

/-- Member-aware monotonicity of `Forall₂`. -/
theorem forall₂_imp_mem {α β : Type} {R S : α → β → Prop} :
    ∀ {l₁ : List α} {l₂ : List β}, List.Forall₂ R l₁ l₂ →
      (∀ a ∈ l₁, ∀ b, R a b → S a b) → List.Forall₂ S l₁ l₂ := by
  intro l₁ l₂ h
  induction h with
  | nil => intro _; exact List.Forall₂.nil
  | cons hab ht ih =>
    intro hm
    exact List.Forall₂.cons (hm _ (List.mem_cons_self _ _) _ hab)
      (ih fun a ha b => hm a (List.mem_cons_of_mem _ ha) b)

/-- Parts of categories disjoint from the target contribute nothing to
the target filter. -/
theorem flatten_filter_nil (target : Int × List String) :
    ∀ (cats : List (Int × List String)) (parts : List (List String)),
      List.Forall₂ (fun cat part => ∀ x ∈ part, x ∈ cat.2) cats parts →
      (∀ cat ∈ cats, ∀ x ∈ cat.2, x ∉ target.2) →
      parts.flatten.filter (fun x => target.2.contains x) = [] := by
  intro cats parts h
  induction h with
  | nil => intro _; rfl
  | cons hab ht ih =>
    rename_i c p cs ps
    intro hdisj
    rw [List.flatten_cons, List.filter_append]
    rw [ih (fun cat hcat => hdisj cat (List.mem_cons_of_mem _ hcat))]
    rw [List.filter_eq_nil.mpr, List.nil_append]
    intro x hx
    have hxc : x ∈ c.2 := hab x hx
    have : x ∉ target.2 := hdisj c (List.mem_cons_self _ _) x hxc
    simpa using this

/-- Counting: the concatenation of per-category parts contains exactly
the target category part when categories are pairwise disjoint. -/
theorem flatten_filter_count (target : Int × List String) (n : Nat) :
    ∀ (cats : List (Int × List String)) (parts : List (List String)),
      List.Forall₂ (fun cat part =>
        part.length = n ∧ ∀ x ∈ part, x ∈ cat.2) cats parts →
      (∀ cat ∈ cats, cat ≠ target → ∀ x ∈ cat.2, x ∉ target.2) →
      target ∈ cats →
      (cats.map Prod.fst).Nodup →
      (parts.flatten.filter (fun x => target.2.contains x)).length = n := by
  intro cats parts h
  induction h with
  | nil =>
    intro _ htgt _
    cases htgt
  | cons hab ht ih =>
    rename_i c p cs ps
    intro hdisj htgt hcnd
    rw [List.map_cons, List.nodup_cons] at hcnd
    rw [List.flatten_cons, List.filter_append, List.length_append]
    by_cases hct : c = target
    · subst hct
      have hp1 : p.filter (fun x => c.2.contains x) = p := by
        refine List.filter_eq_self.mpr ?_
        intro x hx
        have : x ∈ c.2 := hab.2 x hx
        simpa using this
      have hp2 : ps.flatten.filter (fun x => c.2.contains x) = [] := by
        refine flatten_filter_nil c cs ps (forall₂_imp_mem ht ?_) ?_
        · intro a _ b hr
          exact hr.2
        intro cat hcat x hx
        have hcne : cat ≠ c := by
          intro he
          subst he
          exact hcnd.1 (List.mem_map.mpr ⟨cat, hcat, rfl⟩)
        exact hdisj cat (List.mem_cons_of_mem _ hcat) hcne x hx
      rw [hp1, hp2]
      simp [hab.1]
    · have hp1 : p.filter (fun x => target.2.contains x) = [] := by
        refine List.filter_eq_nil.mpr ?_
        intro x hx
        have hxc : x ∈ c.2 := hab.2 x hx
        have : x ∉ target.2 := hdisj c (List.mem_cons_self _ _) hct x hxc
        simpa using this
      have htgt2 : target ∈ cs := by
        rcases List.mem_cons.mp htgt with he | he
        · exact absurd he.symm hct
        · exact he
      rw [hp1]
      simp only [List.length_nil, Nat.zero_add]
      exact ih (fun cat hcat => hdisj cat (List.mem_cons_of_mem _ hcat))
        htgt2 hcnd.2

/-- The concatenation of duplicate-free parts of pairwise-disjoint
categories is duplicate-free. -/
theorem flatten_parts_nodup :
    ∀ (cats : List (Int × List String)) (parts : List (List String)),
      List.Forall₂ (fun cat part =>
        (∀ x ∈ part, x ∈ cat.2) ∧ part.Nodup) cats parts →
      (∀ c1 ∈ cats, ∀ c2 ∈ cats, c1 ≠ c2 → ∀ x ∈ c1.2, x ∉ c2.2) →
      (cats.map Prod.fst).Nodup →
      parts.flatten.Nodup := by
  intro cats parts h
  induction h with
  | nil => intro _ _; exact List.nodup_nil
  | cons hab ht ih =>
    rename_i c p cs ps
    intro hdisj hcnd
    rw [List.map_cons, List.nodup_cons] at hcnd
    rw [List.flatten_cons]
    refine List.Nodup.append hab.2
      (ih (fun c1 hc1 c2 hc2 => hdisj c1 (List.mem_cons_of_mem _ hc1)
        c2 (List.mem_cons_of_mem _ hc2)) hcnd.2) ?_
    intro x hxp hxf
    have hxc : x ∈ c.2 := hab.1 x hxp
    -- x also in some later category
    have : ∃ cat ∈ cs, x ∈ cat.2 := by
      clear hab hdisj hcnd ih hxp hxc
      induction ht with
      | nil => cases hxf
      | cons hab2 ht2 ih2 =>
        rename_i c2 p2 cs2 ps2
        rw [List.flatten_cons] at hxf
        rcases List.mem_append.mp hxf with hx | hx
        · exact ⟨c2, List.mem_cons_self _ _, hab2.1 x hx⟩
        · obtain ⟨cat, hcat, hxcat⟩ := ih2 hx
          exact ⟨cat, List.mem_cons_of_mem _ hcat, hxcat⟩
    obtain ⟨cat, hcat, hxcat⟩ := this
    have hcne : c ≠ cat := by
      intro he
      apply hcnd.1
      rw [he]
      exact List.mem_map.mpr ⟨cat, hcat, rfl⟩
    exact hdisj c (List.mem_cons_self _ _) cat (List.mem_cons_of_mem _ hcat)
      hcne x hxc hxcat

/-- Every chosen ID comes from some category. -/
theorem flatten_mem_cat :
    ∀ (cats : List (Int × List String)) (parts : List (List String)),
      List.Forall₂ (fun cat part => ∀ x ∈ part, x ∈ cat.2) cats parts →
      ∀ x ∈ parts.flatten, ∃ cat ∈ cats, x ∈ cat.2 := by
  intro cats parts h
  induction h with
  | nil => intro x hx; cases hx
  | cons hab ht ih =>
    rename_i c p cs ps
    intro x hx
    rw [List.flatten_cons] at hx
    rcases List.mem_append.mp hx with hx | hx
    · exact ⟨c, List.mem_cons_self _ _, hab x hx⟩
    · obtain ⟨cat, hcat, hxcat⟩ := ih x hx
      exact ⟨cat, List.mem_cons_of_mem _ hcat, hxcat⟩

/-- C9.  For every collection with distinct IDs, a successful
`get_equal_sample` returns a selection containing exactly `to_choose`
IDs from each category of the metric (with `to_choose = count` in the
non-fractional case), drawn without replacement (the selection is
duplicate-free), and never containing an ID whose label for the metric
is null. -/
theorem c9_sampler_balance (tcs : List (String × TestCase)) (count : PyNum)
    (fractional : Bool) (metric : String) (seed : Nat) (chosen : List String)
    (hnd : (tcs.map Prod.fst).Nodup)
    (hok : getEqualSample tcs count fractional metric seed = Except.ok chosen) :
    ∃ toChoose : Int,
      (fractional = false → ∀ i : Int, count = PyNum.int i → toChoose = i) ∧
      0 ≤ toChoose ∧
      (∀ cat ∈ buildCategories metric tcs,
        (chosen.filter (fun x => cat.2.contains x)).length = toChoose.toNat) ∧
      chosen.Nodup ∧
      (∀ x ∈ chosen, ∃ tc, (x, tc) ∈ tcs ∧ tcLabel metric tc ≠ Option.none) := by
  unfold getEqualSample at hok
  by_cases hm : metric ≠ "nar" ∧ metric ≠ "pcr"
  · rw [if_pos hm] at hok
    exact Except.noConfusion hok
  · rw [if_neg hm] at hok
    by_cases hf2 : fractional = true ∧ (count.val < 0 ∨ count.val > 1)
    · rw [if_pos hf2] at hok
      exact Except.noConfusion hok
    · rw [if_neg hf2] at hok
      replace hok : (match (buildCategories metric tcs).map
          (fun c => c.2.length) with
        | [] => Except.error SampErr.minEmpty
        | c0 :: crest =>
          (toChooseOf count fractional (crest.foldl min c0)) >>=
            (fun toChoose =>
              if toChoose > ((crest.foldl min c0 : Nat) : Int) then
                throw SampErr.insufficient
              else
                (sampleCatsLoop toChoose (buildCategories metric tcs)
                  (mtInit seed)) >>= (fun p => Except.ok p.1))) =
          Except.ok chosen := hok
      cases hcats : (buildCategories metric tcs).map (fun c => c.2.length) with
      | nil =>
        rw [hcats] at hok
        exact Except.noConfusion hok
      | cons c0 crest =>
        rw [hcats] at hok
        simp only [] at hok
        -- name the pieces
        suffices htail : ∀ (toChoose : Int),
            (fractional = false → ∀ i : Int, count = PyNum.int i → toChoose = i) →
            ((do
              if toChoose > ((crest.foldl min c0 : Nat) : Int) then
                throw SampErr.insufficient
              else do
                let p ← sampleCatsLoop toChoose (buildCategories metric tcs)
                  (mtInit seed)
                Except.ok p.1) :
              Except SampErr (List String)) = Except.ok chosen →
            (∃ toChoose : Int,
              (fractional = false → ∀ i : Int, count = PyNum.int i → toChoose = i) ∧
              0 ≤ toChoose ∧
              (∀ cat ∈ buildCategories metric tcs,
                (chosen.filter (fun x => cat.2.contains x)).length = toChoose.toNat) ∧
              chosen.Nodup ∧
              (∀ x ∈ chosen, ∃ tc, (x, tc) ∈ tcs ∧
                tcLabel metric tc ≠ Option.none)) by
          cases fractional with
          | true =>
            exact htail (pyRound (count.val * ((crest.foldl min c0 : Nat) : Rat)))
              (fun hc => Bool.noConfusion hc) hok
          | false =>
            cases count with
            | int i => exact htail i (fun _ j hj => by injection hj) hok
            | float q => exact Except.noConfusion hok
        intro toChoose htc htl
        by_cases hgt : toChoose > ((crest.foldl min c0 : Nat) : Int)
        · rw [if_pos hgt] at htl
          exact Except.noConfusion htl
        · rw [if_neg hgt] at htl
          cases hscl : sampleCatsLoop toChoose (buildCategories metric tcs)
              (mtInit seed) with
          | error e =>
            rw [hscl, exceptBindErr] at htl
            exact Except.noConfusion htl
          | ok p =>
            obtain ⟨ch, stF⟩ := p
            rw [hscl, exceptBindOk] at htl
            injection htl with h1
            have hch : chosen = ch := h1.symm
            subst hch
            obtain ⟨parts, hfl, hne0, hfa⟩ :=
              sampleCatsLoop_parts (buildCategories metric tcs) toChoose
                (mtInit seed) chosen stF hscl
            obtain ⟨hcnd, hcm, hsound⟩ := buildCategories_inv metric tcs hnd
            have hcatsne : buildCategories metric tcs ≠ [] := by
              intro he
              rw [he] at hcats
              exact List.noConfusion hcats
            have hk0 : 0 ≤ toChoose := hne0 hcatsne
            have hdisj2 : ∀ c1 ∈ buildCategories metric tcs,
                ∀ c2 ∈ buildCategories metric tcs, c1 ≠ c2 →
                ∀ x ∈ c1.2, x ∉ c2.2 := by
              intro c1 hc1 c2 hc2 hne12 x hx
              exact buildCategories_disjoint metric tcs hnd c1 c2 hc1 hc2
                hne12 x hx
            refine ⟨toChoose, htc, hk0, ?_, ?_, ?_⟩
            · intro cat hcat
              rw [hfl]
              refine flatten_filter_count cat toChoose.toNat
                (buildCategories metric tcs) parts
                (forall₂_imp_mem hfa ?_) ?_ hcat hcnd
              · intro a _ b hr
                exact ⟨hr.1, hr.2.1⟩
              · intro cat2 hcat2 hne2 x hx
                exact hdisj2 cat2 hcat2 cat hcat hne2 x hx
            · rw [hfl]
              refine flatten_parts_nodup (buildCategories metric tcs) parts
                (forall₂_imp_mem hfa ?_) hdisj2 hcnd
              intro a ha b hr
              exact ⟨hr.2.1, hr.2.2 (hcm a ha)⟩
            · intro x hx
              rw [hfl] at hx
              obtain ⟨cat, hcat, hxcat⟩ := flatten_mem_cat
                (buildCategories metric tcs) parts
                (forall₂_imp_mem hfa (fun a _ b hr => hr.2.1)) x hx
              obtain ⟨tc, hmtc, hltc⟩ := hsound cat hcat x hxcat
              exact ⟨tc, hmtc, by rw [hltc]; exact Option.noConfusion⟩

/-- Witness for C9 at the concrete scenario: `count=1`, non-fractional,
metric `pcr`, seed 0 selects `["b", "c"]` — exactly one ID per category,
two in total. -/
theorem c9_sampler_balance_witness :
    getEqualSample c9coll (PyNum.int 1) false "pcr" 0 =
      Except.ok ["b", "c"] ∧
    buildCategories "pcr" c9coll = [(1, ["a", "b"]), (0, ["c"])] ∧
    (∃ toChoose : Int,
      (false = false → ∀ i : Int, PyNum.int 1 = PyNum.int i → toChoose = i) ∧
      0 ≤ toChoose ∧
      (∀ cat ∈ buildCategories "pcr" c9coll,
        ((["b", "c"] : List String).filter
          (fun x => cat.2.contains x)).length = toChoose.toNat) ∧
      (["b", "c"] : List String).Nodup ∧
      (∀ x ∈ (["b", "c"] : List String), ∃ tc, (x, tc) ∈ c9coll ∧
        tcLabel "pcr" tc ≠ Option.none)) := by
  refine ⟨?_, rfl, ?_⟩
  · unfold getEqualSample
    rw [mtInit_zero]
    rfl
  · exact c9_sampler_balance c9coll (PyNum.int 1) false "pcr" 0 ["b", "c"]
      (by decide)
      (by unfold getEqualSample; rw [mtInit_zero]; rfl)
